import Mathlib

/-!
SystemCleaner: the scan/clean engine, its path guard and its custom-path store.

A shallow embedding of `source/core/system_cleaner.cpp`,
`source/utils/path_validator.cpp`, `source/core/path_validator.cpp`,
`source/common/cleaner_info.hpp` and the handlers of
`source/gui/widgets/cleaner_panel.cpp` that call the engine.

Conventions of the embedding.

* A `std::filesystem::path` is the text it was built from (`fs.Path`), as the
  sequence of `char` that `path.string ()` gives; the lexical operations of the
  library that the sources use (`root_path`, `parent_path`, `operator/`,
  `filename`, iteration over the elements) are small functions on that text.
* The disk is a finite list of entries, each at a location given by its
  elements. The queries whose failure the sources provide for and the
  specification speaks of (`file_size`, `remove`, `relative`, `equivalent` in
  `addCustomPath`, `GetFileAttributesW`, a directory that cannot be opened) can
  fail in the model; every other query is modelled by its answer. Where a call of
  `fs::exists` or `fs::equivalent` stands outside every handler, a function
  named `raises` tells whether the call that contains it ends by an exception.
* `uint64_t` and `uint32_t` values are natural numbers, reduced modulo `2 ^ 64`
  and `2 ^ 32` where the sources compute with them.
* A function that changes the disk or the engine returns the new value next to
  its result.
-/

set_option autoImplicit false
set_option maxRecDepth 20000

/-! ## The filesystem -/

namespace fs

/-- A path, held as the text it was built from: the sequence of `char` that
`path.string ()` gives, one character for each `char`. -/
abbrev Path := String

/-- `path::string`: the text of the path as a sequence of `char`. -/
def string (p : Path) : List Char := p.data

/-- Every character of the text of the path is a `char`, a value below 256; the
length of the text is then its number of bytes. -/
def isNarrow (p : Path) : Bool := (string p).all (fun c => decide (c.toNat < 256))

/-- Both separators that a Windows path accepts. -/
def isSeparator (c : Char) : Bool := c == '\\' || c == '/'

/-- The elements of a path text, read left to right; `acc` holds the element
being read, last character first. Empty elements are dropped. -/
def splitElements : List Char → List Char → List String
  | [], acc => if acc.isEmpty then [] else [String.mk acc.reverse]
  | c :: cs, acc =>
    if isSeparator c then
      (if acc.isEmpty then splitElements cs [] else String.mk acc.reverse :: splitElements cs [])
    else splitElements cs (c :: acc)

/-- The elements of a path: `C:\Temp\a.log` has the elements `C:`, `Temp`, `a.log`. -/
def elements (p : Path) : List String := splitElements p.data []

/-- What `status` can report for an entry of the disk. -/
inductive FileType where
  | regular
  | directory
  | other
  deriving DecidableEq, Repr

/-- One entry of the disk.

* `loc`: the elements of its path;
* `size`: what `file_size` reports;
* `sizeRaises`: `file_size` raises `filesystem_error` for it;
* `locked`: `remove` raises `filesystem_error` for it (in use, read-only, ...);
* `denied`: a directory that cannot be opened (permission denied). -/
structure Entry where
  loc : List String
  type : FileType
  size : Nat := 0
  sizeRaises : Bool := false
  locked : Bool := false
  denied : Bool := false
  deriving DecidableEq, Repr

/-- The disk: its entries, in the order a directory iteration meets them. -/
abbrev Disk := List Entry

/-- The entry at a location, when there is one. -/
def entryAt (disk : Disk) (loc : List String) : Option Entry :=
  disk.find? (fun e => e.loc == loc)

/-- `fs::is_directory`. -/
def is_directory (disk : Disk) (loc : List String) : Bool :=
  match entryAt disk loc with
  | some e => e.type == FileType.directory
  | none => false

/-- `fs::is_regular_file`. -/
def is_regular_file (disk : Disk) (loc : List String) : Bool :=
  match entryAt disk loc with
  | some e => e.type == FileType.regular
  | none => false

/-- `fs::file_size`; `none` when the call raises. -/
def file_size (disk : Disk) (loc : List String) : Option Nat :=
  match entryAt disk loc with
  | some e => if e.sizeRaises then none else some e.size
  | none => none

/-- Whether `e` lies strictly beneath the directory `dir`. -/
def beneath (dir : List String) (e : Entry) : Bool :=
  dir.isPrefixOf e.loc && e.loc != dir

/-- Whether a directory on the way from `dir` (included) down to `e` (excluded)
cannot be opened. -/
def behindDenied (disk : Disk) (dir : List String) (e : Entry) : Bool :=
  disk.any (fun a => a.type == FileType.directory && a.denied
    && dir.isPrefixOf a.loc && a.loc.isPrefixOf e.loc && a.loc != e.loc)

/-- What `recursive_directory_iterator (dir, skip_permission_denied)` yields: every
entry beneath `dir`, at any depth, that is not behind a directory that cannot be
opened. -/
def recursive_directory_iterator (disk : Disk) (dir : List String) : List Entry :=
  disk.filter (fun e => beneath dir e && !behindDenied disk dir e)

/-- `fs::remove` on a file: `none` when the call raises, else whether a file was
removed, and the disk afterwards. -/
def remove (disk : Disk) (loc : List String) : Option (Bool × Disk) :=
  match entryAt disk loc with
  | none => some (false, disk)
  | some e => if e.locked then none else some (true, disk.filter (fun x => x.loc != loc))

/-! ### Lexical operations on paths -/

/-- The root name: a drive such as `C:`, or nothing. -/
def root_name (p : Path) : String :=
  match p.data with
  | c :: ':' :: _ => if c.isAlpha then String.mk [c, ':'] else ""
  | _ => ""

/-- The text after the root name. -/
def afterRootName (p : Path) : List Char :=
  p.data.drop (root_name p).data.length

/-- Whether a root directory follows the root name. -/
def has_root_directory (p : Path) : Bool :=
  match afterRootName p with
  | c :: _ => isSeparator c
  | [] => false

/-- `path::root_path`: the root name and the root directory. -/
def root_path (p : Path) : Path :=
  root_name p ++ (if has_root_directory p then "\\" else "")

/-- The file names of a path, after its root. -/
def names (p : Path) : List String := splitElements (afterRootName p) []

/-- What iterating over a path yields: the root name, the root directory, then
the file names. -/
def iterate (p : Path) : List String :=
  (if (root_name p).data.isEmpty then [] else [root_name p])
    ++ (if has_root_directory p then ["\\"] else []) ++ names p

/-- Lexical equality of two paths, `operator==`: element by element. -/
def pathEq (p q : Path) : Bool := iterate p == iterate q

/-- Path elements joined by the preferred separator. -/
def joinNames : List String → String
  | [] => ""
  | [a] => a
  | a :: rest => a ++ "\\" ++ joinNames rest

/-- `path::parent_path`: the path without its last file name; a path without file
names is its own parent. -/
def parent_path (p : Path) : Path :=
  if (names p).isEmpty then p else root_path p ++ joinNames (names p).dropLast

/-- `operator/` with a relative right operand: a separator is added unless the
left operand is empty or ends in one. -/
def append (p : Path) (name : String) : Path :=
  match p.data.getLast? with
  | none => name
  | some c => if isSeparator c then p ++ name else p ++ "\\" ++ name

/-- `path::filename`: the last file name; empty when the path has no file name or
ends in a separator. -/
def filename (p : Path) : String :=
  match (afterRootName p).getLast? with
  | some c => if isSeparator c then "" else (names p).getLast?.getD ""
  | none => ""

/-- The elements at which two element sequences part, as `std::mismatch` finds
them. -/
def mismatch : List String → List String → List String × List String
  | a :: as, b :: bs => if a == b then mismatch as bs else (a :: as, b :: bs)
  | as, bs => (as, bs)

/-- The count that `lexically_relative` takes over what is left of the base: one
down for `..`, one up for every other element but `.`. -/
def climb : List String → Int
  | [] => 0
  | b :: bs => (if b == ".." then -1 else if b == "." then 0 else 1) + climb bs

/-- `path::is_absolute` on Windows: a root name and a root directory. -/
def is_absolute (p : Path) : Bool :=
  !(root_name p).data.isEmpty && has_root_directory p

/-- `path::lexically_relative`. -/
def lexically_relative (p base : Path) : Path :=
  if root_name p != root_name base
      || is_absolute p != is_absolute base
      || (!has_root_directory p && has_root_directory base) then ""
  else
    let rest := mismatch (iterate p) (iterate base)
    if rest.1.isEmpty && rest.2.isEmpty then "."
    else
      let n := climb rest.2
      if n < 0 then ""
      else if n == 0 && rest.1.isEmpty then "."
      else joinNames (List.replicate n.toNat ".." ++ rest.1)

/-- `relativePath.string ().rfind ("..", 0) != 0` is the negation of this: the
text begins with two dots. -/
def beginsWithDotDot (s : String) : Bool := ['.', '.'].isPrefixOf s.data

/-! ### What the validator asks the system -/

/-- The answers of the filesystem and of the system to the queries of the path
validator.

* `pathExists`: the answer of `fs::exists`; `existsRaises`: the call raises
  instead of answering;
* `equivalent`: the answer of `fs::equivalent`; `equivalentRaises`: the call
  raises instead of answering;
* `weakly_canonical`: the canonical form that `fs::relative` computes first,
  `none` when that raises;
* `attributes`: what `GetFileAttributesW` returns;
* `windowsDir`: `utils::FileSystem::instance ().getWindowsDir ()`, whose source is
  not among the files. -/
structure Env where
  pathExists : Path → Bool
  equivalent : Path → Path → Bool
  equivalentRaises : Path → Path → Bool
  weakly_canonical : Path → Option Path
  attributes : Path → Nat
  windowsDir : Path
  existsRaises : Path → Bool := fun _ => false

/-- `fs::relative`: `none` when the call raises. -/
def relative (env : Env) (p base : Path) : Option Path :=
  match env.weakly_canonical p, env.weakly_canonical base with
  | some cp, some cbase => some (lexically_relative cp cbase)
  | _, _ => none

end fs

/-! ## `core::SystemCleaner::processPath` -/

namespace core

/-- The modulus of `uint64_t` arithmetic. -/
def UINT64_MOD : Nat := 2 ^ 64

/-- `core::DirInfo`. -/
structure DirInfo where
  dirSize : Nat := 0
  countFile : Nat := 0
  deriving DecidableEq, Repr

/-- The lambda `processFile` of `processPath`: the removal happens inside its
handler, so a removal that raises leaves the tally as it was. -/
def processFile (deleteFiles : Bool) (filePath : List String) (fileSize : Nat)
    (info : DirInfo) (disk : fs.Disk) : DirInfo × fs.Disk :=
  if !deleteFiles then
    ({ countFile := (info.countFile + 1) % UINT64_MOD,
       dirSize := (info.dirSize + fileSize) % UINT64_MOD }, disk)
  else
    match fs.remove disk filePath with
    | none => (info, disk)
    | some (shouldCount, disk1) =>
      if shouldCount then
        ({ countFile := (info.countFile + 1) % UINT64_MOD,
           dirSize := (info.dirSize + fileSize) % UINT64_MOD }, disk1)
      else (info, disk1)

/-- The range-for of `processPath` over the entries the iterator yields.
`entry.file_size ()` is evaluated as an argument, before `processFile` is entered:
when it raises, control leaves the loop for the outer handler and the tally
gathered so far is returned. -/
def processEntries (deleteFiles : Bool) : List fs.Entry → DirInfo → fs.Disk → DirInfo × fs.Disk
  | [], info, disk => (info, disk)
  | entry :: rest, info, disk =>
    if entry.type == fs.FileType.regular then
      if entry.sizeRaises then (info, disk)
      else
        let step := processFile deleteFiles entry.loc entry.size info disk
        processEntries deleteFiles rest step.1 step.2
    else processEntries deleteFiles rest info disk

/-- `core::SystemCleaner::processPath`: the tally, and the disk afterwards. -/
def processPath (disk : fs.Disk) (pathDir : fs.Path) (deleteFiles : Bool) : DirInfo × fs.Disk :=
  let loc := fs.elements pathDir
  if fs.is_directory disk loc then
    processEntries deleteFiles (fs.recursive_directory_iterator disk loc) {} disk
  else if fs.is_regular_file disk loc then
    match fs.file_size disk loc with
    | none => ({}, disk)
    | some fileSize => processFile deleteFiles loc fileSize {} disk
  else ({}, disk)

end core

/-! ## The path validator: `utils/path_validator.cpp` and `core/path_validator.cpp`

The helpers of the unnamed namespace are the same in both files. -/

namespace utils.path

/-- `SYSTEM_FOLDERS`. -/
def SYSTEM_FOLDERS : List String :=
  ["System32", "SysWOW64", "WinSxS", "assembly", "Microsoft.NET", "boot", "SystemResources"]

/-- `PROGRAM_FOLDERS`. -/
def PROGRAM_FOLDERS : List String :=
  ["Program Files", "Program Files (x86)", "ProgramData"]

/-- `FILE_ATTRIBUTE_HIDDEN` of `windows.h`. -/
def FILE_ATTRIBUTE_HIDDEN : Nat := 0x2

/-- `FILE_ATTRIBUTE_SYSTEM` of `windows.h`. -/
def FILE_ATTRIBUTE_SYSTEM : Nat := 0x4

/-- `INVALID_FILE_ATTRIBUTES` of `windows.h`. -/
def INVALID_FILE_ATTRIBUTES : Nat := 0xFFFFFFFF

/-- `PROTECTED_ATTR`. -/
def PROTECTED_ATTR : Nat := FILE_ATTRIBUTE_SYSTEM ||| FILE_ATTRIBUTE_HIDDEN

/-- The test both helpers apply to a relative path: it is not empty and its text
does not begin with two dots. The relative path is `none` when `fs::relative`
raised, which the handler turns into "no". -/
def liesInside (relativePath : Option fs.Path) : Bool :=
  match relativePath with
  | some rel => !rel.data.isEmpty && !fs.beginsWithDotDot rel
  | none => false

/-- The loop of `isWindowsSystemFolder` over `SYSTEM_FOLDERS`. -/
def systemFolderLoop (env : fs.Env) (path windowsDir : fs.Path) : List String → Bool
  | [] => false
  | systemFolder :: rest =>
    let sysPath := fs.append windowsDir systemFolder
    if env.pathExists sysPath && env.equivalent sysPath path then true
    else systemFolderLoop env path windowsDir rest

/-- `isWindowsSystemFolder`. -/
def isWindowsSystemFolder (env : fs.Env) (path : fs.Path) : Bool :=
  let windowsDir := env.windowsDir
  if env.equivalent path windowsDir then true
  else if liesInside (fs.relative env path windowsDir) then true
  else systemFolderLoop env path windowsDir SYSTEM_FOLDERS

/-- The loop of `isWindowsProgramFiles` over `PROGRAM_FOLDERS`. -/
def programFolderLoop (env : fs.Env) (path diskPath : fs.Path) : List String → Bool
  | [] => false
  | programFolder :: rest =>
    let progPath := fs.append diskPath programFolder
    if env.pathExists progPath && env.equivalent diskPath progPath then true
    else if liesInside (fs.relative env path progPath) then true
    else programFolderLoop env path diskPath rest

/-- `isWindowsProgramFiles`. -/
def isWindowsProgramFiles (env : fs.Env) (path : fs.Path) : Bool :=
  let diskPath := fs.parent_path env.windowsDir
  programFolderLoop env path diskPath PROGRAM_FOLDERS

/-- `isProtectedByAttributes`. -/
def isProtectedByAttributes (env : fs.Env) (path : fs.Path) : Bool :=
  let attrs := env.attributes path
  if attrs == INVALID_FILE_ATTRIBUTES then true
  else (attrs &&& PROTECTED_ATTR) != 0

/-- `utils::path::validate` of `utils/path_validator.cpp`: the reason for which
the path is refused, or none. This is what the call returns; whether it ends by an
exception instead is told by `validate.raises`. -/
def validate (env : fs.Env) (path : fs.Path) : Option String :=
  if !env.pathExists path then some "Path not found"
  else if fs.pathEq path (fs.root_path path) then some "Cannot select drive root"
  else if isWindowsSystemFolder env path then some "Windows system folder"
  else if isWindowsProgramFiles env path then some "Program Files folder"
  else if isProtectedByAttributes env path then some "File/Folder has protected system attributes"
  else none

/-- Whether the loop of `isWindowsSystemFolder` ends by an exception: a call of
`fs::exists` or of `fs::equivalent`, both outside every handler, raises before the
loop returns. -/
def systemFolderLoop.raises (env : fs.Env) (path windowsDir : fs.Path) : List String → Bool
  | [] => false
  | systemFolder :: rest =>
    let sysPath := fs.append windowsDir systemFolder
    if env.existsRaises sysPath then true
    else if env.pathExists sysPath then
      (if env.equivalentRaises sysPath path then true
       else if env.equivalent sysPath path then false
       else systemFolderLoop.raises env path windowsDir rest)
    else systemFolderLoop.raises env path windowsDir rest

/-- Whether `isWindowsSystemFolder` ends by an exception: its first call of
`fs::equivalent` is outside every handler, `fs::relative` is inside one. -/
def isWindowsSystemFolder.raises (env : fs.Env) (path : fs.Path) : Bool :=
  let windowsDir := env.windowsDir
  if env.equivalentRaises path windowsDir then true
  else if env.equivalent path windowsDir then false
  else if liesInside (fs.relative env path windowsDir) then false
  else systemFolderLoop.raises env path windowsDir SYSTEM_FOLDERS

/-- Whether the loop of `isWindowsProgramFiles` ends by an exception. -/
def programFolderLoop.raises (env : fs.Env) (path diskPath : fs.Path) : List String → Bool
  | [] => false
  | programFolder :: rest =>
    let progPath := fs.append diskPath programFolder
    if env.existsRaises progPath then true
    else if env.pathExists progPath then
      (if env.equivalentRaises diskPath progPath then true
       else if env.equivalent diskPath progPath then false
       else if liesInside (fs.relative env path progPath) then false
       else programFolderLoop.raises env path diskPath rest)
    else if liesInside (fs.relative env path progPath) then false
    else programFolderLoop.raises env path diskPath rest

/-- Whether `isWindowsProgramFiles` ends by an exception. -/
def isWindowsProgramFiles.raises (env : fs.Env) (path : fs.Path) : Bool :=
  programFolderLoop.raises env path (fs.parent_path env.windowsDir) PROGRAM_FOLDERS

/-- Whether `validate` ends by an exception instead of returning: one of its
queries outside every handler raises, at a point that the call reaches. -/
def validate.raises (env : fs.Env) (path : fs.Path) : Bool :=
  if env.existsRaises path then true
  else if !env.pathExists path then false
  else if fs.pathEq path (fs.root_path path) then false
  else if isWindowsSystemFolder.raises env path then true
  else if isWindowsSystemFolder env path then false
  else isWindowsProgramFiles.raises env path

end utils.path

namespace core.path_validator

/-- `MAX_LENGTH` of `core/path_validator.cpp`. -/
def MAX_LENGTH : Nat := 260

/-- `utils::path::validate` of `core/path_validator.cpp`: the boolean form. -/
def validate (env : fs.Env) (path : fs.Path) : Bool :=
  if !env.pathExists path || decide (path.length > MAX_LENGTH) then false
  else if fs.pathEq path (fs.root_path path) then false
  else if utils.path.isWindowsSystemFolder env path || utils.path.isWindowsProgramFiles env path then
    false
  else if utils.path.isProtectedByAttributes env path then false
  else true

end core.path_validator

/-! ## `common/cleaner_info.hpp` -/

namespace common

/-- `common::CleanerState`. -/
inductive CleanerState where
  | IDLE
  | ANALYZING
  | ANALYSIS_DONE
  | CLEANING
  | CLEANING_DONE
  deriving DecidableEq, Repr

/-- `common::SummaryType`. -/
inductive SummaryType where
  | NONE
  | ANALYSIS
  | CLEANING
  deriving DecidableEq, Repr

/-- `common::CleanOption`; the default member initialiser of `id`, a call of
`IDGenerator::next`, is made where an option is built. -/
structure CleanOption where
  enabled : Bool := true
  displayName : String := ""
  id : Nat
  deriving DecidableEq, Repr

/-- `common::PathAdditionResult`. -/
structure PathAdditionResult where
  errorMessage : String
  option : CleanOption
  deriving DecidableEq, Repr

/-- `PathAdditionResult::isSuccess`. -/
def PathAdditionResult.isSuccess (r : PathAdditionResult) : Bool :=
  r.errorMessage.data.isEmpty

/-- `common::ItemType`. -/
inductive ItemType where
  | NONE
  | BROWSER
  | TEMP
  | SYSTEM
  | CUSTOM_PATH
  deriving DecidableEq, Repr

/-- `common::CleaningItem`. -/
structure CleaningItem where
  name : String
  textureID : Nat := 0
  itemType : ItemType := ItemType.NONE
  cleanOptions : List CleanOption := []
  deriving DecidableEq, Repr

/-- The loop of `CleaningItem::isNeedClean`. -/
def anyEnabled : List CleanOption → Bool
  | [] => false
  | cleanOption :: rest => if cleanOption.enabled then true else anyEnabled rest

/-- `CleaningItem::isNeedClean`. -/
def CleaningItem.isNeedClean (item : CleaningItem) : Bool :=
  anyEnabled item.cleanOptions

/-- `common::CleanResult`. -/
structure CleanResult where
  propertyName : String
  categoryName : String
  cleanedFiles : Nat := 0
  cleanedSize : Nat := 0
  textureID : Nat := 0
  deriving DecidableEq, Repr

/-- `common::Summary`; the elapsed time, a `float` read off the clock, is held
as a number of milliseconds. -/
structure Summary where
  type : SummaryType := SummaryType.NONE
  totalTime : Nat := 0
  totalFiles : Nat := 0
  totalSize : Nat := 0
  results : List CleanResult := []
  deriving DecidableEq, Repr

/-- Modelled from the spec: `common::SYSTEM` of `common/constants.hpp`, which is
not among the sources; the name of the `SYSTEM` category. -/
def SYSTEM : String := "SYSTEM"

end common

/-! ## The engine and what surrounds it -/

namespace core

/-- `RECYCLE_BIN` of `system_cleaner.cpp`. -/
def RECYCLE_BIN : String := "Recycle bin"

/-- The recycle bin as `SHQueryRecycleBinA` and `SHEmptyRecycleBinA` see it:
`queryFails` when the query does not succeed, else `i64NumItems` and `i64Size`
(signed 64-bit); `emptyFails` when emptying does not succeed. -/
structure RecycleBin where
  queryFails : Bool := false
  numItems : Int := 0
  size : Int := 0
  emptyFails : Bool := false
  deriving DecidableEq, Repr

/-- What the engine works on, outside its own members: the disk, the recycle
bin, how often `SHEmptyRecycleBinA` has been called, the bytes of
`custom_paths.bin` (`none`: no such file) and the counter of `IDGenerator`. -/
structure World where
  disk : fs.Disk := []
  recycleBin : RecycleBin := {}
  emptyCalls : Nat := 0
  store : Option (List Char) := none
  idCounter : Nat := 0
  deriving DecidableEq, Repr

/-- A `std::unordered_map< uint64_t, fs::path >`, as the list of its pairs in
iteration order; keys are unique. -/
abbrev PathCache := List (Nat × fs.Path)

/-- `cache[ id ]`: the mapped path; a key that is missing is inserted with an
empty path. -/
def PathCache.index (cache : PathCache) (id : Nat) : fs.Path × PathCache :=
  match cache.lookup id with
  | some path => (path, cache)
  | none => ("", cache ++ [(id, "")])

/-- The members of `core::SystemCleaner` (the progress, a `float`, apart). -/
structure SystemCleaner where
  m_cleanedFiles : Nat := 0
  m_countAnalysTasks : Nat := 0
  m_summary : common.Summary := {}
  m_cleanPathCache : PathCache := []
  m_customPathCache : PathCache := []
  m_currentState : common.CleanerState := common.CleanerState.IDLE
  deriving DecidableEq, Repr

/-- `static_cast< uint64_t >` of a signed 64-bit value. -/
def toUInt64 (x : Int) : Nat := (x % (UINT64_MOD : Int)).toNat

/-- `core::SystemCleaner::accumulateResult`. -/
def accumulateResult (self : SystemCleaner) (itemName category : String) (dirInfo : DirInfo) :
    SystemCleaner :=
  { self with
    m_summary :=
      { self.m_summary with
        totalFiles := (self.m_summary.totalFiles + dirInfo.countFile) % UINT64_MOD
        totalSize := (self.m_summary.totalSize + dirInfo.dirSize) % UINT64_MOD
        results := self.m_summary.results ++
          [{ propertyName := itemName, categoryName := category,
             cleanedFiles := dirInfo.countFile, cleanedSize := dirInfo.dirSize }] } }

/-- One turn of the loop of `analysisOptions`, for one option of the item. -/
def analysisOption (cleaningItem : common.CleaningItem) (state : SystemCleaner × World)
    (cleanOption : common.CleanOption) : SystemCleaner × World :=
  let self := state.1
  let world := state.2
  if !cleanOption.enabled then (self, world)
  else if cleanOption.displayName == RECYCLE_BIN then
    let dirInfo : DirInfo :=
      if world.recycleBin.queryFails then {}
      else { countFile := toUInt64 world.recycleBin.numItems,
             dirSize := toUInt64 world.recycleBin.size }
    (accumulateResult self common.SYSTEM cleanOption.displayName dirInfo, world)
  else if cleaningItem.itemType == common.ItemType.CUSTOM_PATH then
    let found := self.m_customPathCache.index cleanOption.id
    let walked := processPath world.disk found.1 false
    (accumulateResult { self with m_customPathCache := found.2 } cleaningItem.name
      cleanOption.displayName walked.1, { world with disk := walked.2 })
  else
    let found := self.m_cleanPathCache.index cleanOption.id
    let walked := processPath world.disk found.1 false
    (accumulateResult { self with m_cleanPathCache := found.2 } cleaningItem.name
      cleanOption.displayName walked.1, { world with disk := walked.2 })

/-- `core::SystemCleaner::analysisOptions`. -/
def analysisOptions (self : SystemCleaner) (world : World) (cleaningItem : common.CleaningItem) :
    SystemCleaner × World :=
  cleaningItem.cleanOptions.foldl (analysisOption cleaningItem) (self, world)

end core

/-! ## Runs: `analysis`, `clear`, `getSummary` and the tasks they submit -/

namespace core

/-- `core::SystemCleaner::resetData`. -/
def resetData (self : SystemCleaner) : SystemCleaner :=
  { self with
    m_summary := { self.m_summary with results := [], totalFiles := 0, totalSize := 0 }
    m_cleanedFiles := 0
    m_countAnalysTasks := 0 }

/-- `core::SystemCleaner::getSummary`: the summary returned, and the engine
afterwards. -/
def getSummary (self : SystemCleaner) : common.Summary × SystemCleaner :=
  (self.m_summary, { self with m_currentState := common.CleanerState.IDLE })

/-- `core::SystemCleaner::getCurrentState`. -/
def getCurrentState (self : SystemCleaner) : common.CleanerState := self.m_currentState

/-- `SHEmptyRecycleBinA`: the call is counted; the bin is empty afterwards unless
the call fails. -/
def SHEmptyRecycleBinA (world : World) : World :=
  { world with
    emptyCalls := world.emptyCalls + 1
    recycleBin :=
      if world.recycleBin.emptyFails then world.recycleBin
      else { world.recycleBin with numItems := 0, size := 0 } }

/-- One turn of the loop of `cleanOptions`, for one option of the item. -/
def cleanOption (cleaningItem : common.CleaningItem) (state : SystemCleaner × World)
    (cleanOption : common.CleanOption) : SystemCleaner × World :=
  let self := state.1
  let world := state.2
  if !cleanOption.enabled then (self, world)
  else if cleanOption.displayName == RECYCLE_BIN then
    if !world.recycleBin.queryFails && decide (world.recycleBin.numItems > 0) then
      let dirInfo : DirInfo :=
        { countFile := toUInt64 world.recycleBin.numItems,
          dirSize := toUInt64 world.recycleBin.size }
      (accumulateResult self common.SYSTEM cleanOption.displayName dirInfo,
       SHEmptyRecycleBinA world)
    else (self, world)
  else if cleaningItem.itemType == common.ItemType.CUSTOM_PATH then
    let found := self.m_customPathCache.index cleanOption.id
    let walked := processPath world.disk found.1 true
    (accumulateResult { self with m_customPathCache := found.2 } cleaningItem.name
      cleanOption.displayName walked.1, { world with disk := walked.2 })
  else
    let found := self.m_cleanPathCache.index cleanOption.id
    let walked := processPath world.disk found.1 true
    (accumulateResult { self with m_cleanPathCache := found.2 } cleaningItem.name
      cleanOption.displayName walked.1, { world with disk := walked.2 })

/-- `core::SystemCleaner::cleanOptions`. -/
def cleanOptions (self : SystemCleaner) (world : World) (cleaningItem : common.CleaningItem) :
    SystemCleaner × World :=
  cleaningItem.cleanOptions.foldl (cleanOption cleaningItem) (self, world)

/-- A unit of work handed to `TaskManager::addTask` and not finished yet: one of
the four lambdas of `system_cleaner.cpp`. A worker holds its copy of the
category and the options its loop has still to visit; the coordinator of `clear`
holds its copy of the catalog and, once it has left its first loop, the baseline
`totalFiles` it read. -/
inductive Task where
  | analysisOptions (cleaningItem : common.CleaningItem) (todo : List common.CleanOption)
  | cleanOptions (cleaningItem : common.CleaningItem) (todo : List common.CleanOption)
  | analysisCoordinator (startTime : Nat)
  | clearCoordinator (startTime : Nat) (cleanTargets : List common.CleaningItem)
      (totalFiles : Option Nat)
  deriving DecidableEq, Repr

/-- The engine at work: its members, the progress (`m_progress`, held as the
exact rational), the world, and the tasks outstanding in the task manager.

Modelled from the spec: `TaskManager` of `core/task_manager.hpp`, which is not
among the sources; "a fire-and-forget task queue exposing submit a unit of work
and how many units are still outstanding". `addTask` appends to `tasks`, a task
that returns leaves `tasks`, and `countActiveTasks` is the length of `tasks`. -/
structure Machine where
  self : SystemCleaner := {}
  progress : Rat := 0
  world : World := {}
  tasks : List Task := []
  deriving DecidableEq

/-- `core::SystemCleaner::getCurrentProgress`. -/
def getCurrentProgress (m : Machine) : Rat := m.progress

/-- `TaskManager::countActiveTasks`. -/
def countActiveTasks (m : Machine) : Nat := m.tasks.length

/-- The loop of `analysisTargets` over the catalog. -/
def submitAnalysisTasks : List common.CleaningItem → Machine → Machine
  | [], m => m
  | cleaningItem :: rest, m =>
    if !cleaningItem.isNeedClean then submitAnalysisTasks rest m
    else
      submitAnalysisTasks rest
        { m with
          self := { m.self with
            m_countAnalysTasks := (m.self.m_countAnalysTasks + 1) % UINT64_MOD }
          tasks := m.tasks ++ [Task.analysisOptions cleaningItem cleaningItem.cleanOptions] }

/-- `core::SystemCleaner::analysisTargets`. -/
def analysisTargets (m : Machine) (cleaningItems : List common.CleaningItem) : Machine :=
  submitAnalysisTasks cleaningItems
    { m with
      self := { resetData m.self with m_currentState := common.CleanerState.ANALYZING } }

/-- The loop of `clearTargets` over the catalog. -/
def submitCleanTasks : List common.CleaningItem → Machine → Machine
  | [], m => m
  | cleaningItem :: rest, m =>
    if !cleaningItem.isNeedClean then submitCleanTasks rest m
    else
      submitCleanTasks rest
        { m with tasks := m.tasks ++ [Task.cleanOptions cleaningItem cleaningItem.cleanOptions] }

/-- `core::SystemCleaner::clearTargets`. -/
def clearTargets (m : Machine) (cleaningItems : List common.CleaningItem) : Machine :=
  submitCleanTasks cleaningItems
    { m with
      self := { resetData m.self with m_currentState := common.CleanerState.CLEANING } }

/-- `core::SystemCleaner::analysis`, up to its return: the workers and the
coordinator are submitted; `startTime` is the reading of the clock. -/
def analysis (m : Machine) (cleanTargets : List common.CleaningItem) (startTime : Nat) : Machine :=
  let m1 := analysisTargets m cleanTargets
  { m1 with tasks := m1.tasks ++ [Task.analysisCoordinator startTime] }

/-- `core::SystemCleaner::clear`, up to its return. -/
def clear (m : Machine) (cleanTargets : List common.CleaningItem) (startTime : Nat) : Machine :=
  let m1 := analysisTargets m cleanTargets
  { m1 with
    self := { m1.self with m_cleanedFiles := 0 }
    tasks := m1.tasks ++ [Task.clearCoordinator startTime cleanTargets none] }

/-- The end of both coordinators: the kind and the elapsed time are written into
the summary, then the state. (`analysis` writes 0 for a duration below `EPS`,
one millisecond: in whole milliseconds that is the duration itself.) -/
def finishRun (self : SystemCleaner) (type : common.SummaryType) (state : common.CleanerState)
    (elapsed : Nat) : SystemCleaner :=
  { self with
    m_summary := { self.m_summary with type := type, totalTime := elapsed }
    m_currentState := state }

/-- One turn of a task. The task is `task`, between the outstanding tasks `pre`
and `post`; `now` is the reading of the clock.

* A worker visits the next option of its loop, or returns when none is left.
* A coordinator in a waiting loop stores a progress value while other tasks are
  outstanding. Once it is alone, the coordinator of `analysis` stores progress 1
  and finishes the run; the coordinator of `clear` reads the baseline and, when
  it is not zero, calls `clearTargets` and enters its second loop, which it
  leaves, alone again, to store progress 1 and finish the run. -/
def Task.turn (m : Machine) (pre : List Task) (task : Task) (post : List Task) (now : Nat) :
    Machine :=
  match task with
  | Task.analysisOptions _ [] => { m with tasks := pre ++ post }
  | Task.analysisOptions cleaningItem (option :: rest) =>
    let done := analysisOption cleaningItem (m.self, m.world) option
    { m with self := done.1, world := done.2
             tasks := pre ++ Task.analysisOptions cleaningItem rest :: post }
  | Task.cleanOptions _ [] => { m with tasks := pre ++ post }
  | Task.cleanOptions cleaningItem (option :: rest) =>
    let done := cleanOption cleaningItem (m.self, m.world) option
    { m with self := done.1, world := done.2
             tasks := pre ++ Task.cleanOptions cleaningItem rest :: post }
  | Task.analysisCoordinator startTime =>
    if countActiveTasks m > 1 then
      { m with progress := (countActiveTasks m : Rat) / (m.self.m_countAnalysTasks : Rat) }
    else
      { m with progress := 1
               self := finishRun m.self common.SummaryType.ANALYSIS
                 common.CleanerState.ANALYSIS_DONE (now - startTime)
               tasks := pre ++ post }
  | Task.clearCoordinator startTime cleanTargets none =>
    if countActiveTasks m > 1 then
      { m with progress := (countActiveTasks m : Rat) / (m.self.m_countAnalysTasks : Rat) }
    else
      let totalFiles := m.self.m_summary.totalFiles
      if totalFiles != 0 then
        clearTargets
          { m with tasks := pre ++ Task.clearCoordinator startTime cleanTargets (some totalFiles)
                      :: post }
          cleanTargets
      else
        { m with self := finishRun m.self common.SummaryType.CLEANING
                   common.CleanerState.CLEANING_DONE (now - startTime)
                 tasks := pre ++ post }
  | Task.clearCoordinator startTime _ (some totalFiles) =>
    if countActiveTasks m > 1 then
      { m with progress := ((m.self.m_cleanedFiles / totalFiles : Nat) : Rat) }
    else
      { m with progress := 1
               self := finishRun m.self common.SummaryType.CLEANING
                 common.CleanerState.CLEANING_DONE (now - startTime)
               tasks := pre ++ post }

/-- The task manager gives one turn to the outstanding task at position `pick`
(nothing happens when there is none). -/
def step (m : Machine) (pick : Nat) (now : Nat) : Machine :=
  match m.tasks.drop pick with
  | [] => m
  | task :: post => Task.turn m (m.tasks.take pick) task post now

/-- The turns of a schedule, one after the other: each entry names the task that
gets the turn and the reading of the clock. -/
def run (m : Machine) (schedule : List (Nat × Nat)) : Machine :=
  schedule.foldl (fun m turn => step m turn.1 turn.2) m

/-- A field of `common::Summary`. -/
inductive SummaryField where
  | type
  | totalTime
  | totalFiles
  | totalSize
  | results
  deriving DecidableEq, Repr

/-- A member of `core::SystemCleaner` that is a `std::atomic`. -/
inductive AtomicMember where
  | m_cleanedFiles
  | m_progress
  | m_countAnalysTasks
  | m_currentState
  deriving DecidableEq, Repr

/-- What a statement of the engine does to the shared members: it takes or
releases `m_summaryMutex`, reads or writes a field of `m_summary`, or loads or
stores an atomic member. -/
inductive Access where
  | lock
  | unlock
  | read (field : SummaryField)
  | write (field : SummaryField)
  | load (member : AtomicMember)
  | store (member : AtomicMember)
  deriving DecidableEq, Repr

/-- The accesses of `accumulateResult`, in program order: the `scoped_lock`, the
two `+=`, the `push_back`, the end of the scope. -/
def accumulateResult.accesses : List Access :=
  [ Access.lock,
    Access.read SummaryField.totalFiles, Access.write SummaryField.totalFiles,
    Access.read SummaryField.totalSize, Access.write SummaryField.totalSize,
    Access.read SummaryField.results, Access.write SummaryField.results,
    Access.unlock ]

/-- The accesses of `resetData`, in program order. -/
def resetData.accesses : List Access :=
  [ Access.lock,
    Access.write SummaryField.results, Access.write SummaryField.totalFiles,
    Access.write SummaryField.totalSize,
    Access.unlock,
    Access.store AtomicMember.m_cleanedFiles, Access.store AtomicMember.m_countAnalysTasks ]

/-- The accesses of `getSummary`, in program order: the `scoped_lock`, the store
of the state, the copy of the summary that is returned, the end of the scope. -/
def getSummary.accesses : List Access :=
  [ Access.lock,
    Access.store AtomicMember.m_currentState,
    Access.read SummaryField.type, Access.read SummaryField.totalTime,
    Access.read SummaryField.totalFiles, Access.read SummaryField.totalSize,
    Access.read SummaryField.results,
    Access.unlock ]

/-- The accesses that a turn of a task makes, in program order; the cases are
those of `Task.turn`. A worker calls `accumulateResult` where its loop appends a
result. A coordinator in a waiting loop loads a counter and stores the progress;
the coordinator of `clear` reads `m_summary.totalFiles` when it leaves its first
loop and then goes through `clearTargets`; at their end both coordinators write
`m_summary.type` and `m_summary.totalTime` and store the state. -/
def Task.accesses (m : Machine) : Task → List Access
  | Task.analysisOptions _ [] => []
  | Task.analysisOptions _ (option :: _) =>
    if option.enabled then accumulateResult.accesses else []
  | Task.cleanOptions _ [] => []
  | Task.cleanOptions _ (option :: _) =>
    if !option.enabled then []
    else if option.displayName == RECYCLE_BIN then
      (if !m.world.recycleBin.queryFails && decide (m.world.recycleBin.numItems > 0) then
        accumulateResult.accesses
       else [])
    else accumulateResult.accesses
  | Task.analysisCoordinator _ =>
    if countActiveTasks m > 1 then
      [Access.load AtomicMember.m_countAnalysTasks, Access.store AtomicMember.m_progress]
    else
      [ Access.store AtomicMember.m_progress,
        Access.write SummaryField.type, Access.write SummaryField.totalTime,
        Access.store AtomicMember.m_currentState ]
  | Task.clearCoordinator _ _ none =>
    if countActiveTasks m > 1 then
      [Access.load AtomicMember.m_countAnalysTasks, Access.store AtomicMember.m_progress]
    else if m.self.m_summary.totalFiles != 0 then
      Access.read SummaryField.totalFiles
        :: (resetData.accesses ++ [Access.store AtomicMember.m_currentState])
    else
      [ Access.read SummaryField.totalFiles,
        Access.write SummaryField.type, Access.write SummaryField.totalTime,
        Access.store AtomicMember.m_currentState ]
  | Task.clearCoordinator _ _ (some _) =>
    if countActiveTasks m > 1 then
      [Access.load AtomicMember.m_cleanedFiles, Access.store AtomicMember.m_progress]
    else
      [ Access.store AtomicMember.m_progress,
        Access.write SummaryField.type, Access.write SummaryField.totalTime,
        Access.store AtomicMember.m_currentState ]

/-- The accesses of the turn that `step` gives. -/
def step.accesses (m : Machine) (pick : Nat) : List Access :=
  match m.tasks.drop pick with
  | [] => []
  | task :: _ => Task.accesses m task

/-- The accesses of the turns of a schedule, one after the other. -/
def run.accesses : Machine → List (Nat × Nat) → List Access
  | _, [] => []
  | m, turn :: rest => step.accesses m turn.1 ++ run.accesses (step m turn.1 turn.2) rest

/-- The accesses of `analysisTargets`, in program order: `resetData`, the store
of the state, and one increment of `m_countAnalysTasks` for each of the `needed`
categories that need cleaning. -/
def analysisTargets.accesses (needed : Nat) : List Access :=
  resetData.accesses ++ [Access.store AtomicMember.m_currentState]
    ++ (List.replicate needed
          [ Access.load AtomicMember.m_countAnalysTasks,
            Access.store AtomicMember.m_countAnalysTasks ]).flatten

end core

/-! ## Custom paths: `addCustomPath`, `initCustomPaths`, `fini` -/

namespace common

/-- Modelled from the spec: `IDGenerator::next` of `common/id_generator.hpp`, which
is not among the sources. The id of an option is a "unique stable identifier":
the generator is a counter, so that no id is handed out twice. -/
def IDGenerator.next (world : core.World) : Nat × core.World :=
  (world.idCounter, { world with idCounter := world.idCounter + 1 })

/-- `PathAdditionResult::success`. -/
def PathAdditionResult.success (opt : CleanOption) : PathAdditionResult :=
  { errorMessage := "", option := opt }

/-- `PathAdditionResult::error`: the option of the result is a fresh default
option, which takes an id. -/
def PathAdditionResult.error (msg : String) (world : core.World) :
    PathAdditionResult × core.World :=
  let minted := IDGenerator.next world
  ({ errorMessage := msg, option := { id := minted.1 } }, minted.2)

end common

namespace core

/-- `cache[ id ] = path`: the entry of a key that is present is overwritten, a
key that is missing is inserted. -/
def PathCache.assign (cache : PathCache) (id : Nat) (path : fs.Path) : PathCache :=
  if cache.any (fun kv => kv.1 == id) then
    cache.map (fun kv => if kv.1 == id then (id, path) else kv)
  else cache ++ [(id, path)]

/-- The loop of `addCustomPath` over the registered custom paths: whether it
returns the duplicate error. An equivalence query that raises is caught and the
loop goes on. -/
def findsDuplicate (env : fs.Env) (path : fs.Path) : PathCache → Bool
  | [] => false
  | (_, customPath) :: rest =>
    if env.equivalentRaises path customPath then findsDuplicate env path rest
    else if env.equivalent path customPath then true
    else findsDuplicate env path rest

/-- `core::SystemCleaner::addCustomPath`. -/
def addCustomPath (env : fs.Env) (self : SystemCleaner) (world : World) (path : fs.Path) :
    common.PathAdditionResult × SystemCleaner × World :=
  match utils.path.validate env path with
  | some error =>
    let failed := common.PathAdditionResult.error error world
    (failed.1, self, failed.2)
  | none =>
    if findsDuplicate env path self.m_customPathCache then
      let failed := common.PathAdditionResult.error "Duplicated path" world
      (failed.1, self, failed.2)
    else
      let minted := common.IDGenerator.next world
      let option : common.CleanOption := { displayName := fs.filename path, id := minted.1 }
      (common.PathAdditionResult.success option,
       { self with m_customPathCache := self.m_customPathCache.assign option.id path },
       minted.2)

/-- Whether `addCustomPath` ends by an exception instead of returning: `validate`
does; the equivalence queries of the loop of `addCustomPath` itself are inside a
handler. -/
def addCustomPath.raises (env : fs.Env) (path : fs.Path) : Bool :=
  utils.path.validate.raises env path

/-- `core::SystemCleaner::removeCustomPath`. -/
def removeCustomPath (self : SystemCleaner) (id : Nat) : SystemCleaner :=
  { self with m_customPathCache := self.m_customPathCache.filter (fun kv => kv.1 != id) }

/-- `core::SystemCleaner::getFullPath`. -/
def getFullPath (self : SystemCleaner) (id : Nat) : Option String :=
  self.m_customPathCache.lookup id

/-- The modulus of `uint32_t` arithmetic. -/
def UINT32_MOD : Nat := 2 ^ 32

/-- The value of a `char` of the file as a byte. -/
def byteOf (c : Char) : Nat := c.toNat % 256

/-- `input.read (reinterpret_cast< char* > (&size), sizeof (size))`: four bytes,
the low one first; `none` when fewer than four are left. -/
def readUInt32 : List Char → Option (Nat × List Char)
  | b0 :: b1 :: b2 :: b3 :: rest =>
    some (byteOf b0 + 256 * byteOf b1 + 65536 * byteOf b2 + 16777216 * byteOf b3, rest)
  | _ => none

/-- `output.write (reinterpret_cast< const char* > (&size), sizeof (size))`. -/
def writeUInt32 (size : Nat) : List Char :=
  [Char.ofNat (size % 256), Char.ofNat (size / 256 % 256),
   Char.ofNat (size / 65536 % 256), Char.ofNat (size / 16777216 % 256)]

/-- What the loop of `initCustomPaths` carries: the engine, the world and the
options of the custom item. -/
structure Loading where
  self : SystemCleaner
  world : World
  cleanOptions : List common.CleanOption
  deriving DecidableEq, Repr

/-- The end of the body of the loop of `initCustomPaths`: the path that was read
is handed to `addCustomPath`, and its option is kept when the addition
succeeded. -/
def addLoaded (env : fs.Env) (state : Loading) (strPath : String) : Loading :=
  let result := addCustomPath env state.self state.world strPath
  { self := result.2.1, world := result.2.2,
    cleanOptions :=
      if result.1.isSuccess then state.cleanOptions ++ [result.1.option]
      else state.cleanOptions }

/-- The `while` loop of `initCustomPaths` on what is left of the input; `none`
when an exception leaves the loop: nothing in `initCustomPaths` handles one that
`addCustomPath` lets through. Every turn that goes on takes at least five bytes
off the input; `fuel` bounds the number of turns. -/
def readLoop (env : fs.Env) : Nat → List Char → Loading → Option Loading
  | 0, _, state => some state
  | fuel + 1, input, state =>
    match readUInt32 input with
    | none => some state
    | some (size, rest) =>
      if size == 0 || decide (size > 10000) then some state
      else if rest.length < size then some state
      else if addCustomPath.raises env (String.mk (rest.take size)) then none
      else readLoop env fuel (rest.drop size) (addLoaded env state (String.mk (rest.take size)))

/-- `core::SystemCleaner::initCustomPaths`; `none` when the call ends by an
exception. -/
def initCustomPaths (env : fs.Env) (self : SystemCleaner) (world : World)
    (cleaningItems : List common.CleaningItem) :
    Option (List common.CleaningItem × SystemCleaner × World) :=
  let customItem : common.CleaningItem :=
    { name := "Custom paths", itemType := common.ItemType.CUSTOM_PATH }
  match world.store with
  | some input =>
    match readLoop env input.length input { self := self, world := world, cleanOptions := [] } with
    | some loaded =>
      some (cleaningItems ++ [{ customItem with cleanOptions := loaded.cleanOptions }],
            loaded.self, loaded.world)
    | none => none
  | none => some (cleaningItems ++ [customItem], self, world)

/-- The two writes of the loop of `fini` for one custom path: the number of
`char` of `customPath.string ()` as a `uint32_t`, then that many of its `char`,
each a byte of the file. -/
def writeRecord (customPath : fs.Path) : List Char :=
  let pathStr := fs.string customPath
  let size := pathStr.length % UINT32_MOD
  writeUInt32 size ++ (pathStr.take size).map (fun c => Char.ofNat (byteOf c))

/-- The loop of `fini` over the custom paths. -/
def writeRecords : PathCache → List Char
  | [] => []
  | (_, customPath) :: rest => writeRecord customPath ++ writeRecords rest

/-- `core::SystemCleaner::fini`. -/
def fini (self : SystemCleaner) (world : World) : World :=
  if self.m_customPathCache.isEmpty then
    match world.store with
    | some _ => { world with store := none }
    | none => world
  else { world with store := some (writeRecords self.m_customPathCache) }

end core

/-! ## The toggles of the panel: `gui/widgets/cleaner_panel.cpp` -/

namespace gui

/-- What the user can do to the options of a category: click the checkbox of one
option (`ImGui::Checkbox` in `drawOptions` and `drawCustomOptions`), or set all of
them with one of the two bulk buttons (`toggleAllOptions`). -/
inductive Toggle where
  | checkbox (index : Nat)
  | all (enable : Bool)
  deriving DecidableEq, Repr

/-- A click on the checkbox of the option at `index`. -/
def clickCheckbox : List common.CleanOption → Nat → List common.CleanOption
  | [], _ => []
  | option :: rest, 0 => { option with enabled := !option.enabled } :: rest
  | option :: rest, index + 1 => option :: clickCheckbox rest index

/-- The lambda `toggleAllOptions` on one category. -/
def toggleAllOptions (enable : Bool) (options : List common.CleanOption) :
    List common.CleanOption :=
  options.map (fun option => { option with enabled := enable })

/-- One toggle on a category. -/
def Toggle.apply (item : common.CleaningItem) : Toggle → common.CleaningItem
  | Toggle.checkbox index => { item with cleanOptions := clickCheckbox item.cleanOptions index }
  | Toggle.all enable => { item with cleanOptions := toggleAllOptions enable item.cleanOptions }

end gui

/-! ## The custom paths of the panel: `gui/widgets/cleaner_panel.cpp` -/

namespace gui

/-- The members of `gui::CleanerPanel` that the custom paths involve. -/
structure CleanerPanel where
  m_systemCleaner : core.SystemCleaner := {}
  m_cleaningItems : List common.CleaningItem := []
  m_customIndex : Nat := 0
  deriving DecidableEq, Repr

/-- The constructor of `gui::CleanerPanel`: the catalog is collected and the
custom category is its last item. `discovered` is what `initBrowserData` and
`initSystemTempData` have put into the catalog; `none` when `initCustomPaths` ends
by an exception. -/
def CleanerPanel.create (env : fs.Env) (world : core.World)
    (discovered : List common.CleaningItem) : Option (CleanerPanel × core.World) :=
  match core.initCustomPaths env {} world discovered with
  | some collected =>
    some ({ m_systemCleaner := collected.2.1, m_cleaningItems := collected.1,
            m_customIndex := collected.1.length - 1 }, collected.2.2)
  | none => none

/-- The catalog after `change` has been made to
`m_cleaningItems[ index ].cleanOptions`. -/
def changeOptions (change : List common.CleanOption → List common.CleanOption) :
    List common.CleaningItem → Nat → List common.CleaningItem
  | [], _ => []
  | item :: rest, 0 => { item with cleanOptions := change item.cleanOptions } :: rest
  | item :: rest, index + 1 => item :: changeOptions change rest index

/-- `m_cleaningItems[ m_customIndex ].cleanOptions`. -/
def CleanerPanel.customOptions (panel : CleanerPanel) : List common.CleanOption :=
  match panel.m_cleaningItems.drop panel.m_customIndex with
  | [] => []
  | item :: _ => item.cleanOptions

/-- The lambda `processingPath` of `drawCustomPathsMenu`, on what the file or
folder dialog has returned: a path that is there and not empty is handed to
`addCustomPath`, and the option of a successful addition is appended to the
custom category. -/
def processingPath (env : fs.Env) (panel : CleanerPanel) (world : core.World)
    (path : Option fs.Path) : CleanerPanel × core.World :=
  match path with
  | none => (panel, world)
  | some value =>
    if value.isEmpty then (panel, world)
    else
      let result := core.addCustomPath env panel.m_systemCleaner world value
      if result.1.isSuccess then
        ({ panel with
           m_systemCleaner := result.2.1
           m_cleaningItems :=
             changeOptions (fun options => options ++ [result.1.option]) panel.m_cleaningItems
               panel.m_customIndex },
         result.2.2)
      else ({ panel with m_systemCleaner := result.2.1 }, result.2.2)

/-- The `remove_if` of the Remove button over the options, in order: an enabled
option is removed from the index of the engine by `removeCustomPath` and leaves
the options. -/
def removeEnabled :
    List common.CleanOption → core.SystemCleaner → List common.CleanOption × core.SystemCleaner
  | [], self => ([], self)
  | opt :: rest, self =>
    if opt.enabled then removeEnabled rest (core.removeCustomPath self opt.id)
    else
      let removed := removeEnabled rest self
      (opt :: removed.1, removed.2)

/-- The handler of the Remove button in `drawCustomPathsMenu`; `answer` tells
whether the user answers the message box with yes. -/
def removeButton (panel : CleanerPanel) (answer : Bool) : CleanerPanel :=
  if !panel.customOptions.isEmpty then
    if answer then
      let removed := removeEnabled panel.customOptions panel.m_systemCleaner
      { panel with
        m_systemCleaner := removed.2
        m_cleaningItems :=
          changeOptions (fun _ => removed.1) panel.m_cleaningItems panel.m_customIndex }
    else panel
  else panel

/-- The handler of the Delete key in `drawCustomOptions`, on the category that is
drawn: the enabled options are erased. -/
def drawCustomOptions.deleteKey (cleaningItem : common.CleaningItem) : common.CleaningItem :=
  { cleaningItem with cleanOptions := cleaningItem.cleanOptions.filter (fun opt => !opt.enabled) }

/-- A press of the Delete key while the tab of the custom paths is drawn:
`drawCleaningItems` calls `drawCustomOptions` for the categories of type
`CUSTOM_PATH`. -/
def deleteKey (panel : CleanerPanel) : CleanerPanel :=
  { panel with
    m_cleaningItems := panel.m_cleaningItems.map (fun item =>
      if item.itemType == common.ItemType.CUSTOM_PATH then drawCustomOptions.deleteKey item
      else item) }

/-- What the user does to the two buttons of `drawMain` in a frame. -/
inductive Click where
  | none
  | analysis
  | clear
  deriving DecidableEq, Repr

/-- The accesses of the UI thread to the members of the engine in one call of
`drawMain`, in program order. `state` is the state that `getCurrentState` returns
at the start, `shown` tells whether the panel holds a summary to show, `needed`
is the number of categories that need cleaning. The summary is fetched with
`getSummary` when the state is one of the two `DONE` states; the progress is
read when something is shown or the engine is not idle; the buttons are disabled
unless the state is `IDLE`, and a click starts `analysis` or `clear`. -/
def drawMain.accesses (state : common.CleanerState) (shown : Bool) (click : Click)
    (needed : Nat) : List core.Access :=
  [core.Access.load core.AtomicMember.m_currentState]
    ++ (if state == common.CleanerState.ANALYSIS_DONE
          || state == common.CleanerState.CLEANING_DONE then core.getSummary.accesses
        else [])
    ++ (if shown || state != common.CleanerState.IDLE then
          [core.Access.load core.AtomicMember.m_progress]
        else [])
    ++ (if state != common.CleanerState.IDLE then []
        else
          match click with
          | Click.none => []
          | Click.analysis => core.analysisTargets.accesses needed
          | Click.clear =>
            core.analysisTargets.accesses needed
              ++ [core.Access.store core.AtomicMember.m_cleanedFiles])

end gui

/-! ## Sample data -/

namespace sample

/-- A directory `C:\Temp` with two files at the top, one of them locked, and one
file in a subdirectory. -/
def tempDisk : fs.Disk :=
  [ { loc := ["C:", "Temp"], type := fs.FileType.directory },
    { loc := ["C:", "Temp", "a.tmp"], type := fs.FileType.regular, size := 100 },
    { loc := ["C:", "Temp", "b.tmp"], type := fs.FileType.regular, size := 50, locked := true },
    { loc := ["C:", "Temp", "sub"], type := fs.FileType.directory },
    { loc := ["C:", "Temp", "sub", "c.tmp"], type := fs.FileType.regular, size := 7 } ]

/-- The same directory when the size of `a.tmp` cannot be queried and nothing is
locked. -/
def unreadableDisk : fs.Disk :=
  [ { loc := ["C:", "Temp"], type := fs.FileType.directory },
    { loc := ["C:", "Temp", "a.tmp"], type := fs.FileType.regular, size := 100, sizeRaises := true },
    { loc := ["C:", "Temp", "b.tmp"], type := fs.FileType.regular, size := 50 },
    { loc := ["C:", "Temp", "sub"], type := fs.FileType.directory },
    { loc := ["C:", "Temp", "sub", "c.tmp"], type := fs.FileType.regular, size := 7 } ]

/-- The same directory when `a.tmp` is locked and every size can be queried. -/
def lockedDisk : fs.Disk :=
  [ { loc := ["C:", "Temp"], type := fs.FileType.directory },
    { loc := ["C:", "Temp", "a.tmp"], type := fs.FileType.regular, size := 100, locked := true },
    { loc := ["C:", "Temp", "b.tmp"], type := fs.FileType.regular, size := 50 },
    { loc := ["C:", "Temp", "sub"], type := fs.FileType.directory },
    { loc := ["C:", "Temp", "sub", "c.tmp"], type := fs.FileType.regular, size := 7 } ]

/-- A system installed in `C:\Windows`: every path exists, paths are canonical as
they stand, two paths are equivalent when they are lexically equal, no query
raises, and every path has the attribute of a plain directory
(`FILE_ATTRIBUTE_DIRECTORY`) unless its name is `hidden` (hidden only), `os`
(system only) or `guarded` (both). -/
def plainEnv : fs.Env :=
  { pathExists := fun _ => true
    equivalent := fun p q => fs.pathEq p q
    equivalentRaises := fun _ _ => false
    weakly_canonical := fun p => some p
    attributes := fun p =>
      if fs.filename p == "hidden" then 0x12
      else if fs.filename p == "os" then 0x14
      else if fs.filename p == "guarded" then 0x16
      else 0x10
    windowsDir := "C:\\Windows" }

/-- An ordinary path on another drive whose text is 261 characters long: a
folder with a name of 128 letters in a folder with a name of 129 letters. -/
def longPath : fs.Path :=
  String.mk ('D' :: ':' :: '\\' :: (List.replicate 129 'a' ++ '\\' :: List.replicate 128 'b'))

/-- An engine with one registered custom path, and the world in which the
generator has handed out its id. -/
def oneCustomPath : core.SystemCleaner := { m_customPathCache := [(0, "C:\\Users\\me")] }

/-- The world after one id has been handed out. -/
def oneIdWorld : core.World := { idCounter := 1 }

/-- A store file: the record of `C:\a` (length 4), then a single byte. -/
def storeBytes : List Char :=
  [Char.ofNat 4, Char.ofNat 0, Char.ofNat 0, Char.ofNat 0, 'C', ':', '\\', 'a', Char.ofNat 7]

/-- The system of `plainEnv` when the folder `C:\locked` cannot be opened:
`fs::equivalent` raises when it is asked about it. -/
def lockedFolderEnv : fs.Env :=
  { plainEnv with
    equivalentRaises := fun p q => p == "C:\\locked" || q == "C:\\locked" }

/-- A store file as `fini` writes it: the record of `C:\locked`, then the record
of `C:\a`. -/
def twoRecords : List Char := core.writeRecords [(0, "C:\\locked"), (1, "C:\\a")]

/-- Fifty nested folders with names of 200 characters. -/
def deepFolders : List Char :=
  (List.replicate 50 ('\\' :: List.replicate 200 'a')).flatten

/-- A path of 10052 characters: `D:` and fifty nested folders. -/
def deepPath : fs.Path := String.mk ('D' :: ':' :: deepFolders)

/-- The catalog of the end-to-end scenario: one category `TEMP` with the options
`Temp files` and `Logs`, both enabled. -/
def tempCatalog : List common.CleaningItem :=
  [ { name := "TEMP", itemType := common.ItemType.TEMP,
      cleanOptions := [ { displayName := "Temp files", id := 1 },
                        { displayName := "Logs", id := 2 } ] } ]

/-- The disk of the scenario: directory `C:\A` with three files of 100 bytes,
directory `C:\B` without files. -/
def scenarioDisk : fs.Disk :=
  [ { loc := ["C:", "A"], type := fs.FileType.directory },
    { loc := ["C:", "A", "1.tmp"], type := fs.FileType.regular, size := 100 },
    { loc := ["C:", "A", "2.tmp"], type := fs.FileType.regular, size := 100 },
    { loc := ["C:", "A", "3.tmp"], type := fs.FileType.regular, size := 100 },
    { loc := ["C:", "B"], type := fs.FileType.directory } ]

/-- The engine of the scenario, idle, with the paths of the two options, and its
world. -/
def scenario : core.Machine :=
  { self := { m_cleanPathCache := [(1, "C:\\A"), (2, "C:\\B")] },
    world := { disk := scenarioDisk } }

/-- The option of the recycle bin, enabled. -/
def binOption : common.CleanOption := { displayName := "Recycle bin", id := 3 }

/-- The category `SYSTEM` with the recycle bin as its only option. -/
def systemItem : common.CleaningItem :=
  { name := "SYSTEM", itemType := common.ItemType.SYSTEM, cleanOptions := [binOption] }

/-- A world whose recycle bin cannot be queried. -/
def deafBinWorld : core.World := { recycleBin := { queryFails := true } }

/-- A world whose recycle bin holds two items of 100 bytes in all and cannot be
emptied. -/
def stuckBinWorld : core.World :=
  { recycleBin := { numItems := 2, size := 100, emptyFails := true } }

/-- The engine of the scenario on a disk where `C:\A` and `C:\B` hold no
files. -/
def emptyScenario : core.Machine :=
  { self := { m_cleanPathCache := [(1, "C:\\A"), (2, "C:\\B")] },
    world := { disk := [ { loc := ["C:", "A"], type := fs.FileType.directory },
                         { loc := ["C:", "B"], type := fs.FileType.directory } ] } }

/-- The engine of the scenario on a disk where `C:\A` holds one file of 100
bytes and `C:\B` one file of 50 bytes. -/
def twoFolders : core.Machine :=
  { self := { m_cleanPathCache := [(1, "C:\\A"), (2, "C:\\B")] },
    world := { disk := [ { loc := ["C:", "A"], type := fs.FileType.directory },
                         { loc := ["C:", "A", "a.tmp"], type := fs.FileType.regular, size := 100 },
                         { loc := ["C:", "B"], type := fs.FileType.directory },
                         { loc := ["C:", "B", "b.tmp"], type := fs.FileType.regular, size := 50 } ] } }

/-- A world with the folder `D:\Recycle bin`, which holds one file of 10 bytes,
and a recycle bin that holds two items of 100 bytes in all. -/
def binNamedWorld : core.World :=
  { disk := [ { loc := ["D:", "Recycle bin"], type := fs.FileType.directory },
              { loc := ["D:", "Recycle bin", "old.txt"], type := fs.FileType.regular,
                size := 10 } ],
    recycleBin := { numItems := 2, size := 100 } }

/-- What `addCustomPath` returns for the folder `D:\Recycle bin` on a fresh
engine: the result, the engine and the world. -/
def binNamedAdded : common.PathAdditionResult × core.SystemCleaner × core.World :=
  core.addCustomPath plainEnv {} binNamedWorld "D:\\Recycle bin"

/-- The custom category with the option of that addition. -/
def binNamedItem : common.CleaningItem :=
  { name := "Custom paths", itemType := common.ItemType.CUSTOM_PATH,
    cleanOptions := [binNamedAdded.1.option] }

/-- The engine after that addition, idle, and its world. -/
def binNamedMachine : core.Machine :=
  { self := binNamedAdded.2.1, world := binNamedAdded.2.2 }

/-- A panel constructed when there is no store file and nothing else in the
catalog, and the world afterwards. -/
def freshPanel : gui.CleanerPanel × core.World :=
  (gui.CleanerPanel.create plainEnv {} []).getD ({}, {})

/-- The panel after the user has added the folder `C:\Users\me\Downloads`, and
the world afterwards. -/
def panelWithDownloads : gui.CleanerPanel × core.World :=
  gui.processingPath plainEnv freshPanel.1 freshPanel.2 (some "C:\\Users\\me\\Downloads")

end sample

/-! ## Reference tallies, in the words of the specification -/

namespace spec

/-- The regular files beneath a directory that the walk can reach: those the
recursive iteration yields. -/
def regularFiles (disk : fs.Disk) (dir : List String) : List fs.Entry :=
  (fs.recursive_directory_iterator disk dir).filter (fun e => e.type == fs.FileType.regular)

/-- The files that the walk of the code handles before it ends: all of them, or
those that precede the first one whose size query raises. This follows the code,
not the specification. -/
def reached (files : List fs.Entry) : List fs.Entry :=
  files.takeWhile (fun e => !e.sizeRaises)

/-- A file is counted iff `delete` is false or its deletion succeeds. -/
def counted (deleteFiles : Bool) (files : List fs.Entry) : List fs.Entry :=
  files.filter (fun e => !deleteFiles || !e.locked)

/-- The tally of a list of counted files: how many, and the sum of their sizes. -/
def tally (files : List fs.Entry) : core.DirInfo :=
  { countFile := files.length % core.UINT64_MOD,
    dirSize := (files.map (fun e => e.size)).sum % core.UINT64_MOD }

/-- The files that `processPath` handles for a path, as the code goes: for a
directory the regular files beneath it up to the first one whose size query
raises, for a regular file whose size can be queried the file itself. The
reference of the specification is `allFiles`. -/
def handled (disk : fs.Disk) (loc : List String) : List fs.Entry :=
  if fs.is_directory disk loc then reached (regularFiles disk loc)
  else if fs.is_regular_file disk loc then reached (fs.entryAt disk loc).toList
  else []

/-- The regular files that the reference fold of the specification ranges over:
all regular files recursively beneath a directory, or the single file itself. -/
def allFiles (disk : fs.Disk) (loc : List String) : List fs.Entry :=
  if fs.is_directory disk loc then regularFiles disk loc
  else if fs.is_regular_file disk loc then (fs.entryAt disk loc).toList
  else []

/-- The reference tally of the specification for `processPath (path, delete)`:
the fold over all these files, a file counted iff `delete` is false or its
deletion succeeds. -/
def reference (disk : fs.Disk) (pathDir : fs.Path) (deleteFiles : Bool) : core.DirInfo :=
  tally (counted deleteFiles (allFiles disk (fs.elements pathDir)))

/-- The disk after the counted files have been deleted. -/
def without (disk : fs.Disk) (gone : List fs.Entry) : fs.Disk :=
  disk.filter (fun x => !(gone.map (fun e => e.loc)).contains x.loc)

/-- The five checks of the path guard in their order, each with whether the path
fails it and the reason reported then. -/
def checks (env : fs.Env) (path : fs.Path) : List (Bool × String) :=
  [ (!env.pathExists path, "Path not found"),
    (fs.pathEq path (fs.root_path path), "Cannot select drive root"),
    (utils.path.isWindowsSystemFolder env path, "Windows system folder"),
    (utils.path.isWindowsProgramFiles env path, "Program Files folder"),
    (utils.path.isProtectedByAttributes env path, "File/Folder has protected system attributes") ]

/-- The attribute value carries the hidden flag. -/
def isHidden (attrs : Nat) : Bool := (attrs &&& utils.path.FILE_ATTRIBUTE_HIDDEN) != 0

/-- The attribute value carries the system flag. -/
def isSystem (attrs : Nat) : Bool := (attrs &&& utils.path.FILE_ATTRIBUTE_SYSTEM) != 0

/-- The equivalence query on two paths answers, and answers yes. -/
def reportsEquivalent (env : fs.Env) (p q : fs.Path) : Bool :=
  !env.equivalentRaises p q && env.equivalent p q

/-- The value of a four-byte length field, low byte first. -/
def length32 (b0 b1 b2 b3 : Char) : Nat :=
  core.byteOf b0 + 256 * core.byteOf b1 + 65536 * core.byteOf b2 + 16777216 * core.byteOf b3

/-- The input is at a stopping point: it is at its end or holds an incomplete
length field, or its length field is 0 or greater than 10000, or its payload is
shorter than its length. -/
def stops : List Char → Bool
  | b0 :: b1 :: b2 :: b3 :: rest =>
    length32 b0 b1 b2 b3 == 0 || decide (10000 < length32 b0 b1 b2 b3)
      || decide (rest.length < length32 b0 b1 b2 b3)
  | _ => true

/-- The input is the given complete records, in file order, followed by a
stopping point. A complete record is a four-byte length between 1 and 10000 and
exactly that many bytes. -/
inductive Records : List Char → List String → Prop where
  | stop (input : List Char) (hstop : stops input = true) : Records input []
  | record (b0 b1 b2 b3 : Char) (payload rest : List Char) (records : List String)
      (hsize : length32 b0 b1 b2 b3 = payload.length)
      (hpos : 1 ≤ payload.length) (hmax : payload.length ≤ 10000)
      (hrest : Records rest records) :
      Records (b0 :: b1 :: b2 :: b3 :: (payload ++ rest)) (String.mk payload :: records)

/-- One record is submitted to `addCustomPath`: the engine and the world become
what `addCustomPath` makes of them, and the option of the result joins the options
when the addition succeeded. -/
def submit (env : fs.Env) (state : List common.CleanOption × core.SystemCleaner × core.World)
    (record : String) : List common.CleanOption × core.SystemCleaner × core.World :=
  ((if (core.addCustomPath env state.2.1 state.2.2 record).1.isSuccess then
      state.1 ++ [(core.addCustomPath env state.2.1 state.2.2 record).1.option]
    else state.1),
   (core.addCustomPath env state.2.1 state.2.2 record).2.1,
   (core.addCustomPath env state.2.1 state.2.2 record).2.2)

/-- What submitting the records to `addCustomPath`, in order, makes of the
engine, the world and the catalog: the custom item holds the options of the
additions that succeeded. -/
def submitAll (env : fs.Env) (self : core.SystemCleaner) (world : core.World)
    (cleaningItems : List common.CleaningItem) (records : List String) :
    List common.CleaningItem × core.SystemCleaner × core.World :=
  ((cleaningItems ++ [{ name := "Custom paths", itemType := common.ItemType.CUSTOM_PATH,
                        cleanOptions := (records.foldl (submit env) ([], self, world)).1 }]),
   (records.foldl (submit env) ([], self, world)).2.1,
   (records.foldl (submit env) ([], self, world)).2.2)

/-- The path an option id resolves to in a path index; an id that is missing
resolves to the empty path. -/
def resolve (cache : core.PathCache) (id : Nat) : fs.Path := (cache.lookup id).getD ""

/-- What `analysisOptions` measures for an option, as the code goes: for an option
displayed as the recycle bin the item count and size of the query (nothing when
the query fails), for any other option the tally of the walk of its path without
deletion. -/
def measured (self : core.SystemCleaner) (world : core.World) (item : common.CleaningItem)
    (option : common.CleanOption) : core.DirInfo :=
  if option.displayName = core.RECYCLE_BIN then
    (if world.recycleBin.queryFails then {}
     else { countFile := core.toUInt64 world.recycleBin.numItems,
            dirSize := core.toUInt64 world.recycleBin.size })
  else if item.itemType = common.ItemType.CUSTOM_PATH then
    (core.processPath world.disk (resolve self.m_customPathCache option.id) false).1
  else (core.processPath world.disk (resolve self.m_cleanPathCache option.id) false).1

/-- The result that `analysisOptions` appends for one enabled option, as the code
goes: the name of the owner (for an option displayed as the recycle bin, the name
`SYSTEM`), the display name of the option, the file count and the byte count
measured. The result that the specification asks for an option registered with a
path is `claimedResult`. -/
def analysisResult (self : core.SystemCleaner) (world : core.World)
    (item : common.CleaningItem) (option : common.CleanOption) : common.CleanResult :=
  { propertyName := if option.displayName = core.RECYCLE_BIN then common.SYSTEM else item.name
    categoryName := option.displayName
    cleanedFiles := (measured self world item option).countFile
    cleanedSize := (measured self world item option).dirSize }

/-- The result that the specification has an analysis append for an enabled
option whose id is registered with a path: the name of the owning category, the
display name of the option, and the file count and byte count measured for that
path without deletion. -/
def claimedResult (self : core.SystemCleaner) (world : core.World)
    (item : common.CleaningItem) (option : common.CleanOption) : common.CleanResult :=
  let registered :=
    if item.itemType = common.ItemType.CUSTOM_PATH then resolve self.m_customPathCache option.id
    else resolve self.m_cleanPathCache option.id
  { propertyName := item.name
    categoryName := option.displayName
    cleanedFiles := (reference world.disk registered false).countFile
    cleanedSize := (reference world.disk registered false).dirSize }

/-- The results of an analysis for a list of options: one per enabled option, in
option order. -/
def analysisResults (self : core.SystemCleaner) (world : core.World)
    (item : common.CleaningItem) (options : List common.CleanOption) : List common.CleanResult :=
  (options.filter (fun o => o.enabled)).map (analysisResult self world item)

/-- The results of an analysis of a catalog, category after category. -/
def catalogResults (self : core.SystemCleaner) (world : core.World)
    (items : List common.CleaningItem) : List common.CleanResult :=
  ((items.filter (fun item => item.isNeedClean)).map
    (fun item => analysisResults self world item item.cleanOptions)).flatten

/-- The sum of the file counts of a list of results, as `uint64_t`. -/
def sumFiles (results : List common.CleanResult) : Nat :=
  (results.map (fun r => r.cleanedFiles)).sum % core.UINT64_MOD

/-- The sum of the byte counts of a list of results, as `uint64_t`. -/
def sumSize (results : List common.CleanResult) : Nat :=
  (results.map (fun r => r.cleanedSize)).sum % core.UINT64_MOD

/-- The one step of `accumulateResult` on a summary: the counts of the result are
added to the totals and the result is appended. -/
def appended (summary : common.Summary) (r : common.CleanResult) : common.Summary :=
  { summary with
    totalFiles := (summary.totalFiles + r.cleanedFiles) % core.UINT64_MOD
    totalSize := (summary.totalSize + r.cleanedSize) % core.UINT64_MOD
    results := summary.results ++ [r] }

/-- The totals of a summary are the sums over its results. -/
def TotalsAgree (summary : common.Summary) : Prop :=
  summary.totalFiles = sumFiles summary.results ∧ summary.totalSize = sumSize summary.results

/-- Two engines resolve every option id to the same path. -/
def SameCaches (a b : core.SystemCleaner) : Prop :=
  (∀ id, resolve a.m_customPathCache id = resolve b.m_customPathCache id)
  ∧ (∀ id, resolve a.m_cleanPathCache id = resolve b.m_cleanPathCache id)

/-- The results that an outstanding task has still to append in an analysis. -/
def pendingOf (self : core.SystemCleaner) (world : core.World) : core.Task → List common.CleanResult
  | core.Task.analysisOptions item todo => analysisResults self world item todo
  | _ => []

/-- The results that the outstanding tasks have still to append. -/
def pending (self : core.SystemCleaner) (world : core.World) (tasks : List core.Task) :
    List common.CleanResult :=
  (tasks.map (pendingOf self world)).flatten

/-- An analysis pass is under way: the coordinator `coordinator` is outstanding,
every other outstanding task is an analysis worker, the world is as it was, the
state is `ANALYZING`, and the results appended so far together with those still
to come are the results expected of the pass. -/
structure AnalysisPhase (self0 : core.SystemCleaner) (world0 : core.World)
    (expected : List common.CleanResult) (coordinator : core.Task) (m : core.Machine) :
    Prop where
  coord : coordinator ∈ m.tasks
  workers : ∀ t ∈ m.tasks, t = coordinator ∨ ∃ item todo, t = core.Task.analysisOptions item todo
  world : m.world = world0
  state : m.self.m_currentState = common.CleanerState.ANALYZING
  caches : SameCaches m.self self0
  totals : TotalsAgree m.self.m_summary
  perm : (m.self.m_summary.results ++ pending self0 world0 m.tasks).Perm expected

/-- The workers that `analysisTargets` submits for a catalog: one per category
that has an enabled option, holding all the options of the category. -/
def analysisWorkers (items : List common.CleaningItem) : List core.Task :=
  (items.filter (fun item => item.isNeedClean)).map
    (fun item => core.Task.analysisOptions item item.cleanOptions)

/-- The workers that `clearTargets` submits for a catalog. -/
def cleanWorkers (items : List common.CleaningItem) : List core.Task :=
  (items.filter (fun item => item.isNeedClean)).map
    (fun item => core.Task.cleanOptions item item.cleanOptions)

/-- An analysis run is complete: no task is outstanding, the world is as it was,
the state is `ANALYSIS_DONE`, the summary has kind `ANALYSIS`, its totals are the
sums over its results, its results are those expected, and the progress is 1. -/
structure AnalysisDone (world0 : core.World) (expected : List common.CleanResult)
    (m : core.Machine) : Prop where
  tasks : m.tasks = []
  world : m.world = world0
  state : m.self.m_currentState = common.CleanerState.ANALYSIS_DONE
  kind : m.self.m_summary.type = common.SummaryType.ANALYSIS
  totals : TotalsAgree m.self.m_summary
  perm : m.self.m_summary.results.Perm expected
  progress : m.progress = 1

/-- An analysis run is under way or complete. -/
def AnalysisRun (self0 : core.SystemCleaner) (world0 : core.World)
    (expected : List common.CleanResult) (start : Nat) (m : core.Machine) : Prop :=
  AnalysisPhase self0 world0 expected (core.Task.analysisCoordinator start) m
    ∨ AnalysisDone world0 expected m

/-- The changes of state that an analysis run may make in one turn: none, or
from `ANALYZING` to `ANALYSIS_DONE`. -/
def analysisMove (s t : common.CleanerState) : Prop :=
  s = t ∨ (s = common.CleanerState.ANALYZING ∧ t = common.CleanerState.ANALYSIS_DONE)

/-- The sum of the file counts of the results of options that are paths (all but
the rows of the recycle bin). -/
def pathFiles (results : List common.CleanResult) : Nat :=
  ((results.filter (fun r => r.categoryName != core.RECYCLE_BIN)).map
    (fun r => r.cleanedFiles)).sum

/-- The sum of the byte counts of the results of options that are paths. -/
def pathSize (results : List common.CleanResult) : Nat :=
  ((results.filter (fun r => r.categoryName != core.RECYCLE_BIN)).map
    (fun r => r.cleanedSize)).sum

/-- The results of the recycle bin among the results of a summary. -/
def binRows (results : List common.CleanResult) : List common.CleanResult :=
  results.filter (fun r => r.categoryName == core.RECYCLE_BIN)

/-- The sum of the sizes of the entries of a disk. -/
def diskSize (disk : fs.Disk) : Nat := (disk.map (fun e => e.size)).sum

/-- The results are those of a cleaning pass that started in `world0`. On a disk
`world0.disk` without two entries at one location: the disk is what is left of
`world0.disk`, the file counts (byte counts) of the results of paths sum up to
the number (the sizes) of the entries that are gone, as `uint64_t`, and there is
one result of the recycle bin for each call of `SHEmptyRecycleBinA` made since. -/
def Cleaned (world0 : core.World) (self : core.SystemCleaner) (world : core.World) : Prop :=
  (world0.disk.map (fun e => e.loc)).Nodup →
    world.disk.Sublist world0.disk
    ∧ (pathFiles self.m_summary.results + world.disk.length) % core.UINT64_MOD
        = world0.disk.length % core.UINT64_MOD
    ∧ (pathSize self.m_summary.results + diskSize world.disk) % core.UINT64_MOD
        = diskSize world0.disk % core.UINT64_MOD
    ∧ (binRows self.m_summary.results).length + world0.emptyCalls = world.emptyCalls

/-- The cleaning pass of a clear run is under way: the coordinator is
outstanding, every other outstanding task is a cleaning worker, the state is
`CLEANING`, the counter `m_cleanedFiles` is 0, the totals are the sums over the
results, and the results count what has left the disk. -/
structure CleaningPhase (world0 : core.World) (coordinator : core.Task) (m : core.Machine) :
    Prop where
  coord : coordinator ∈ m.tasks
  workers : ∀ t ∈ m.tasks, t = coordinator ∨ ∃ item todo, t = core.Task.cleanOptions item todo
  state : m.self.m_currentState = common.CleanerState.CLEANING
  counter : m.self.m_cleanedFiles = 0
  totals : TotalsAgree m.self.m_summary
  cleaned : Cleaned world0 m.self m.world

/-- A clear run is complete: no task is outstanding, the state is
`CLEANING_DONE`, the summary has kind `CLEANING` and totals that are the sums
over its results. Either the baseline was not zero, the results count what has
left the disk and the progress is 1; or the baseline was zero, the world is as
it was and the results are those of the baseline analysis. -/
structure ClearDone (world0 : core.World) (expected : List common.CleanResult)
    (m : core.Machine) : Prop where
  tasks : m.tasks = []
  state : m.self.m_currentState = common.CleanerState.CLEANING_DONE
  kind : m.self.m_summary.type = common.SummaryType.CLEANING
  totals : TotalsAgree m.self.m_summary
  outcome : (sumFiles expected ≠ 0 ∧ Cleaned world0 m.self m.world ∧ m.progress = 1)
    ∨ (sumFiles expected = 0 ∧ m.world = world0 ∧ m.self.m_summary.results.Perm expected)

/-- A clear run is in its analysis pass, in its cleaning pass (the baseline is
not zero then), or complete. -/
def ClearRun (self0 : core.SystemCleaner) (world0 : core.World)
    (expected : List common.CleanResult) (start : Nat) (items : List common.CleaningItem)
    (m : core.Machine) : Prop :=
  AnalysisPhase self0 world0 expected (core.Task.clearCoordinator start items none) m
    ∨ (sumFiles expected ≠ 0
        ∧ ∃ totalFiles,
            CleaningPhase world0 (core.Task.clearCoordinator start items (some totalFiles)) m)
    ∨ ClearDone world0 expected m

/-- The changes of state that a clear run may make in one turn: none; with a
baseline that is not zero, from `ANALYZING` to `CLEANING` and from `CLEANING` to
`CLEANING_DONE`; with a baseline of zero, from `ANALYZING` to `CLEANING_DONE`. -/
def clearMove (baseline : Nat) (s t : common.CleanerState) : Prop :=
  s = t
    ∨ (baseline ≠ 0 ∧ s = common.CleanerState.ANALYZING ∧ t = common.CleanerState.CLEANING)
    ∨ (baseline ≠ 0 ∧ s = common.CleanerState.CLEANING ∧ t = common.CleanerState.CLEANING_DONE)
    ∨ (baseline = 0 ∧ s = common.CleanerState.ANALYZING
        ∧ t = common.CleanerState.CLEANING_DONE)

/-- The accesses to fields of the summary that are made while the summary mutex
is not held; `held` tells whether it is held at the start. -/
def unguardedFrom (held : Bool) : List core.Access → List core.Access
  | [] => []
  | core.Access.lock :: rest => unguardedFrom true rest
  | core.Access.unlock :: rest => unguardedFrom false rest
  | core.Access.read field :: rest =>
    if held then unguardedFrom held rest else core.Access.read field :: unguardedFrom held rest
  | core.Access.write field :: rest =>
    if held then unguardedFrom held rest else core.Access.write field :: unguardedFrom held rest
  | core.Access.load _ :: rest => unguardedFrom held rest
  | core.Access.store _ :: rest => unguardedFrom held rest

/-- The accesses to fields of the summary that a thread, not holding the summary
mutex at the start, makes without holding it. -/
def unguarded (accesses : List core.Access) : List core.Access := unguardedFrom false accesses

/-- The result that a call of `accumulateResult` appends. -/
def resultOf (call : String × String × core.DirInfo) : common.CleanResult :=
  { propertyName := call.1, categoryName := call.2.1,
    cleanedFiles := call.2.2.countFile, cleanedSize := call.2.2.dirSize }

/-- The engine after `resetData` and then the calls of `accumulateResult` with the
given arguments, one after the other. -/
def accumulated (self : core.SystemCleaner) (calls : List (String × String × core.DirInfo)) :
    core.SystemCleaner :=
  calls.foldl (fun s call => core.accumulateResult s call.1 call.2.1 call.2.2)
    (core.resetData self)

/-- The ids of the entries of the custom path index of the engine. -/
def indexIds (self : core.SystemCleaner) : List Nat :=
  self.m_customPathCache.map (fun kv => kv.1)

/-- The ids of the options of the custom category of the panel. -/
def customIds (panel : gui.CleanerPanel) : List Nat :=
  panel.customOptions.map (fun opt => opt.id)

/-- The access reads or writes a field of the summary. -/
def touchesSummary : core.Access → Bool
  | core.Access.read _ => true
  | core.Access.write _ => true
  | _ => false

end spec

/-! # Theorems -/

/-! ## The disk -/

namespace fs

theorem entryAt_of_mem (disk : Disk) (e : Entry) (hmem : e ∈ disk)
    (hnd : (disk.map (fun x => x.loc)).Nodup) : entryAt disk e.loc = some e := by
  induction disk with
  | nil => cases hmem
  | cons x xs ih =>
    simp only [List.map_cons, List.nodup_cons, List.mem_map, not_exists, not_and] at hnd
    rcases List.mem_cons.mp hmem with h | h
    · subst h
      simp [entryAt, List.find?_cons]
    · have hne : x.loc ≠ e.loc := fun hx => hnd.1 e h hx.symm
      have ih1 := ih h hnd.2
      simp only [entryAt, List.find?_cons] at ih1 ⊢
      have hb : (x.loc == e.loc) = false := by simpa using hne
      rw [hb]
      exact ih1

end fs

namespace core

theorem UINT64_MOD_pos : 0 < UINT64_MOD := by decide

theorem without_nil (disk : fs.Disk) : spec.without disk [] = disk := by
  simp [spec.without]

theorem without_cons (disk : fs.Disk) (e : fs.Entry) (gone : List fs.Entry) :
    spec.without (disk.filter (fun x => x.loc != e.loc)) gone = spec.without disk (e :: gone) := by
  simp only [spec.without, List.filter_filter, List.map_cons]
  apply List.filter_congr
  intro x _
  by_cases hx : x.loc = e.loc <;> simp [hx, List.contains_cons]

theorem processEntries_eq (deleteFiles : Bool) :
    ∀ (entries : List fs.Entry) (info : DirInfo) (disk : fs.Disk),
      info.countFile < UINT64_MOD → info.dirSize < UINT64_MOD →
      (∀ e ∈ entries, e ∈ disk) →
      (disk.map (fun x => x.loc)).Nodup →
      (entries.map (fun x => x.loc)).Nodup →
      processEntries deleteFiles entries info disk =
        (({ countFile := (info.countFile +
              (spec.counted deleteFiles (spec.reached (entries.filter
                (fun e => e.type == fs.FileType.regular)))).length) % UINT64_MOD,
            dirSize := (info.dirSize +
              ((spec.counted deleteFiles (spec.reached (entries.filter
                (fun e => e.type == fs.FileType.regular)))).map (fun e => e.size)).sum) % UINT64_MOD }
            : DirInfo),
         if deleteFiles then
           spec.without disk (spec.counted deleteFiles (spec.reached (entries.filter
                (fun e => e.type == fs.FileType.regular))))
         else disk) := by
  intro entries
  induction entries with
  | nil =>
    intro info disk hc hs _ _ _
    simp [processEntries, spec.counted, spec.reached, without_nil, Nat.mod_eq_of_lt hc,
      Nat.mod_eq_of_lt hs]
  | cons e rest ih =>
    intro info disk hc hs hsub hnd hent
    have hrest : ∀ x ∈ rest, x ∈ disk := fun x hx => hsub x (List.mem_cons_of_mem _ hx)
    simp only [List.map_cons, List.nodup_cons, List.mem_map, not_exists, not_and] at hent
    by_cases hreg : e.type = fs.FileType.regular
    · by_cases hraise : e.sizeRaises = true
      · simp [processEntries, hreg, hraise, spec.counted, spec.reached, without_nil,
          Nat.mod_eq_of_lt hc, Nat.mod_eq_of_lt hs]
      · have hraise2 : e.sizeRaises = false := by simpa using hraise
        cases deleteFiles with
        | false =>
          have h := ih { countFile := (info.countFile + 1) % UINT64_MOD,
                         dirSize := (info.dirSize + e.size) % UINT64_MOD } disk
            (Nat.mod_lt _ UINT64_MOD_pos) (Nat.mod_lt _ UINT64_MOD_pos) hrest hnd hent.2
          simp only [processEntries, hreg, hraise2, processFile] at h ⊢
          simp only [beq_self_eq_true, if_true, Bool.false_eq_true, if_false, Bool.not_false] at h ⊢
          rw [h]
          simp [spec.counted, spec.reached, hreg, hraise2, List.takeWhile_cons]
          constructor <;> congr 1 <;> omega
        | true =>
          have hat : fs.entryAt disk e.loc = some e :=
            fs.entryAt_of_mem disk e (hsub e (List.mem_cons_self _ _)) hnd
          by_cases hlock : e.locked = true
          · have h := ih info disk hc hs hrest hnd hent.2
            simp only [processEntries, hreg, hraise2, processFile, fs.remove, hat, hlock] at h ⊢
            simp only [beq_self_eq_true, if_true, Bool.false_eq_true, if_false, Bool.not_true] at h ⊢
            rw [h]
            simp [spec.counted, spec.reached, hreg, hraise2, hlock, List.takeWhile_cons]
          · have hlock2 : e.locked = false := by simpa using hlock
            have hsub1 : ∀ x ∈ rest, x ∈ disk.filter (fun x => x.loc != e.loc) := by
              intro x hx
              simp only [List.mem_filter, bne_iff_ne, ne_eq]
              exact ⟨hrest x hx, hent.1 x hx⟩
            have hnd1 : ((disk.filter (fun x => x.loc != e.loc)).map (fun x => x.loc)).Nodup :=
              (List.filter_sublist disk).map _ |>.nodup hnd
            have h := ih { countFile := (info.countFile + 1) % UINT64_MOD,
                           dirSize := (info.dirSize + e.size) % UINT64_MOD }
              (disk.filter (fun x => x.loc != e.loc))
              (Nat.mod_lt _ UINT64_MOD_pos) (Nat.mod_lt _ UINT64_MOD_pos) hsub1 hnd1 hent.2
            simp only [processEntries, hreg, hraise2, processFile, fs.remove, hat, hlock2] at h ⊢
            simp only [beq_self_eq_true, if_true, Bool.false_eq_true, if_false, Bool.not_true] at h ⊢
            rw [h, without_cons]
            simp [spec.counted, spec.reached, hreg, hraise2, hlock2, List.takeWhile_cons]
            constructor <;> congr 1 <;> omega
    · have hreg2 : (e.type == fs.FileType.regular) = false := by simpa using hreg
      have h := ih info disk hc hs hrest hnd hent.2
      simp only [processEntries, hreg2, List.filter_cons] at h ⊢
      simpa using h

theorem handled_subset (disk : fs.Disk) (loc : List String) :
    ∀ e ∈ spec.handled disk loc, e ∈ disk := by
  intro e he
  unfold spec.handled at he
  split at he
  · exact List.mem_of_mem_filter (List.mem_of_mem_filter ((List.takeWhile_sublist _).subset he))
  · split at he
    · have h1 := (List.takeWhile_sublist _).subset he
      cases hat : fs.entryAt disk loc with
      | none => simp [hat] at h1
      | some x =>
        simp only [hat, Option.toList_some, List.mem_singleton] at h1
        subst h1
        exact List.mem_of_find?_eq_some hat
    · cases he

theorem mem_without (disk : fs.Disk) (gone : List fs.Entry)
    (hnd : (disk.map (fun x => x.loc)).Nodup) (hsub : ∀ e ∈ gone, e ∈ disk) (x : fs.Entry) :
    x ∈ spec.without disk gone ↔ x ∈ disk ∧ x ∉ gone := by
  simp only [spec.without, List.mem_filter, Bool.not_eq_true', List.contains_eq_any_beq,
    List.any_eq_false, List.mem_map, beq_iff_eq, forall_exists_index, and_imp,
    forall_apply_eq_imp_iff₂]
  constructor
  · rintro ⟨hx, h⟩
    exact ⟨hx, fun hg => h x hg rfl⟩
  · rintro ⟨hx, h⟩
    refine ⟨hx, fun a ha hloc => h ?_⟩
    have : a = x := List.inj_on_of_nodup_map hnd (hsub a ha) hx (by simpa using hloc.symm)
    exact this ▸ ha

theorem processPath_eq (disk : fs.Disk) (pathDir : fs.Path) (deleteFiles : Bool)
    (hnd : (disk.map (fun x => x.loc)).Nodup) :
    processPath disk pathDir deleteFiles =
      (spec.tally (spec.counted deleteFiles (spec.handled disk (fs.elements pathDir))),
       if deleteFiles then
         spec.without disk (spec.counted deleteFiles (spec.handled disk (fs.elements pathDir)))
       else disk) := by
  have hz : (({} : DirInfo).countFile < UINT64_MOD) ∧ (({} : DirInfo).dirSize < UINT64_MOD) :=
    ⟨UINT64_MOD_pos, UINT64_MOD_pos⟩
  unfold processPath
  simp only []
  by_cases hdir : fs.is_directory disk (fs.elements pathDir) = true
  · have hsub : ∀ e ∈ fs.recursive_directory_iterator disk (fs.elements pathDir), e ∈ disk :=
      fun e he => List.mem_of_mem_filter he
    have hnd1 : ((fs.recursive_directory_iterator disk (fs.elements pathDir)).map
        (fun x => x.loc)).Nodup :=
      (List.filter_sublist disk).map _ |>.nodup hnd
    rw [if_pos hdir, processEntries_eq deleteFiles _ {} disk hz.1 hz.2 hsub hnd hnd1]
    simp [spec.handled, hdir, spec.regularFiles, spec.tally]
  · rw [if_neg hdir]
    by_cases hreg : fs.is_regular_file disk (fs.elements pathDir) = true
    · rw [if_pos hreg]
      cases hat : fs.entryAt disk (fs.elements pathDir) with
      | none => simp [fs.is_regular_file, hat] at hreg
      | some e =>
        have hmem : e ∈ disk := List.mem_of_find?_eq_some hat
        have hloc : e.loc = fs.elements pathDir := by
          have := List.find?_some hat
          simpa using this
        have htype : e.type = fs.FileType.regular := by
          simpa [fs.is_regular_file, hat] using hreg
        by_cases hraise : e.sizeRaises = true
        · simp [fs.file_size, hat, hraise, spec.handled, hdir, hreg, spec.reached, spec.counted,
            spec.tally, without_nil]
        · have hraise2 : e.sizeRaises = false := by simpa using hraise
          have hstep : processFile deleteFiles (fs.elements pathDir) e.size {} disk
              = processEntries deleteFiles [e] {} disk := by
            simp [processEntries, htype, hraise2, hloc]
          have hsub : ∀ x ∈ [e], x ∈ disk := by
            intro x hx
            rw [List.mem_singleton.mp hx]
            exact hmem
          simp only [fs.file_size, hat, hraise2, Bool.false_eq_true, if_false]
          rw [hstep, processEntries_eq deleteFiles [e] {} disk hz.1 hz.2 hsub hnd (by simp)]
          simp [spec.handled, hdir, hreg, hat, htype, spec.tally]
    · rw [if_neg hreg]
      simp [spec.handled, hdir, hreg, spec.counted, spec.tally, without_nil]

/-- What `processPath` returns, in terms of the files its walk handles. The tally
of `processPath` is the fold over the regular files
it handles (for a directory the regular files that the recursive walk reaches, for
a regular file the file itself): a file is counted iff `deleteFiles` is false or
its deletion succeeds, `countFile` is the number of counted files and `dirSize`
the sum of their sizes as queried before the deletion, both as `uint64_t`. A
file of the disk is gone afterwards iff it was counted by a deleting run, and
nothing else changes. In particular, for a directory whose walk handles all its
`K` regular files, `M` of them locked, a deleting run reports `K - M` files, the
sum of the sizes of those `K - M` files, and the `M` locked files are still on
the disk. -/
theorem processPath_tally (disk : fs.Disk) (pathDir : fs.Path) (deleteFiles : Bool)
    (hnd : (disk.map (fun x => x.loc)).Nodup) :
    (processPath disk pathDir deleteFiles).1
        = spec.tally (spec.counted deleteFiles (spec.handled disk (fs.elements pathDir)))
    ∧ (∀ e, e ∈ (processPath disk pathDir deleteFiles).2 ↔
          e ∈ disk ∧ ¬ (deleteFiles = true ∧ e ∈ spec.handled disk (fs.elements pathDir)
            ∧ e.locked = false))
    ∧ (fs.is_directory disk (fs.elements pathDir) = true →
        (∀ e ∈ spec.regularFiles disk (fs.elements pathDir), e.sizeRaises = false) →
        spec.handled disk (fs.elements pathDir) = spec.regularFiles disk (fs.elements pathDir)
        ∧ (processPath disk pathDir true).1.countFile
            = ((spec.regularFiles disk (fs.elements pathDir)).length
                - ((spec.regularFiles disk (fs.elements pathDir)).filter
                    (fun e => e.locked)).length) % UINT64_MOD
        ∧ (processPath disk pathDir true).1.dirSize
            = ((((spec.regularFiles disk (fs.elements pathDir)).filter
                    (fun e => !e.locked)).map (fun e => e.size)).sum) % UINT64_MOD
        ∧ (∀ e ∈ spec.regularFiles disk (fs.elements pathDir), e.locked = true →
            e ∈ (processPath disk pathDir true).2)) := by
  refine ⟨?_, ?_, ?_⟩
  · rw [processPath_eq disk pathDir deleteFiles hnd]
  · intro e
    rw [processPath_eq disk pathDir deleteFiles hnd]
    cases deleteFiles with
    | false => simp
    | true =>
      have hsub : ∀ x ∈ spec.counted true (spec.handled disk (fs.elements pathDir)), x ∈ disk :=
        fun x hx => handled_subset disk _ x (List.mem_of_mem_filter hx)
      rw [if_pos rfl, mem_without disk _ hnd hsub]
      simp [spec.counted]
  · intro hdir hsize
    have hall : spec.handled disk (fs.elements pathDir)
        = spec.regularFiles disk (fs.elements pathDir) := by
      simp only [spec.handled, hdir, if_true, spec.reached]
      rw [List.takeWhile_eq_self_iff]
      intro x hx
      simp [hsize x hx]
    have hdisk : ∀ x ∈ spec.regularFiles disk (fs.elements pathDir), x ∈ disk :=
      fun x hx => List.mem_of_mem_filter (List.mem_of_mem_filter hx)
    refine ⟨hall, ?_, ?_, ?_⟩
    · rw [processPath_eq disk pathDir true hnd, hall]
      simp only [spec.tally, spec.counted, Bool.not_true, Bool.false_or]
      congr 1
      have := List.length_eq_length_filter_add (l := spec.regularFiles disk (fs.elements pathDir))
        (fun e => e.locked)
      omega
    · rw [processPath_eq disk pathDir true hnd, hall]
      simp [spec.tally, spec.counted]
    · intro e he hlock
      rw [processPath_eq disk pathDir true hnd, hall]
      have hsub : ∀ x ∈ spec.counted true (spec.regularFiles disk (fs.elements pathDir)),
          x ∈ disk := fun x hx => hdisk x (List.mem_of_mem_filter hx)
      simp only [if_true, mem_without disk _ hnd hsub]
      exact ⟨hdisk e he, by simp [spec.counted, hlock]⟩

/-- The theorem `processPath_tally` at `C:\Temp` with three files, one of them
locked. -/
theorem processPath_tally_witness :
    (sample.tempDisk.map (fun x => x.loc)).Nodup
    ∧ (processPath sample.tempDisk "C:\\Temp" true).1
        = spec.tally (spec.counted true
            (spec.handled sample.tempDisk (fs.elements "C:\\Temp"))) :=
  ⟨by decide, (processPath_tally sample.tempDisk "C:\\Temp" true (by decide)).1⟩

/-- C2, at the input on which it fails. In `C:\Temp` the size of `a.tmp`, the
first file the walk meets, cannot be queried: the analysing run returns an empty
tally, although `b.tmp` (50 bytes) and `sub\c.tmp` (7 bytes) come after it and
raise nothing. When `a.tmp` is locked instead, the deleting run does go on and
counts the two other files. -/
theorem processPath_size_error_ends_walk :
    (processPath sample.unreadableDisk "C:\\Temp" false).1 = { countFile := 0, dirSize := 0 }
    ∧ (spec.regularFiles sample.unreadableDisk ["C:", "Temp"]).map (fun e => (e.loc, e.sizeRaises))
        = [(["C:", "Temp", "a.tmp"], true), (["C:", "Temp", "b.tmp"], false),
           (["C:", "Temp", "sub", "c.tmp"], false)]
    ∧ (processPath sample.lockedDisk "C:\\Temp" true).1 = { countFile := 2, dirSize := 57 } := by
  decide

theorem processEntries_analysis_frame :
    ∀ (entries : List fs.Entry) (info : DirInfo) (disk : fs.Disk),
      (processEntries false entries info disk).2 = disk := by
  intro entries
  induction entries with
  | nil => intro info disk; rfl
  | cons e rest ih =>
    intro info disk
    simp only [processEntries, processFile]
    split
    · split
      · rfl
      · simp [ih]
    · exact ih info disk

theorem processPath_analysis_frame (disk : fs.Disk) (pathDir : fs.Path) :
    (processPath disk pathDir false).2 = disk := by
  unfold processPath
  simp only []
  split
  · exact processEntries_analysis_frame _ _ _
  · split
    · split <;> simp [processFile]
    · rfl

theorem analysisOption_frame (cleaningItem : common.CleaningItem) (state : SystemCleaner × World)
    (cleanOption : common.CleanOption) :
    (analysisOption cleaningItem state cleanOption).2 = state.2 := by
  unfold analysisOption
  simp only []
  split
  · rfl
  · split
    · rfl
    · split <;> simp [processPath_analysis_frame]

theorem analysisOptions_world (self : SystemCleaner) (world : World)
    (cleaningItem : common.CleaningItem) :
    (analysisOptions self world cleaningItem).2 = world := by
  unfold analysisOptions
  have key : ∀ (opts : List common.CleanOption) (state : SystemCleaner × World),
      (opts.foldl (analysisOption cleaningItem) state).2 = state.2 := by
    intro opts
    induction opts with
    | nil => intro state; rfl
    | cons o rest ih =>
      intro state
      rw [List.foldl_cons, ih, analysisOption_frame]
  exact key _ _

/-- C3. Analysis performs no destructive operation. Whatever the engine, the
world and the catalog, and in whatever order the tasks of the categories run,
`analysisOptions` leaves the disk, the recycle bin and the number of calls of the
emptying operation as they were: no file is removed and the recycle bin is never
emptied. Hence every directory holds the same regular files afterwards: as many
of them, with the same total size. -/
theorem analysisOptions_frame (self : SystemCleaner) (world : World)
    (cleaningItems : List common.CleaningItem) :
    (cleaningItems.foldl (fun state item => analysisOptions state.1 state.2 item)
        (self, world)).2.disk = world.disk
    ∧ (cleaningItems.foldl (fun state item => analysisOptions state.1 state.2 item)
        (self, world)).2.emptyCalls = world.emptyCalls
    ∧ (cleaningItems.foldl (fun state item => analysisOptions state.1 state.2 item)
        (self, world)).2.recycleBin = world.recycleBin
    ∧ (∀ (pathDir : fs.Path), (processPath world.disk pathDir false).2 = world.disk)
    ∧ (∀ (dir : List String),
        (spec.regularFiles (cleaningItems.foldl
            (fun state item => analysisOptions state.1 state.2 item) (self, world)).2.disk dir).length
          = (spec.regularFiles world.disk dir).length
        ∧ ((spec.regularFiles (cleaningItems.foldl
            (fun state item => analysisOptions state.1 state.2 item) (self, world)).2.disk dir).map
              (fun e => e.size)).sum
          = ((spec.regularFiles world.disk dir).map (fun e => e.size)).sum) := by
  have key : ∀ (items : List common.CleaningItem) (state : SystemCleaner × World),
      (items.foldl (fun state item => analysisOptions state.1 state.2 item) state).2 = state.2 := by
    intro items
    induction items with
    | nil => intro state; rfl
    | cons item rest ih =>
      intro state
      rw [List.foldl_cons, ih, analysisOptions_world]
  have h := key cleaningItems (self, world)
  simp only [] at h
  rw [h]
  exact ⟨rfl, rfl, rfl, fun pathDir => processPath_analysis_frame _ _, fun _ => ⟨rfl, rfl⟩⟩

end core

/-! ## The path validator -/

namespace utils.path

/-- C4. The reason-reporting `validate` applies its five checks in a fixed order
(the path does not exist, the path is its own root path, Windows system folder,
program folder, protected attributes) and returns the reason of the first check
that fails; it returns no reason iff all five checks pass; the five reasons are
the strings of the sources, pairwise distinct and none of them empty. -/
theorem validate_first_failing (env : fs.Env) (path : fs.Path) :
    validate env path = ((spec.checks env path).find? (fun c => c.1)).map (fun c => c.2)
    ∧ (validate env path = none ↔ ∀ c ∈ spec.checks env path, c.1 = false)
    ∧ (spec.checks env path).map (fun c => c.2)
        = ["Path not found", "Cannot select drive root", "Windows system folder",
           "Program Files folder", "File/Folder has protected system attributes"]
    ∧ ((spec.checks env path).map (fun c => c.2)).Nodup
    ∧ (∀ r ∈ (spec.checks env path).map (fun c => c.2), r ≠ "") := by
  refine ⟨?_, ?_, rfl, by simp only [spec.checks, List.map]; decide,
    by simp only [spec.checks, List.map]; decide⟩
  · unfold validate spec.checks
    cases env.pathExists path <;> cases fs.pathEq path (fs.root_path path)
      <;> cases isWindowsSystemFolder env path <;> cases isWindowsProgramFiles env path
      <;> cases isProtectedByAttributes env path <;> rfl
  · unfold validate spec.checks
    cases env.pathExists path <;> cases fs.pathEq path (fs.root_path path)
      <;> cases isWindowsSystemFolder env path <;> cases isWindowsProgramFiles env path
      <;> cases isProtectedByAttributes env path <;> simp

theorem mismatch_append (base : List String) (c : String) (rest : List String) :
    fs.mismatch (base ++ c :: rest) base = (c :: rest, []) := by
  induction base with
  | nil => rfl
  | cons a as ih => simp [fs.mismatch, ih]

theorem beginsWithDotDot_joinNames (c : String) (rest : List String) (hc : c.data ≠ []) :
    fs.beginsWithDotDot (fs.joinNames (c :: rest)) = fs.beginsWithDotDot c := by
  cases rest with
  | nil => rfl
  | cons r rs =>
    simp only [fs.joinNames, fs.beginsWithDotDot, String.data_append]
    cases hd : c.data with
    | nil => exact absurd hd hc
    | cons x t =>
      cases t with
      | nil => simp [List.isPrefixOf]
      | cons y u => simp [List.isPrefixOf]

/-- What the two helpers make of a path that lies inside a base directory. When
the canonical form of the path has the elements of the canonical form of the
base followed by the folder names `c`, `rest`, the relative path is these names
joined, and the test answers "inside" exactly when `c` does not begin with two
dots. -/
theorem liesInside_nested (env : fs.Env) (path base cp cbase : fs.Path) (c : String)
    (rest : List String)
    (hp : env.weakly_canonical path = some cp) (hb : env.weakly_canonical base = some cbase)
    (hroot : fs.root_name cp = fs.root_name cbase)
    (hdir : fs.has_root_directory cp = fs.has_root_directory cbase)
    (hiter : fs.iterate cp = fs.iterate cbase ++ c :: rest) (hc : c.data ≠ []) :
    fs.relative env path base = some (fs.joinNames (c :: rest))
    ∧ liesInside (fs.relative env path base) = !fs.beginsWithDotDot c := by
  have hrel : fs.relative env path base = some (fs.joinNames (c :: rest)) := by
    simp only [fs.relative, hp, hb, fs.lexically_relative, fs.is_absolute, hroot, hdir, hiter,
      mismatch_append, fs.climb]
    simp
  refine ⟨hrel, ?_⟩
  rw [hrel]
  simp only [liesInside, beginsWithDotDot_joinNames c rest hc]
  have hne : (fs.joinNames (c :: rest)).data.isEmpty = false := by
    cases rest with
    | nil =>
      simp only [fs.joinNames]
      cases hd : c.data with
      | nil => exact absurd hd hc
      | cons _ _ => rfl
    | cons r rs =>
      simp only [fs.joinNames, String.data_append]
      cases hd : c.data with
      | nil => exact absurd hd hc
      | cons _ _ => rfl
  simp [hne]

/-- C5, at inputs on which it fails. With Windows in `C:\Windows`, the existing
folder `C:\Windows\..cache\data` lies two levels inside the installation
directory (its path relative to it is `..cache\data`), and `validate` accepts it:
the text of the relative path begins with two dots, which both helpers take for a
path that leaves the directory. The same happens to `C:\ProgramData\..x`. Their
neighbours `C:\Windows\Temp\data` and `C:\ProgramData\x` are refused. -/
theorem validate_accepts_dotdot_folder :
    sample.plainEnv.windowsDir = "C:\\Windows"
    ∧ fs.relative sample.plainEnv "C:\\Windows\\..cache\\data" "C:\\Windows"
        = some "..cache\\data"
    ∧ validate sample.plainEnv "C:\\Windows\\..cache\\data" = none
    ∧ validate sample.plainEnv "C:\\Windows\\Temp\\data" = some "Windows system folder"
    ∧ fs.relative sample.plainEnv "C:\\ProgramData\\..x" "C:\\ProgramData" = some "..x"
    ∧ validate sample.plainEnv "C:\\ProgramData\\..x" = none
    ∧ validate sample.plainEnv "C:\\ProgramData\\x" = some "Program Files folder" := by
  decide

theorem land_protected_ne_zero (attrs : Nat) :
    (attrs &&& PROTECTED_ATTR ≠ 0) ↔
      (attrs &&& FILE_ATTRIBUTE_HIDDEN ≠ 0 ∨ attrs &&& FILE_ATTRIBUTE_SYSTEM ≠ 0) := by
  have h : attrs &&& PROTECTED_ATTR
      = (attrs &&& FILE_ATTRIBUTE_SYSTEM) ||| (attrs &&& FILE_ATTRIBUTE_HIDDEN) := by
    unfold PROTECTED_ATTR
    exact Nat.and_or_distrib_left _ _ _
  rw [h]
  constructor
  · intro hne
    by_contra hcon
    push_neg at hcon
    apply hne
    rw [hcon.1, hcon.2]
    rfl
  · intro hor hzero
    have h1 : attrs &&& FILE_ATTRIBUTE_SYSTEM = 0 := by
      apply Nat.eq_of_testBit_eq
      intro i
      have := congrArg (fun n => Nat.testBit n i) hzero
      simp only [Nat.testBit_or, Nat.zero_testBit, Bool.or_eq_false_iff] at this
      simpa using this.1
    have h2 : attrs &&& FILE_ATTRIBUTE_HIDDEN = 0 := by
      apply Nat.eq_of_testBit_eq
      intro i
      have := congrArg (fun n => Nat.testBit n i) hzero
      simp only [Nat.testBit_or, Nat.zero_testBit, Bool.or_eq_false_iff] at this
      simpa using this.2
    rcases hor with h | h
    · exact h h2
    · exact h h1

/-- C6 as stated fails: `C:\Users\hidden` passes the four earlier checks, its
attribute query succeeds and it carries the hidden flag without the system flag,
yet the attribute step rejects it. -/
theorem hidden_only_rejected :
    sample.plainEnv.attributes "C:\\Users\\hidden" ≠ INVALID_FILE_ATTRIBUTES
    ∧ spec.isHidden (sample.plainEnv.attributes "C:\\Users\\hidden") = true
    ∧ spec.isSystem (sample.plainEnv.attributes "C:\\Users\\hidden") = false
    ∧ isProtectedByAttributes sample.plainEnv "C:\\Users\\hidden" = true
    ∧ validate sample.plainEnv "C:\\Users\\hidden"
        = some "File/Folder has protected system attributes"
    ∧ ¬ (isProtectedByAttributes sample.plainEnv "C:\\Users\\hidden" = true ↔
          (sample.plainEnv.attributes "C:\\Users\\hidden" = INVALID_FILE_ATTRIBUTES
            ∨ (spec.isHidden (sample.plainEnv.attributes "C:\\Users\\hidden") = true
              ∧ spec.isSystem (sample.plainEnv.attributes "C:\\Users\\hidden") = true))) := by
  decide

/-- C6, amended. The attribute step rejects a path exactly when the attribute
query fails or the path carries at least one of the hidden and the system flag;
so a path that passes the four earlier checks is accepted exactly when its query
succeeds and it carries neither flag. -/
theorem isProtectedByAttributes_iff (env : fs.Env) (path : fs.Path) :
    (isProtectedByAttributes env path = true ↔
      (env.attributes path = INVALID_FILE_ATTRIBUTES
        ∨ spec.isHidden (env.attributes path) = true
        ∨ spec.isSystem (env.attributes path) = true))
    ∧ (env.pathExists path = true → fs.pathEq path (fs.root_path path) = false →
        isWindowsSystemFolder env path = false → isWindowsProgramFiles env path = false →
        (validate env path = none ↔
          (env.attributes path ≠ INVALID_FILE_ATTRIBUTES
            ∧ spec.isHidden (env.attributes path) = false
            ∧ spec.isSystem (env.attributes path) = false))) := by
  have key : isProtectedByAttributes env path = true ↔
      (env.attributes path = INVALID_FILE_ATTRIBUTES
        ∨ spec.isHidden (env.attributes path) = true
        ∨ spec.isSystem (env.attributes path) = true) := by
    unfold isProtectedByAttributes spec.isHidden spec.isSystem
    simp only []
    by_cases hinv : env.attributes path = INVALID_FILE_ATTRIBUTES
    · simp [hinv]
    · simp only [beq_iff_eq, hinv, if_false, bne_iff_ne, false_or]
      exact land_protected_ne_zero _
  refine ⟨key, ?_⟩
  intro h1 h2 h3 h4
  have hv : validate env path = none ↔ isProtectedByAttributes env path = false := by
    unfold validate
    simp [h1, h2, h3, h4]
  rw [hv, ← Bool.not_eq_true, key]
  simp only [not_or, Bool.not_eq_true]

/-- The theorem `isProtectedByAttributes_iff` at an ordinary folder. -/
theorem isProtectedByAttributes_iff_witness :
    validate sample.plainEnv "C:\\Users\\me" = none ↔
      (sample.plainEnv.attributes "C:\\Users\\me" ≠ INVALID_FILE_ATTRIBUTES
        ∧ spec.isHidden (sample.plainEnv.attributes "C:\\Users\\me") = false
        ∧ spec.isSystem (sample.plainEnv.attributes "C:\\Users\\me") = false) :=
  (isProtectedByAttributes_iff sample.plainEnv "C:\\Users\\me").2
    (by decide) (by decide) (by decide) (by decide)

end utils.path

namespace core.path_validator

/-- C7, at the input on which it fails. The boolean form is the reason-reporting
form with one more test, the length of the path text; so on a path of 261
characters that passes the five checks the reason-reporting form reports no
reason while the boolean form returns false. -/
theorem validate_forms_differ :
    (∀ (env : fs.Env) (path : fs.Path),
      validate env path
        = ((utils.path.validate env path).isNone && decide (path.length ≤ MAX_LENGTH)))
    ∧ sample.longPath.length = 261
    ∧ utils.path.validate sample.plainEnv sample.longPath = none
    ∧ validate sample.plainEnv sample.longPath = false := by
  refine ⟨?_, by decide, by decide, by decide⟩
  intro env path
  unfold validate utils.path.validate
  by_cases hlen : path.length ≤ MAX_LENGTH
  · have hgt : ¬ (path.length > MAX_LENGTH) := by omega
    cases env.pathExists path <;> cases fs.pathEq path (fs.root_path path)
      <;> cases utils.path.isWindowsSystemFolder env path
      <;> cases utils.path.isWindowsProgramFiles env path
      <;> cases utils.path.isProtectedByAttributes env path <;> simp [hlen, hgt]
  · have hgt : path.length > MAX_LENGTH := by omega
    simp [hlen, hgt]

end core.path_validator

/-! ## Custom paths -/

namespace core

theorem findsDuplicate_iff (env : fs.Env) (path : fs.Path) (cache : PathCache) :
    findsDuplicate env path cache = true ↔
      ∃ kv ∈ cache, spec.reportsEquivalent env path kv.2 = true := by
  induction cache with
  | nil => simp [findsDuplicate]
  | cons kv rest ih =>
    obtain ⟨k, q⟩ := kv
    simp only [findsDuplicate, List.mem_cons, exists_eq_or_imp, spec.reportsEquivalent]
    cases hr : env.equivalentRaises path q <;> cases he : env.equivalent path q <;>
      simp [ih, spec.reportsEquivalent]

theorem findsDuplicate_eq_false (env : fs.Env) (path : fs.Path) (cache : PathCache) :
    findsDuplicate env path cache = false ↔
      ∀ kv ∈ cache, spec.reportsEquivalent env path kv.2 = false := by
  rw [← Bool.not_eq_true, findsDuplicate_iff]
  simp

theorem assign_fresh (cache : PathCache) (id : Nat) (path : fs.Path)
    (hfresh : ∀ kv ∈ cache, kv.1 ≠ id) :
    cache.assign id path = cache ++ [(id, path)] := by
  unfold PathCache.assign
  have h : cache.any (fun kv => kv.1 == id) = false := by
    rw [List.any_eq_false]
    intro kv hkv
    simpa using hfresh kv hkv
  simp [h]

theorem lookup_fresh (cache : PathCache) (id : Nat)
    (hfresh : ∀ kv ∈ cache, kv.1 ≠ id) : cache.lookup id = none := by
  rw [List.lookup_eq_none_iff]
  intro kv hkv
  simpa using fun h => hfresh kv hkv h.symm

end core

namespace utils.path

theorem validate_reason_ne_empty (env : fs.Env) (path : fs.Path) (reason : String)
    (h : validate env path = some reason) : reason ≠ "" := by
  revert h
  unfold validate
  cases env.pathExists path <;> cases fs.pathEq path (fs.root_path path)
    <;> cases isWindowsSystemFolder env path <;> cases isWindowsProgramFiles env path
    <;> cases isProtectedByAttributes env path <;> simp <;> intro h <;> subst h <;> decide

end utils.path

namespace core

theorem isSuccess_success (opt : common.CleanOption) :
    (common.PathAdditionResult.success opt).isSuccess = true := rfl

theorem isSuccess_error (msg : String) (world : World) (h : msg ≠ "") :
    (common.PathAdditionResult.error msg world).1.isSuccess = false := by
  simp only [common.PathAdditionResult.error, common.PathAdditionResult.isSuccess]
  cases hd : msg.data with
  | nil => exact absurd (String.ext hd) h
  | cons c cs => rfl

/-- C8. `addCustomPath` succeeds iff `validate` accepts the path and the
equivalence query reports no registered custom path as equivalent to it. On
success the custom path index gains exactly one entry, from the id of the
returned option to the path, under an id that was not in the index, and nothing
else in the engine changes; on failure the engine is unchanged and the result
carries a non-empty message (the reason of `validate`, or `Duplicated path`), so
`isSuccess` is false. After a success, adding the same path again fails as a
duplicate and leaves the index alone. The ids of the index stay below the
counter of the generator, which is what makes a new id fresh. -/
theorem addCustomPath_spec (env : fs.Env) (self : SystemCleaner) (world : World)
    (path : fs.Path)
    (hfresh : ∀ kv ∈ self.m_customPathCache, kv.1 < world.idCounter) :
    ((addCustomPath env self world path).1.isSuccess = true ↔
        (utils.path.validate env path = none
          ∧ ∀ kv ∈ self.m_customPathCache, spec.reportsEquivalent env path kv.2 = false))
    ∧ ((addCustomPath env self world path).1.isSuccess = true →
        (addCustomPath env self world path).2.1
            = { self with m_customPathCache := self.m_customPathCache
                  ++ [((addCustomPath env self world path).1.option.id, path)] }
        ∧ (∀ kv ∈ self.m_customPathCache,
            kv.1 ≠ (addCustomPath env self world path).1.option.id)
        ∧ (∀ id, getFullPath (addCustomPath env self world path).2.1 id
            = if id = (addCustomPath env self world path).1.option.id then some path
              else getFullPath self id))
    ∧ ((addCustomPath env self world path).1.isSuccess = false →
        (addCustomPath env self world path).2.1 = self
        ∧ (addCustomPath env self world path).1.errorMessage ≠ ""
        ∧ (utils.path.validate env path = none →
            (addCustomPath env self world path).1.errorMessage = "Duplicated path")
        ∧ (∀ reason, utils.path.validate env path = some reason →
            (addCustomPath env self world path).1.errorMessage = reason))
    ∧ (∀ kv ∈ (addCustomPath env self world path).2.1.m_customPathCache,
        kv.1 < (addCustomPath env self world path).2.2.idCounter)
    ∧ ((addCustomPath env self world path).1.isSuccess = true →
        spec.reportsEquivalent env path path = true →
        (addCustomPath env (addCustomPath env self world path).2.1
            (addCustomPath env self world path).2.2 path).1.isSuccess = false
        ∧ (addCustomPath env (addCustomPath env self world path).2.1
            (addCustomPath env self world path).2.2 path).1.errorMessage = "Duplicated path"
        ∧ (addCustomPath env (addCustomPath env self world path).2.1
            (addCustomPath env self world path).2.2 path).2.1
            = (addCustomPath env self world path).2.1) := by
  have hne : ∀ kv ∈ self.m_customPathCache, kv.1 ≠ world.idCounter :=
    fun kv hkv => Nat.ne_of_lt (hfresh kv hkv)
  cases hv : utils.path.validate env path with
  | some reason =>
    have hr := utils.path.validate_reason_ne_empty env path reason hv
    have hfail := isSuccess_error reason world hr
    simp only [addCustomPath, hv]
    refine ⟨by simp [hfail], by simp [hfail], ?_, ?_, by simp [hfail]⟩
    · intro _
      exact ⟨by trivial, by simpa [common.PathAdditionResult.error] using hr, by simp,
        by simp [common.PathAdditionResult.error]⟩
    · intro kv hkv
      exact Nat.lt_succ_of_lt (hfresh kv hkv)
  | none =>
    cases hd : findsDuplicate env path self.m_customPathCache with
    | true =>
      have hfail := isSuccess_error "Duplicated path" world (by decide)
      have hex := (findsDuplicate_iff env path self.m_customPathCache).mp hd
      simp only [addCustomPath, hv, hd, if_true]
      refine ⟨?_, by simp [hfail], ?_, ?_, by simp [hfail]⟩
      · simp only [hfail, Bool.false_eq_true, true_and, false_iff, not_forall]
        obtain ⟨kv, hkv, he⟩ := hex
        exact ⟨kv, hkv, by simp [he]⟩
      · intro _
        exact ⟨by trivial, by simp [common.PathAdditionResult.error], fun _ => rfl, by simp⟩
      · intro kv hkv
        exact Nat.lt_succ_of_lt (hfresh kv hkv)
    | false =>
      have hall := (findsDuplicate_eq_false env path self.m_customPathCache).mp hd
      have hassign := assign_fresh self.m_customPathCache world.idCounter path hne
      have hstep : addCustomPath env self world path
          = (common.PathAdditionResult.success
                { displayName := fs.filename path, id := world.idCounter },
             { self with m_customPathCache :=
                 self.m_customPathCache ++ [(world.idCounter, path)] },
             { world with idCounter := world.idCounter + 1 }) := by
        simp [addCustomPath, hv, hd, common.IDGenerator.next, hassign]
      rw [hstep]
      refine ⟨?_, ?_, ?_, ?_, ?_⟩
      · simp only [isSuccess_success, true_iff]
        exact ⟨trivial, hall⟩
      · intro _
        refine ⟨rfl, hne, ?_⟩
        intro id
        simp only [getFullPath, common.PathAdditionResult.success, List.lookup_append]
        by_cases hid : id = world.idCounter
        · subst hid
          simp [lookup_fresh self.m_customPathCache _ hne, List.lookup_cons]
        · have hb : (id == world.idCounter) = false := by simpa using hid
          simp [hid, List.lookup_cons, hb]
      · intro h
        simp [isSuccess_success] at h
      · intro kv hkv
        simp only [List.mem_append, List.mem_singleton] at hkv
        rcases hkv with h | h
        · exact Nat.lt_succ_of_lt (hfresh kv h)
        · subst h
          exact Nat.lt_succ_self _
      · intro _ hself
        have hdup : findsDuplicate env path
            (self.m_customPathCache ++ [(world.idCounter, path)]) = true := by
          rw [findsDuplicate_iff]
          exact ⟨(world.idCounter, path), by simp, hself⟩
        have hfail := isSuccess_error "Duplicated path"
          { world with idCounter := world.idCounter + 1 } (by decide)
        simp only [addCustomPath, hv, hd, hdup, if_true]
        exact ⟨hfail, rfl, by trivial⟩

/-- The theorem `addCustomPath_spec` at an engine with one custom path and a
second folder. -/
theorem addCustomPath_spec_witness :
    (∀ kv ∈ sample.oneCustomPath.m_customPathCache, kv.1 < sample.oneIdWorld.idCounter)
    ∧ ((addCustomPath sample.plainEnv sample.oneCustomPath sample.oneIdWorld
          "C:\\Users\\me\\Downloads").1.isSuccess = true ↔
        (utils.path.validate sample.plainEnv "C:\\Users\\me\\Downloads" = none
          ∧ ∀ kv ∈ sample.oneCustomPath.m_customPathCache,
              spec.reportsEquivalent sample.plainEnv "C:\\Users\\me\\Downloads" kv.2 = false)) :=
  ⟨by decide, (addCustomPath_spec sample.plainEnv sample.oneCustomPath sample.oneIdWorld
    "C:\\Users\\me\\Downloads" (by decide)).1⟩

theorem readLoop_records (env : fs.Env) (input : List Char) (records : List String)
    (h : spec.Records input records) :
    ∀ (fuel : Nat) (state : Loading), records.length ≤ fuel →
      (∀ r ∈ records, addCustomPath.raises env r = false) →
      readLoop env fuel input state = some (records.foldl (addLoaded env) state) := by
  induction h with
  | stop input hstop =>
    intro fuel state _ _
    cases fuel with
    | zero => rfl
    | succ f =>
      match input, hstop with
      | [], _ => rfl
      | [_], _ => rfl
      | [_, _], _ => rfl
      | [_, _, _], _ => rfl
      | b0 :: b1 :: b2 :: b3 :: rest, hstop =>
        simp only [spec.stops, spec.length32, Bool.or_eq_true, beq_iff_eq,
          decide_eq_true_eq] at hstop
        simp only [readLoop, readUInt32, List.foldl_nil]
        rcases hstop with (h0 | hbig) | hshort
        · simp [h0]
        · have hd : decide (byteOf b0 + 256 * byteOf b1 + 65536 * byteOf b2
              + 16777216 * byteOf b3 > 10000) = true := by simpa using hbig
          simp [hd]
        · split
          · rfl
          · simp [hshort]
  | record b0 b1 b2 b3 payload rest records hsize hpos hmax _ ih =>
    intro fuel state hfuel hraise
    cases fuel with
    | zero => simp at hfuel
    | succ f =>
      have hf : records.length ≤ f := by simpa using hfuel
      have hr := hraise (String.mk payload) (List.mem_cons_self _ _)
      simp only [spec.length32] at hsize
      have hne : ¬ (payload.length = 0) := by omega
      have hle : ¬ (10000 < payload.length) := by omega
      simp only [readLoop, readUInt32, hsize, beq_iff_eq, hne, gt_iff_lt, hle, decide_False,
        Bool.or_self, Bool.false_eq_true, if_false, List.length_append, List.take_left',
        List.drop_left', List.foldl_cons]
      have hb : (payload.length == 0) = false := by simpa using hne
      simp only [hb, Bool.or_self, Bool.false_eq_true, if_false]
      have hlt : ¬ (payload.length + rest.length < payload.length) := by omega
      rw [if_neg hlt, hr]
      exact ih f _ hf (fun r hmem => hraise r (List.mem_cons_of_mem _ hmem))

theorem records_length_le (input : List Char) (records : List String)
    (h : spec.Records input records) : records.length ≤ input.length := by
  induction h with
  | stop input _ => exact Nat.zero_le _
  | record b0 b1 b2 b3 payload rest records _ _ _ _ ih =>
    simp only [List.length_cons, List.length_append]
    omega

theorem not_stops_record (b0 b1 b2 b3 : Char) (payload rest : List Char)
    (hsize : spec.length32 b0 b1 b2 b3 = payload.length)
    (hpos : 1 ≤ payload.length) (hmax : payload.length ≤ 10000) :
    spec.stops (b0 :: b1 :: b2 :: b3 :: (payload ++ rest)) = false := by
  simp only [spec.stops, hsize, List.length_append, Bool.or_eq_false_iff, beq_eq_false_iff_ne,
    ne_eq, decide_eq_false_iff_not, not_lt]
  omega

theorem records_exist : ∀ (n : Nat) (input : List Char), input.length ≤ n →
    ∃ records, spec.Records input records := by
  intro n
  induction n with
  | zero =>
    intro input hlen
    exact ⟨[], spec.Records.stop input (by
      have : input = [] := List.length_eq_zero.mp (Nat.le_zero.mp hlen)
      subst this
      rfl)⟩
  | succ n ih =>
    intro input hlen
    cases hs : spec.stops input with
    | true => exact ⟨[], spec.Records.stop input hs⟩
    | false =>
      match input, hlen, hs with
      | [], _, hs => simp [spec.stops] at hs
      | [_], _, hs => simp [spec.stops] at hs
      | [_, _], _, hs => simp [spec.stops] at hs
      | [_, _, _], _, hs => simp [spec.stops] at hs
      | b0 :: b1 :: b2 :: b3 :: rest, hlen, hs =>
        simp only [spec.stops, Bool.or_eq_false_iff, beq_eq_false_iff_ne, ne_eq,
          decide_eq_false_iff_not, not_lt] at hs
        obtain ⟨⟨h0, hmax⟩, hfit⟩ := hs
        have hlen1 : (rest.drop (spec.length32 b0 b1 b2 b3)).length ≤ n := by
          simp only [List.length_cons, List.length_drop] at hlen ⊢
          omega
        obtain ⟨records, hrec⟩ := ih _ hlen1
        have htake : (rest.take (spec.length32 b0 b1 b2 b3)).length
            = spec.length32 b0 b1 b2 b3 := by
          rw [List.length_take]
          omega
        refine ⟨String.mk (rest.take (spec.length32 b0 b1 b2 b3)) :: records, ?_⟩
        have hsplit : b0 :: b1 :: b2 :: b3 :: rest
            = b0 :: b1 :: b2 :: b3 :: (rest.take (spec.length32 b0 b1 b2 b3)
                ++ rest.drop (spec.length32 b0 b1 b2 b3)) := by
          rw [List.take_append_drop]
        rw [hsplit]
        exact spec.Records.record b0 b1 b2 b3 _ _ records htake.symm (by omega) (by omega) hrec

theorem records_unique (input : List Char) (records : List String)
    (h : spec.Records input records) :
    ∀ (others : List String), spec.Records input others → others = records := by
  induction h with
  | stop input hstop =>
    intro others h2
    cases h2 with
    | stop _ _ => rfl
    | record b0 b1 b2 b3 payload rest records hsize hpos hmax _ =>
      rw [not_stops_record b0 b1 b2 b3 payload rest hsize hpos hmax] at hstop
      cases hstop
  | record b0 b1 b2 b3 payload rest records hsize hpos hmax _ ih =>
    intro others h2
    generalize hin : b0 :: b1 :: b2 :: b3 :: (payload ++ rest) = input at h2
    cases h2 with
    | stop _ hstop =>
      rw [← hin, not_stops_record b0 b1 b2 b3 payload rest hsize hpos hmax] at hstop
      cases hstop
    | record c0 c1 c2 c3 payload2 rest2 records2 hsize2 hpos2 hmax2 hrest2 =>
      simp only [List.cons.injEq] at hin
      obtain ⟨h0, h1, h2, h3, happ⟩ := hin
      subst h0 h1 h2 h3
      have hl : payload.length = payload2.length := by rw [← hsize, ← hsize2]
      obtain ⟨hp, hr⟩ := List.append_inj happ hl
      subst hp hr
      rw [ih records2 hrest2]

theorem foldl_addLoaded_submit (env : fs.Env) :
    ∀ (records : List String) (state : Loading),
      ((records.foldl (addLoaded env) state).cleanOptions,
       (records.foldl (addLoaded env) state).self,
       (records.foldl (addLoaded env) state).world)
        = records.foldl (spec.submit env) (state.cleanOptions, state.self, state.world) := by
  intro records
  induction records with
  | nil => intro state; rfl
  | cons r rest ih =>
    intro state
    rw [List.foldl_cons, List.foldl_cons, ih]
    rfl

theorem initCustomPaths_of_records (env : fs.Env) (self : SystemCleaner) (world : World)
    (cleaningItems : List common.CleaningItem) (input : List Char) (records : List String)
    (hstore : world.store = some input) (hparse : spec.Records input records)
    (hraise : ∀ r ∈ records, addCustomPath.raises env r = false) :
    initCustomPaths env self world cleaningItems
      = some (spec.submitAll env self world cleaningItems records) := by
  have hsub := foldl_addLoaded_submit env records
    { self := self, world := world, cleanOptions := [] }
  simp only [initCustomPaths, hstore, spec.submitAll]
  rw [readLoop_records env input records hparse input.length _
    (records_length_le input records hparse) hraise]
  simp only [← hsub]

/-- What `initCustomPaths` does when no record makes `addCustomPath` end by an
exception. The parser of the custom-path store reads records of a four-byte
length followed by exactly that many bytes, and stops at the first of: the end
of the input, an incomplete length field, a length of 0, a length greater than
10000, a payload shorter than its length. When the input is the complete records
`records` followed by such a stopping point, `initCustomPaths` does what
submitting exactly these records to `addCustomPath` in file order does, whatever
follows the stopping point. Every input is of that form, for one sequence of
records only; a missing file gives the custom item without options and changes
nothing. -/
theorem initCustomPaths_reads_records (env : fs.Env) (self : SystemCleaner) (world : World)
    (cleaningItems : List common.CleaningItem) (input : List Char) (records : List String)
    (hstore : world.store = some input) (hparse : spec.Records input records)
    (hraise : ∀ r ∈ records, addCustomPath.raises env r = false) :
    initCustomPaths env self world cleaningItems
        = some (spec.submitAll env self world cleaningItems records)
    ∧ (∀ others, spec.Records input others → others = records)
    ∧ (∀ (bytes : List Char), ∃ found, spec.Records bytes found)
    ∧ initCustomPaths env self { world with store := none } cleaningItems
        = some (cleaningItems ++ [{ name := "Custom paths",
                                    itemType := common.ItemType.CUSTOM_PATH }],
                self, { world with store := none }) := by
  refine ⟨initCustomPaths_of_records env self world cleaningItems input records hstore hparse
      hraise,
    records_unique input records hparse, ?_, rfl⟩
  intro bytes
  exact records_exist bytes.length bytes (Nat.le_refl _)

/-- The theorem `initCustomPaths_reads_records` at a store that holds the record
of `C:\a` and one more byte. -/
theorem initCustomPaths_reads_records_witness :
    spec.Records sample.storeBytes ["C:\\a"]
    ∧ initCustomPaths sample.plainEnv {} { store := some sample.storeBytes } []
        = some (spec.submitAll sample.plainEnv {} { store := some sample.storeBytes } []
            ["C:\\a"]) :=
  have hparse : spec.Records sample.storeBytes ["C:\\a"] :=
    spec.Records.record (Char.ofNat 4) (Char.ofNat 0) (Char.ofNat 0) (Char.ofNat 0)
      ['C', ':', '\\', 'a'] [Char.ofNat 7] [] (by decide) (by decide) (by decide)
      (spec.Records.stop [Char.ofNat 7] (by decide))
  ⟨hparse, (initCustomPaths_reads_records sample.plainEnv {} { store := some sample.storeBytes }
    [] sample.storeBytes ["C:\\a"] rfl hparse (by decide)).1⟩

theorem toNat_ofNat_of_lt (m : Nat) (h : m < 256) : (Char.ofNat m).toNat = m := by
  have hv : m.isValidChar := Or.inl (by omega)
  rw [Char.ofNat, dif_pos hv]
  rfl

theorem byteOf_ofNat (m : Nat) (h : m < 256) : byteOf (Char.ofNat m) = m := by
  unfold byteOf
  rw [toNat_ofNat_of_lt m h]
  exact Nat.mod_eq_of_lt h

theorem length32_writeUInt32 (n : Nat) (hn : n < UINT32_MOD) :
    ∃ b0 b1 b2 b3, writeUInt32 n = [b0, b1, b2, b3] ∧ spec.length32 b0 b1 b2 b3 = n := by
  refine ⟨_, _, _, _, rfl, ?_⟩
  have h0 := byteOf_ofNat (n % 256) (Nat.mod_lt _ (by decide))
  have h1 := byteOf_ofNat (n / 256 % 256) (Nat.mod_lt _ (by decide))
  have h2 := byteOf_ofNat (n / 65536 % 256) (Nat.mod_lt _ (by decide))
  have h3 := byteOf_ofNat (n / 16777216 % 256) (Nat.mod_lt _ (by decide))
  have hn2 : n < 4294967296 := hn
  simp only [spec.length32, h0, h1, h2, h3]
  omega

theorem narrow_bytes : ∀ (text : List Char),
    text.all (fun c => decide (c.toNat < 256)) = true →
    text.map (fun c => Char.ofNat (byteOf c)) = text := by
  intro text
  induction text with
  | nil => intro _; rfl
  | cons c rest ih =>
    intro h
    simp only [List.all_cons, Bool.and_eq_true, decide_eq_true_eq] at h
    have hc : Char.ofNat (byteOf c) = c := by
      unfold byteOf
      rw [Nat.mod_eq_of_lt h.1]
      exact Char.ofNat_toNat c
    rw [List.map_cons, hc, ih h.2]

theorem records_writeRecords (cache : PathCache)
    (hnarrow : ∀ kv ∈ cache, fs.isNarrow kv.2 = true)
    (hlen : ∀ kv ∈ cache, 1 ≤ (fs.string kv.2).length ∧ (fs.string kv.2).length ≤ 10000) :
    spec.Records (writeRecords cache) (cache.map (fun kv => kv.2)) := by
  induction cache with
  | nil => exact spec.Records.stop [] rfl
  | cons kv rest ih =>
    obtain ⟨k, customPath⟩ := kv
    have hk := hlen (k, customPath) (List.mem_cons_self _ _)
    have hn := hnarrow (k, customPath) (List.mem_cons_self _ _)
    have hrest := ih (fun kv hkv => hnarrow kv (List.mem_cons_of_mem _ hkv))
      (fun kv hkv => hlen kv (List.mem_cons_of_mem _ hkv))
    have hmod : (fs.string customPath).length % UINT32_MOD = (fs.string customPath).length :=
      Nat.mod_eq_of_lt (Nat.lt_of_le_of_lt hk.2 (by decide))
    obtain ⟨b0, b1, b2, b3, hw, hl⟩ := length32_writeUInt32 (fs.string customPath).length
      (Nat.lt_of_le_of_lt hk.2 (by decide))
    have htake : (fs.string customPath).take (fs.string customPath).length
        = fs.string customPath := List.take_of_length_le (Nat.le_refl _)
    have hbytes := narrow_bytes (fs.string customPath) hn
    simp only [writeRecords, writeRecord, hmod, hw, htake, hbytes, List.map_cons,
      List.cons_append, List.nil_append]
    exact spec.Records.record b0 b1 b2 b3 customPath.data (writeRecords rest) _
      hl hk.1 hk.2 hrest

theorem validate_none_length_pos (env : fs.Env) (path : fs.Path)
    (h : utils.path.validate env path = none) : 1 ≤ path.length := by
  by_contra hlen
  have h0 : path.length = 0 := by omega
  have hd : path.data = [] := List.length_eq_zero.mp h0
  have hp : path = "" := String.ext hd
  have hroot : fs.pathEq "" (fs.root_path "") = true := by decide
  rw [hp] at h
  unfold utils.path.validate at h
  rw [hroot] at h
  cases hex : env.pathExists "" with
  | false => rw [hex] at h; cases h
  | true => rw [hex] at h; cases h

theorem addCustomPath_success (env : fs.Env) (self : SystemCleaner) (world : World)
    (path : fs.Path) (hv : utils.path.validate env path = none)
    (hd : findsDuplicate env path self.m_customPathCache = false)
    (hfresh : ∀ kv ∈ self.m_customPathCache, kv.1 < world.idCounter) :
    addCustomPath env self world path
      = (common.PathAdditionResult.success
            { displayName := fs.filename path, id := world.idCounter },
         { self with m_customPathCache :=
             self.m_customPathCache ++ [(world.idCounter, path)] },
         { world with idCounter := world.idCounter + 1 }) := by
  have hne : ∀ kv ∈ self.m_customPathCache, kv.1 ≠ world.idCounter :=
    fun kv hkv => Nat.ne_of_lt (hfresh kv hkv)
  simp [addCustomPath, hv, hd, common.IDGenerator.next, assign_fresh _ _ _ hne]

theorem foldl_addLoaded (env : fs.Env) :
    ∀ (paths : List fs.Path) (state : Loading),
      (∀ kv ∈ state.self.m_customPathCache, kv.1 < state.world.idCounter) →
      (∀ p ∈ paths, utils.path.validate env p = none) →
      paths.Pairwise (fun p q => spec.reportsEquivalent env q p = false) →
      (∀ p ∈ paths, ∀ kv ∈ state.self.m_customPathCache,
        spec.reportsEquivalent env p kv.2 = false) →
      ((paths.foldl (addLoaded env) state).self.m_customPathCache.map (fun kv => kv.2)
          = state.self.m_customPathCache.map (fun kv => kv.2) ++ paths)
      ∧ ((paths.foldl (addLoaded env) state).cleanOptions.map (fun o => o.displayName)
          = state.cleanOptions.map (fun o => o.displayName) ++ paths.map fs.filename) := by
  intro paths
  induction paths with
  | nil => intro state _ _ _ _; simp
  | cons p rest ih =>
    intro state hfresh hvalid hpair hold
    have hv := hvalid p (List.mem_cons_self _ _)
    have hd : findsDuplicate env p state.self.m_customPathCache = false :=
      (findsDuplicate_eq_false env p _).mpr (hold p (List.mem_cons_self _ _))
    have hstep := addCustomPath_success env state.self state.world p hv hd hfresh
    rw [List.pairwise_cons] at hpair
    have hnext := ih (addLoaded env state p)
      (by
        simp only [addLoaded, hstep]
        intro kv hkv
        simp only [List.mem_append, List.mem_singleton] at hkv
        rcases hkv with h | h
        · exact Nat.lt_succ_of_lt (hfresh kv h)
        · subst h
          exact Nat.lt_succ_self _)
      (fun q hq => hvalid q (List.mem_cons_of_mem _ hq))
      hpair.2
      (by
        simp only [addLoaded, hstep]
        intro q hq kv hkv
        simp only [List.mem_append, List.mem_singleton] at hkv
        rcases hkv with h | h
        · exact hold q (List.mem_cons_of_mem _ hq) kv h
        · subst h
          exact hpair.1 q hq)
    have hok : (common.PathAdditionResult.success
        { displayName := fs.filename p, id := state.world.idCounter }).isSuccess = true := rfl
    rw [List.foldl_cons, hnext.1, hnext.2]
    simp only [addLoaded, hstep, hok, if_true]
    simp [common.PathAdditionResult.success]

theorem length_flatten_replicate (n : Nat) (x : List Char) :
    (List.replicate n x).flatten.length = n * x.length := by
  induction n with
  | zero => simp
  | succ n ih =>
    rw [List.replicate_succ, List.flatten_cons, List.length_append, ih, Nat.succ_mul, Nat.add_comm]

theorem deepPath_length : sample.deepPath.length = 10052 := by
  show ('D' :: ':' :: sample.deepFolders).length = 10052
  rw [List.length_cons, List.length_cons, sample.deepFolders, length_flatten_replicate,
    List.length_cons, List.length_replicate]

theorem records_of_long_first (k : Nat) (customPath : fs.Path) (rest : PathCache)
    (hlong : 10000 < (fs.string customPath).length)
    (hfit : (fs.string customPath).length < UINT32_MOD) :
    spec.Records (writeRecords ((k, customPath) :: rest)) [] := by
  obtain ⟨b0, b1, b2, b3, hw, hl⟩ := length32_writeUInt32 (fs.string customPath).length hfit
  apply spec.Records.stop
  simp only [writeRecords, writeRecord, Nat.mod_eq_of_lt hfit, hw, List.cons_append,
    List.nil_append, spec.stops, hl]
  simp [hlong]

/-- C9 as stated fails. The folder `sample.deepPath`, fifty levels deep, with a text
of 10052 bytes, is valid at reload (`validate` returns, and returns no reason)
and is the only registered custom path;
`fini` writes its record and `initCustomPaths` stops at the length field of that
record, so that the reload yields no custom path. -/
theorem deep_path_not_restored :
    utils.path.validate sample.plainEnv sample.deepPath = none
    ∧ utils.path.validate.raises sample.plainEnv sample.deepPath = false
    ∧ (fs.string sample.deepPath).length = 10052
    ∧ (fini { m_customPathCache := [(0, sample.deepPath)] } {}).store
        = some (writeRecords [(0, sample.deepPath)])
    ∧ (initCustomPaths sample.plainEnv {}
          (fini { m_customPathCache := [(0, sample.deepPath)] } {}) []).map
        (fun reloaded => reloaded.2.1.m_customPathCache) = some [] := by
  refine ⟨by decide!, by decide!, deepPath_length, rfl, ?_⟩
  have hlen : (fs.string sample.deepPath).length = 10052 := deepPath_length
  have hrec : spec.Records (writeRecords [(0, sample.deepPath)]) [] :=
    records_of_long_first 0 sample.deepPath []
      (by rw [hlen]; decide) (by rw [hlen]; decide)
  rw [initCustomPaths_of_records sample.plainEnv {} _ [] _ [] rfl hrec
    (fun r hr => absurd hr (List.not_mem_nil r))]
  rfl

/-- C9, amended. Round trip of the custom-path store for paths whose text is at
most 10000 bytes long: when the text of every registered custom path is that
short, and at reload every registered path is still valid (`validate` returns,
and returns no reason) and is not reported equivalent to one registered before
it, then `initCustomPaths`, given the bytes that `fini` has written and an
engine without custom paths, returns, and the path strings of the engine
afterwards are exactly the path strings that were registered: the same set. When
no custom path is registered, `fini` leaves no file, whether there was one or
not, and the reload yields no custom path and no option. -/
theorem store_round_trip (env : fs.Env) (self fresh : SystemCleaner) (world : World)
    (cleaningItems : List common.CleaningItem)
    (hnarrow : ∀ kv ∈ self.m_customPathCache, fs.isNarrow kv.2 = true)
    (hmax : ∀ kv ∈ self.m_customPathCache, (fs.string kv.2).length ≤ 10000)
    (hvalid : ∀ kv ∈ self.m_customPathCache, utils.path.validate env kv.2 = none)
    (hreturns : ∀ kv ∈ self.m_customPathCache, utils.path.validate.raises env kv.2 = false)
    (hdistinct : (self.m_customPathCache.map (fun kv => kv.2)).Pairwise
      (fun p q => spec.reportsEquivalent env q p = false))
    (hfresh : fresh.m_customPathCache = []) :
    (∃ reloaded,
        initCustomPaths env fresh (fini self world) cleaningItems = some reloaded
        ∧ ∀ p, p ∈ reloaded.2.1.m_customPathCache.map (fun kv => kv.2)
            ↔ p ∈ self.m_customPathCache.map (fun kv => kv.2))
    ∧ (self.m_customPathCache = [] →
        (fini self world).store = none
        ∧ initCustomPaths env fresh (fini self world) cleaningItems
            = some (cleaningItems ++ [{ name := "Custom paths",
                                        itemType := common.ItemType.CUSTOM_PATH }],
                    fresh, fini self world)) := by
  have hempty : self.m_customPathCache = [] →
      (fini self world).store = none
      ∧ initCustomPaths env fresh (fini self world) cleaningItems
          = some (cleaningItems ++ [{ name := "Custom paths",
                                      itemType := common.ItemType.CUSTOM_PATH }],
                  fresh, fini self world) := by
    intro hnil
    have hstore : (fini self world).store = none := by
      unfold fini
      rw [hnil]
      cases hs : world.store <;> simp [hs]
    exact ⟨hstore, by simp [initCustomPaths, hstore]⟩
  refine ⟨?_, hempty⟩
  by_cases hnil : self.m_customPathCache = []
  · obtain ⟨_, hinit⟩ := hempty hnil
    exact ⟨_, hinit, by simp [hfresh, hnil]⟩
  · have hstore : (fini self world).store = some (writeRecords self.m_customPathCache) := by
      unfold fini
      have : self.m_customPathCache.isEmpty = false := by
        cases hc : self.m_customPathCache with
        | nil => exact absurd hc hnil
        | cons _ _ => rfl
      simp [this]
    have hrec := records_writeRecords self.m_customPathCache hnarrow
      (fun kv hkv => ⟨validate_none_length_pos env kv.2 (hvalid kv hkv), hmax kv hkv⟩)
    have hraise : ∀ r ∈ self.m_customPathCache.map (fun kv => kv.2),
        addCustomPath.raises env r = false := by
      intro r hr
      obtain ⟨kv, hkv, rfl⟩ := List.mem_map.mp hr
      exact hreturns kv hkv
    have hfold := foldl_addLoaded env (self.m_customPathCache.map (fun kv => kv.2))
      { self := fresh, world := fini self world, cleanOptions := [] }
      (by simp [hfresh])
      (by
        intro p hp
        obtain ⟨kv, hkv, rfl⟩ := List.mem_map.mp hp
        exact hvalid kv hkv)
      hdistinct
      (by simp [hfresh])
    have hsub := foldl_addLoaded_submit env (self.m_customPathCache.map (fun kv => kv.2))
      { self := fresh, world := fini self world, cleanOptions := [] }
    refine ⟨_, initCustomPaths_of_records env fresh (fini self world) cleaningItems _ _ hstore
      hrec hraise, ?_⟩
    intro p
    simp only [spec.submitAll, ← hsub, hfold.1, hfresh, List.map_nil, List.nil_append]

/-- The theorem `store_round_trip` at an engine with one custom path. -/
theorem store_round_trip_witness :
    ∃ reloaded,
      initCustomPaths sample.plainEnv {} (fini sample.oneCustomPath {}) [] = some reloaded
      ∧ ∀ p, p ∈ reloaded.2.1.m_customPathCache.map (fun kv => kv.2)
          ↔ p ∈ sample.oneCustomPath.m_customPathCache.map (fun kv => kv.2) :=
  (store_round_trip sample.plainEnv sample.oneCustomPath {} {} []
    (by decide) (by decide) (by decide) (by decide) (by decide) rfl).1

/-- C10, at an input on which it fails. The store holds two complete records, of
`C:\locked` and of `C:\a`, and then ends. `fs::equivalent` raises for the folder
`C:\locked`, so `addCustomPath` ends by an exception for the first record, while
it returns, and succeeds, for `C:\a`. `initCustomPaths` ends by that exception:
it does not stop without error, and the second record is never submitted. On a
system where no query raises, the same store gives both paths. -/
theorem initCustomPaths_ends_by_exception :
    spec.Records sample.twoRecords ["C:\\locked", "C:\\a"]
    ∧ addCustomPath.raises sample.lockedFolderEnv "C:\\locked" = true
    ∧ addCustomPath.raises sample.lockedFolderEnv "C:\\a" = false
    ∧ (addCustomPath sample.lockedFolderEnv {} {} "C:\\a").1.isSuccess = true
    ∧ initCustomPaths sample.lockedFolderEnv {} { store := some sample.twoRecords } [] = none
    ∧ (initCustomPaths sample.plainEnv {} { store := some sample.twoRecords } []).map
        (fun loaded => loaded.2.1.m_customPathCache)
        = some [(0, "C:\\locked"), (1, "C:\\a")] :=
  ⟨records_writeRecords [(0, "C:\\locked"), (1, "C:\\a")] (by decide) (by decide),
    by decide, by decide, by decide, by decide, by decide⟩

end core

/-! ## The summary, the recycle bin and the toggles -/

namespace core

/-- C11. `getSummary` returns the current summary of the engine and sets the
lifecycle state to `IDLE`, whatever the state was; it changes no other member,
the summary included. So a second call returns the same summary, and the state
is `IDLE` after either call. -/
theorem getSummary_spec (self : SystemCleaner) :
    (getSummary self).1 = self.m_summary
    ∧ (getSummary self).2 = { self with m_currentState := common.CleanerState.IDLE }
    ∧ (getSummary self).2.m_summary = self.m_summary
    ∧ getCurrentState (getSummary self).2 = common.CleanerState.IDLE
    ∧ (getSummary (getSummary self).2).1 = (getSummary self).1
    ∧ getCurrentState (getSummary (getSummary self).2).2 = common.CleanerState.IDLE :=
  ⟨rfl, rfl, rfl, rfl, rfl, rfl⟩

end core

namespace common

theorem anyEnabled_iff (options : List CleanOption) :
    anyEnabled options = true ↔ ∃ o ∈ options, o.enabled = true := by
  induction options with
  | nil => simp [anyEnabled]
  | cons o rest ih =>
    simp only [anyEnabled, List.mem_cons, exists_eq_or_imp]
    cases ho : o.enabled <;> simp [ih]

/-- C18. For every category, `isNeedClean` returns true iff at least one of its
options is enabled; it returns false for a category without options; and the
equivalence holds for the category that any sequence of toggles (clicks on
single checkboxes, bulk enabling and disabling) makes of it. -/
theorem isNeedClean_iff (item : CleaningItem) :
    (item.isNeedClean = true ↔ ∃ o ∈ item.cleanOptions, o.enabled = true)
    ∧ ({ item with cleanOptions := [] } : CleaningItem).isNeedClean = false
    ∧ (∀ toggles : List gui.Toggle,
        (toggles.foldl gui.Toggle.apply item).isNeedClean = true ↔
          ∃ o ∈ (toggles.foldl gui.Toggle.apply item).cleanOptions, o.enabled = true) :=
  ⟨anyEnabled_iff item.cleanOptions, rfl, fun _ => anyEnabled_iff _⟩

end common

namespace core

/-- C15 as stated fails. When the query of the recycle bin fails, `analysisOptions`
appends the result `(SYSTEM, Recycle bin, 0, 0)` for the enabled recycle-bin
option and `cleanOptions` appends nothing. -/
theorem cleanOptions_skips_silent_bin :
    (analysisOptions {} sample.deafBinWorld sample.systemItem).1.m_summary.results
        = [{ propertyName := "SYSTEM", categoryName := "Recycle bin",
             cleanedFiles := 0, cleanedSize := 0 }]
    ∧ (cleanOptions {} sample.deafBinWorld sample.systemItem).1.m_summary.results = []
    ∧ (cleanOptions {} sample.deafBinWorld sample.systemItem).2.emptyCalls = 0 := by
  decide

/-- C15, amended. For an enabled recycle-bin option: when the query succeeds with
a positive item count, `cleanOptions` leaves the engine exactly as
`analysisOptions` does (the same result is appended, with the owner `SYSTEM`, the
display name and the item count and size of the query) and in addition invokes
the empty operation, once; when the query fails or reports no item,
`cleanOptions` appends nothing and does not invoke the empty operation, whereas
`analysisOptions` appends one result, with the counts of the query, zero when it
failed. -/
theorem cleanOption_recycle_bin (cleaningItem : common.CleaningItem) (self : SystemCleaner)
    (world : World) (option : common.CleanOption)
    (henabled : option.enabled = true) (hbin : option.displayName = RECYCLE_BIN) :
    ((world.recycleBin.queryFails = false ∧ world.recycleBin.numItems > 0) →
        (cleanOption cleaningItem (self, world) option).1
            = (analysisOption cleaningItem (self, world) option).1
        ∧ (cleanOption cleaningItem (self, world) option).2 = SHEmptyRecycleBinA world
        ∧ (cleanOption cleaningItem (self, world) option).2.emptyCalls = world.emptyCalls + 1)
    ∧ (¬ (world.recycleBin.queryFails = false ∧ world.recycleBin.numItems > 0) →
        cleanOption cleaningItem (self, world) option = (self, world))
    ∧ (analysisOption cleaningItem (self, world) option).2 = world
    ∧ (analysisOption cleaningItem (self, world) option).1
        = accumulateResult self common.SYSTEM option.displayName
            (if world.recycleBin.queryFails then {}
             else { countFile := toUInt64 world.recycleBin.numItems,
                    dirSize := toUInt64 world.recycleBin.size }) := by
  have hb : (option.displayName == RECYCLE_BIN) = true := by simp [hbin]
  refine ⟨?_, ?_, ?_, ?_⟩
  · rintro ⟨hq, hn⟩
    simp [cleanOption, analysisOption, henabled, hb, hq, hn, SHEmptyRecycleBinA]
  · intro h
    have hcond : (!world.recycleBin.queryFails && decide (world.recycleBin.numItems > 0))
        = false := by
      cases hq : world.recycleBin.queryFails
      · simp only [hq, true_and] at h
        simp [h]
      · simp
    simp [cleanOption, henabled, hb, hcond]
  · simp [analysisOption, henabled, hb]
  · simp [analysisOption, henabled, hb]

/-- The theorem `cleanOption_recycle_bin` at a bin that cannot be queried. -/
theorem cleanOption_recycle_bin_witness :
    cleanOption sample.systemItem ({}, sample.deafBinWorld) sample.binOption
      = ({}, sample.deafBinWorld) :=
  (cleanOption_recycle_bin sample.systemItem {} sample.deafBinWorld sample.binOption
    rfl rfl).2.1 (by decide)

/-- C16, at the input on which it fails. The recycle bin holds two items of 100
bytes and the empty call fails: `cleanOptions` has appended the result
`(SYSTEM, Recycle bin, 2, 100)` and added 2 files and 100 bytes to the totals
before it makes the call, whose outcome it does not look at; the two items are
still in the bin. -/
theorem cleanOptions_reports_unemptied_bin :
    (cleanOptions {} sample.stuckBinWorld sample.systemItem).1.m_summary
        = { totalFiles := 2, totalSize := 100,
            results := [{ propertyName := "SYSTEM", categoryName := "Recycle bin",
                          cleanedFiles := 2, cleanedSize := 100 }] }
    ∧ (cleanOptions {} sample.stuckBinWorld sample.systemItem).2.recycleBin.numItems = 2
    ∧ (cleanOptions {} sample.stuckBinWorld sample.systemItem).2.emptyCalls = 1 := by
  decide

end core

/-! ## Runs -/

namespace core

theorem index_fst (cache : PathCache) (id : Nat) : (cache.index id).1 = spec.resolve cache id := by
  unfold PathCache.index spec.resolve
  cases cache.lookup id <;> rfl

theorem resolve_index (cache : PathCache) (id other : Nat) :
    spec.resolve (cache.index id).2 other = spec.resolve cache other := by
  unfold PathCache.index spec.resolve
  cases h : cache.lookup id with
  | some path => rfl
  | none =>
    simp only [List.lookup_append]
    cases h2 : cache.lookup other with
    | some q => simp
    | none =>
      by_cases hid : other = id
      · subst hid
        simp [List.lookup_cons]
      · have hb : (other == id) = false := by simpa using hid
        simp [List.lookup_cons, hb]

end core

namespace core

theorem analysisResult_congr (a b : SystemCleaner) (world : World) (item : common.CleaningItem)
    (option : common.CleanOption) (h : spec.SameCaches a b) :
    spec.analysisResult a world item option = spec.analysisResult b world item option := by
  simp only [spec.analysisResult, spec.measured, h.1, h.2]

theorem analysisOption_disabled (item : common.CleaningItem) (state : SystemCleaner × World)
    (option : common.CleanOption) (h : option.enabled = false) :
    analysisOption item state option = state := by
  simp [analysisOption, h]

theorem analysisOption_summary (item : common.CleaningItem) (self : SystemCleaner)
    (world : World) (option : common.CleanOption) (h : option.enabled = true) :
    (analysisOption item (self, world) option).1.m_summary
      = spec.appended self.m_summary (spec.analysisResult self world item option) := by
  by_cases hb : option.displayName = RECYCLE_BIN
  · simp [analysisOption, h, accumulateResult, spec.appended, spec.analysisResult,
      spec.measured, hb]
  · by_cases hc : item.itemType = common.ItemType.CUSTOM_PATH
    · simp [analysisOption, h, accumulateResult, spec.appended, spec.analysisResult,
        spec.measured, hb, hc, index_fst]
    · simp [analysisOption, h, accumulateResult, spec.appended, spec.analysisResult,
        spec.measured, hb, hc, index_fst]

theorem analysisOption_members (item : common.CleaningItem) (self : SystemCleaner)
    (world : World) (option : common.CleanOption) :
    (analysisOption item (self, world) option).1.m_currentState = self.m_currentState
    ∧ (analysisOption item (self, world) option).1.m_cleanedFiles = self.m_cleanedFiles
    ∧ (analysisOption item (self, world) option).1.m_countAnalysTasks = self.m_countAnalysTasks
    ∧ spec.SameCaches (analysisOption item (self, world) option).1 self := by
  unfold analysisOption
  simp only []
  split
  · exact ⟨rfl, rfl, rfl, fun _ => rfl, fun _ => rfl⟩
  · split
    · exact ⟨rfl, rfl, rfl, fun _ => rfl, fun _ => rfl⟩
    · split
      · exact ⟨rfl, rfl, rfl, fun id => resolve_index _ _ id, fun _ => rfl⟩
      · exact ⟨rfl, rfl, rfl, fun _ => rfl, fun id => resolve_index _ _ id⟩

theorem totalsAgree_appended (summary : common.Summary) (r : common.CleanResult)
    (h : spec.TotalsAgree summary) : spec.TotalsAgree (spec.appended summary r) := by
  obtain ⟨hf, hs⟩ := h
  constructor
  · simp only [spec.appended, spec.sumFiles, hf, List.map_append, List.sum_append, List.map_cons,
      List.map_nil, List.sum_cons, List.sum_nil, Nat.add_zero]
    rw [Nat.add_mod, Nat.mod_mod, ← Nat.add_mod]
  · simp only [spec.appended, spec.sumSize, hs, List.map_append, List.sum_append, List.map_cons,
      List.map_nil, List.sum_cons, List.sum_nil, Nat.add_zero]
    rw [Nat.add_mod, Nat.mod_mod, ← Nat.add_mod]

end core

namespace core

theorem pending_append (self0 : SystemCleaner) (world0 : World) (pre post : List Task) :
    spec.pending self0 world0 (pre ++ post)
      = spec.pending self0 world0 pre ++ spec.pending self0 world0 post := by
  simp [spec.pending]

theorem pending_cons (self0 : SystemCleaner) (world0 : World) (t : Task) (post : List Task) :
    spec.pending self0 world0 (t :: post)
      = spec.pendingOf self0 world0 t ++ spec.pending self0 world0 post := by
  simp [spec.pending]

theorem analysisPhase_turn_worker (self0 : SystemCleaner) (world0 : World)
    (expected : List common.CleanResult) (c : Task) (m : Machine) (pre post : List Task)
    (item : common.CleaningItem) (todo : List common.CleanOption) (now : Nat)
    (hc : ∀ item todo, c ≠ Task.analysisOptions item todo)
    (h : spec.AnalysisPhase self0 world0 expected c m)
    (ht : m.tasks = pre ++ Task.analysisOptions item todo :: post) :
    spec.AnalysisPhase self0 world0 expected c
      (Task.turn m pre (Task.analysisOptions item todo) post now) := by
  have hcoord := h.coord
  have hworkers := h.workers
  have hperm := h.perm
  rw [ht] at hcoord hworkers hperm
  cases todo with
  | nil =>
    simp only [Task.turn]
    refine ⟨?_, ?_, h.world, h.state, h.caches, h.totals, ?_⟩
    · simp only [List.mem_append, List.mem_cons] at hcoord ⊢
      rcases hcoord with hp | hp | hp
      · exact Or.inl hp
      · exact absurd hp (hc item [])
      · exact Or.inr hp
    · intro t htm
      apply hworkers t
      simp only [List.mem_append, List.mem_cons] at htm ⊢
      rcases htm with hp | hp
      · exact Or.inl hp
      · exact Or.inr (Or.inr hp)
    · simpa [pending_append, pending_cons, spec.pendingOf, spec.analysisResults] using hperm
  | cons o rest =>
    simp only [Task.turn]
    have hmem := analysisOption_members item m.self m.world o
    have hframe := analysisOption_frame item (m.self, m.world) o
    refine ⟨?_, ?_, ?_, ?_, ?_, ?_, ?_⟩
    · simp only [List.mem_append, List.mem_cons] at hcoord ⊢
      rcases hcoord with hp | hp | hp
      · exact Or.inl hp
      · exact absurd hp (hc item (o :: rest))
      · exact Or.inr (Or.inr hp)
    · intro t htm
      simp only [List.mem_append, List.mem_cons] at htm
      rcases htm with hp | hp | hp
      · exact hworkers t (by simp [hp])
      · exact Or.inr ⟨item, rest, hp⟩
      · exact hworkers t (by simp [hp])
    · show (analysisOption item (m.self, m.world) o).2 = world0
      rw [hframe]
      exact h.world
    · show (analysisOption item (m.self, m.world) o).1.m_currentState = _
      rw [hmem.1]
      exact h.state
    · exact ⟨fun id => (hmem.2.2.2.1 id).trans (h.caches.1 id),
        fun id => (hmem.2.2.2.2 id).trans (h.caches.2 id)⟩
    · show spec.TotalsAgree (analysisOption item (m.self, m.world) o).1.m_summary
      cases ho : o.enabled with
      | false =>
        rw [analysisOption_disabled item _ o ho]
        exact h.totals
      | true =>
        rw [analysisOption_summary item m.self m.world o ho]
        exact totalsAgree_appended _ _ h.totals
    · show ((analysisOption item (m.self, m.world) o).1.m_summary.results
        ++ spec.pending self0 world0 (pre ++ Task.analysisOptions item rest :: post)).Perm expected
      cases ho : o.enabled with
      | false =>
        rw [analysisOption_disabled item _ o ho]
        simpa [pending_append, pending_cons, spec.pendingOf, spec.analysisResults, ho] using hperm
      | true =>
        rw [analysisOption_summary item m.self m.world o ho,
          analysisResult_congr m.self self0 m.world item o h.caches, h.world]
        refine List.Perm.trans ?_ hperm
        simp only [spec.appended, pending_append, pending_cons, spec.pendingOf,
          spec.analysisResults, List.filter_cons, ho, if_true, List.map_cons, List.append_assoc,
          List.singleton_append, List.cons_append]
        apply List.Perm.append_left
        rw [List.nil_append]
        exact (List.perm_middle).symm

end core

namespace core

theorem step_at (m : Machine) (pre post : List Task) (t : Task) (now : Nat)
    (h : m.tasks = pre ++ t :: post) : step m pre.length now = Task.turn m pre t post now := by
  simp [step, h]

theorem step_cases (m : Machine) (pick now : Nat) :
    step m pick now = m
      ∨ ∃ pre t post, m.tasks = pre ++ t :: post ∧ step m pick now = Task.turn m pre t post now := by
  cases hd : m.tasks.drop pick with
  | nil => exact Or.inl (by simp [step, hd])
  | cons t post =>
    refine Or.inr ⟨m.tasks.take pick, t, post, ?_, by simp [step, hd]⟩
    rw [← hd, List.take_append_drop]

theorem step_idle (m : Machine) (pick now : Nat) (h : m.tasks = []) : step m pick now = m := by
  simp [step, h]

theorem submitAnalysisTasks_eq : ∀ (items : List common.CleaningItem) (m : Machine),
    ∃ count, submitAnalysisTasks items m
      = { m with self := { m.self with m_countAnalysTasks := count }
                 tasks := m.tasks ++ spec.analysisWorkers items } := by
  intro items
  induction items with
  | nil => intro m; exact ⟨m.self.m_countAnalysTasks, by simp [submitAnalysisTasks, spec.analysisWorkers]⟩
  | cons item rest ih =>
    intro m
    cases hn : item.isNeedClean with
    | false =>
      obtain ⟨count, h⟩ := ih m
      exact ⟨count, by simp [submitAnalysisTasks, hn, h, spec.analysisWorkers]⟩
    | true =>
      obtain ⟨count, h⟩ := ih { m with
        self := { m.self with m_countAnalysTasks := (m.self.m_countAnalysTasks + 1) % UINT64_MOD }
        tasks := m.tasks ++ [Task.analysisOptions item item.cleanOptions] }
      exact ⟨count, by simp [submitAnalysisTasks, hn, h, spec.analysisWorkers]⟩

theorem submitCleanTasks_eq : ∀ (items : List common.CleaningItem) (m : Machine),
    submitCleanTasks items m = { m with tasks := m.tasks ++ spec.cleanWorkers items } := by
  intro items
  induction items with
  | nil => intro m; simp [submitCleanTasks, spec.cleanWorkers]
  | cons item rest ih =>
    intro m
    cases hn : item.isNeedClean with
    | false => simp [submitCleanTasks, hn, ih, spec.cleanWorkers]
    | true => simp [submitCleanTasks, hn, ih, spec.cleanWorkers]

theorem analysisTargets_eq (m : Machine) (items : List common.CleaningItem) :
    ∃ count, analysisTargets m items
      = { m with self := { resetData m.self with
                           m_currentState := common.CleanerState.ANALYZING
                           m_countAnalysTasks := count }
                 tasks := m.tasks ++ spec.analysisWorkers items } := by
  obtain ⟨count, h⟩ := submitAnalysisTasks_eq items
    { m with self := { resetData m.self with m_currentState := common.CleanerState.ANALYZING } }
  exact ⟨count, by rw [analysisTargets, h]⟩

theorem pending_analysisWorkers (self0 : SystemCleaner) (world0 : World)
    (items : List common.CleaningItem) :
    spec.pending self0 world0 (spec.analysisWorkers items)
      = spec.catalogResults self0 world0 items := by
  simp [spec.pending, spec.analysisWorkers, spec.catalogResults, List.map_map, Function.comp_def,
    spec.pendingOf]

end core

namespace core

theorem totalsAgree_reset (self : SystemCleaner) : spec.TotalsAgree (resetData self).m_summary := by
  simp [spec.TotalsAgree, resetData, spec.sumFiles, spec.sumSize]

theorem sameCaches_refl (self : SystemCleaner) : spec.SameCaches self self :=
  ⟨fun _ => rfl, fun _ => rfl⟩

/-- After the workers of an analysis pass and a coordinator have been submitted
by an idle engine, the analysis phase is under way. -/
theorem analysisPhase_start (m : Machine) (items : List common.CleaningItem) (c : Task)
    (count cleaned : Nat) (hidle : m.tasks = []) (hc : spec.pendingOf m.self m.world c = []) :
    spec.AnalysisPhase m.self m.world (spec.catalogResults m.self m.world items) c
      { m with self := { resetData m.self with
                         m_currentState := common.CleanerState.ANALYZING
                         m_countAnalysTasks := count
                         m_cleanedFiles := cleaned }
               tasks := (m.tasks ++ spec.analysisWorkers items) ++ [c] } := by
  refine ⟨by simp, ?_, rfl, rfl, sameCaches_refl _, totalsAgree_reset _, ?_⟩
  · intro t ht
    simp only [hidle, List.nil_append, List.mem_append, List.mem_singleton] at ht
    rcases ht with ht | ht
    · simp only [spec.analysisWorkers, List.mem_map] at ht
      obtain ⟨item, _, rfl⟩ := ht
      exact Or.inr ⟨item, item.cleanOptions, rfl⟩
    · exact Or.inl ht
  · show (([] : List common.CleanResult)
        ++ spec.pending m.self m.world ((m.tasks ++ spec.analysisWorkers items) ++ [c])).Perm _
    rw [hidle, List.nil_append, List.nil_append, pending_append, pending_analysisWorkers,
      pending_cons, hc]
    simp [spec.pending]

theorem analysis_phase (m : Machine) (items : List common.CleaningItem) (start : Nat)
    (hidle : m.tasks = []) :
    spec.AnalysisPhase m.self m.world (spec.catalogResults m.self m.world items)
      (Task.analysisCoordinator start) (analysis m items start) := by
  obtain ⟨count, h⟩ := analysisTargets_eq m items
  have h2 := analysisPhase_start m items (Task.analysisCoordinator start) count 0 hidle rfl
  simpa [analysis, h, resetData] using h2

theorem clear_phase (m : Machine) (items : List common.CleaningItem) (start : Nat)
    (hidle : m.tasks = []) :
    spec.AnalysisPhase m.self m.world (spec.catalogResults m.self m.world items)
      (Task.clearCoordinator start items none) (clear m items start) := by
  obtain ⟨count, h⟩ := analysisTargets_eq m items
  have h2 := analysisPhase_start m items (Task.clearCoordinator start items none) count 0 hidle rfl
  simpa [clear, h, resetData] using h2

/-- A coordinator that is the only outstanding task of an analysis phase. -/
theorem analysisPhase_alone (self0 : SystemCleaner) (world0 : World)
    (expected : List common.CleanResult) (c : Task) (m : Machine) (pre post : List Task)
    (hc : spec.pendingOf self0 world0 c = [])
    (h : spec.AnalysisPhase self0 world0 expected c m)
    (ht : m.tasks = pre ++ c :: post) (hcount : ¬ countActiveTasks m > 1) :
    pre = [] ∧ post = [] ∧ m.self.m_summary.results.Perm expected := by
  have hlen : (pre ++ c :: post).length ≤ 1 := by
    rw [← ht]
    simpa [countActiveTasks] using hcount
  have hpre : pre = [] := by
    cases pre with
    | nil => rfl
    | cons a l => simp at hlen
  subst hpre
  have hpost : post = [] := by
    cases post with
    | nil => rfl
    | cons a l => simp at hlen
  subst hpost
  refine ⟨rfl, rfl, ?_⟩
  have hp := h.perm
  rw [ht] at hp
  simpa [pending_cons, hc, spec.pending] using hp

theorem analysisPhase_progress (self0 : SystemCleaner) (world0 : World)
    (expected : List common.CleanResult) (c : Task) (m : Machine) (progress : Rat)
    (h : spec.AnalysisPhase self0 world0 expected c m) :
    spec.AnalysisPhase self0 world0 expected c { m with progress := progress } :=
  ⟨h.coord, h.workers, h.world, h.state, h.caches, h.totals, h.perm⟩

/-- One turn of the task manager keeps an analysis run an analysis run, and
changes the state as an analysis run may. -/
theorem analysisRun_step (self0 : SystemCleaner) (world0 : World)
    (expected : List common.CleanResult) (start : Nat) (m : Machine) (pick now : Nat)
    (h : spec.AnalysisRun self0 world0 expected start m) :
    spec.AnalysisRun self0 world0 expected start (step m pick now)
      ∧ spec.analysisMove m.self.m_currentState (step m pick now).self.m_currentState := by
  rcases h with h | h
  · rcases step_cases m pick now with hs | ⟨pre, t, post, ht, hs⟩
    · rw [hs]
      exact ⟨Or.inl h, Or.inl rfl⟩
    · rw [hs]
      rcases h.workers t (by simp [ht]) with hw | ⟨item, todo, hw⟩
      · subst hw
        by_cases hcount : countActiveTasks m > 1
        · simp only [Task.turn, hcount, if_true]
          exact ⟨Or.inl (analysisPhase_progress _ _ _ _ _ _ h), Or.inl rfl⟩
        · obtain ⟨hpre, hpost, hperm⟩ :=
            analysisPhase_alone self0 world0 expected (Task.analysisCoordinator start) m pre post
              rfl h ht hcount
          subst hpre
          subst hpost
          simp only [Task.turn, hcount, if_false]
          refine ⟨Or.inr ⟨rfl, h.world, rfl, rfl, h.totals, hperm, rfl⟩, Or.inr ⟨h.state, rfl⟩⟩
      · subst hw
        have h2 := analysisPhase_turn_worker self0 world0 expected _ m pre post item todo now
          (fun _ _ hne => Task.noConfusion hne) h ht
        exact ⟨Or.inl h2, Or.inl (h.state.trans h2.state.symm)⟩
  · rw [step_idle m pick now h.tasks]
    exact ⟨Or.inr h, Or.inl rfl⟩

theorem analysisRun_run (self0 : SystemCleaner) (world0 : World)
    (expected : List common.CleanResult) (start : Nat) (schedule : List (Nat × Nat)) :
    ∀ m, spec.AnalysisRun self0 world0 expected start m →
      spec.AnalysisRun self0 world0 expected start (run m schedule) := by
  induction schedule with
  | nil => intro m h; exact h
  | cons turn rest ih =>
    intro m h
    exact ih _ (analysisRun_step self0 world0 expected start m turn.1 turn.2 h).1

end core

namespace core

theorem run_append (m : Machine) (s1 s2 : List (Nat × Nat)) :
    run m (s1 ++ s2) = run (run m s1) s2 := by
  simp [run, List.foldl_append]

theorem run_cons (m : Machine) (turn : Nat × Nat) (rest : List (Nat × Nat)) :
    run m (turn :: rest) = run (step m turn.1 turn.2) rest := rfl

theorem run_replicate_succ (m : Machine) (n pick now : Nat) :
    run m (List.replicate (n + 1) (pick, now)) = run (step m pick now) (List.replicate n (pick, now)) :=
  rfl

theorem run_replicate_add (m : Machine) (a b pick now : Nat) :
    run m (List.replicate (a + b) (pick, now))
      = run (run m (List.replicate a (pick, now))) (List.replicate b (pick, now)) := by
  rw [List.replicate_add, run_append]

/-- An analysis worker that is given its turns returns. -/
theorem analysisWorker_returns (now : Nat) (item : common.CleaningItem) :
    ∀ (todo : List common.CleanOption) (m : Machine) (pre post : List Task),
      m.tasks = pre ++ Task.analysisOptions item todo :: post →
      ∃ n, (run m (List.replicate n (pre.length, now))).tasks = pre ++ post := by
  intro todo
  induction todo with
  | nil =>
    intro m pre post h
    refine ⟨1, ?_⟩
    rw [run_replicate_succ, step_at m pre post _ now h]
    rfl
  | cons o rest ih =>
    intro m pre post h
    obtain ⟨n, hn⟩ := ih (step m pre.length now) pre post
      (by rw [step_at m pre post _ now h]; rfl)
    exact ⟨n + 1, by rw [run_replicate_succ]; exact hn⟩

/-- A cleaning worker that is given its turns returns. -/
theorem cleanWorker_returns (now : Nat) (item : common.CleaningItem) :
    ∀ (todo : List common.CleanOption) (m : Machine) (pre post : List Task),
      m.tasks = pre ++ Task.cleanOptions item todo :: post →
      ∃ n, (run m (List.replicate n (pre.length, now))).tasks = pre ++ post := by
  intro todo
  induction todo with
  | nil =>
    intro m pre post h
    refine ⟨1, ?_⟩
    rw [run_replicate_succ, step_at m pre post _ now h]
    rfl
  | cons o rest ih =>
    intro m pre post h
    obtain ⟨n, hn⟩ := ih (step m pre.length now) pre post
      (by rw [step_at m pre post _ now h]; rfl)
    exact ⟨n + 1, by rw [run_replicate_succ]; exact hn⟩

/-- Workers that are given their turns, one after the other, all return. -/
theorem workers_return (now : Nat) :
    ∀ (ws : List Task),
      (∀ t ∈ ws, (∃ item todo, t = Task.analysisOptions item todo)
        ∨ (∃ item todo, t = Task.cleanOptions item todo)) →
      ∀ (m : Machine) (pre post : List Task), m.tasks = pre ++ (ws ++ post) →
      ∃ n, (run m (List.replicate n (pre.length, now))).tasks = pre ++ post := by
  intro ws
  induction ws with
  | nil => intro _ m pre post h; exact ⟨0, by simpa using h⟩
  | cons w rest ih =>
    intro hw m pre post h
    have hrest : ∀ t ∈ rest, (∃ item todo, t = Task.analysisOptions item todo)
        ∨ (∃ item todo, t = Task.cleanOptions item todo) :=
      fun t ht => hw t (List.mem_cons_of_mem _ ht)
    have hfirst : ∃ a, (run m (List.replicate a (pre.length, now))).tasks = pre ++ (rest ++ post) := by
      rcases hw w (List.mem_cons_self _ _) with ⟨item, todo, rfl⟩ | ⟨item, todo, rfl⟩
      · exact analysisWorker_returns now item todo m pre (rest ++ post) (by simpa using h)
      · exact cleanWorker_returns now item todo m pre (rest ++ post) (by simpa using h)
    obtain ⟨a, ha⟩ := hfirst
    obtain ⟨b, hb⟩ := ih hrest _ pre post ha
    exact ⟨a + b, by rw [run_replicate_add]; exact hb⟩

theorem analysisWorkers_workers (items : List common.CleaningItem) :
    ∀ t ∈ spec.analysisWorkers items, (∃ item todo, t = Task.analysisOptions item todo)
      ∨ (∃ item todo, t = Task.cleanOptions item todo) := by
  intro t ht
  simp only [spec.analysisWorkers, List.mem_map] at ht
  obtain ⟨item, _, rfl⟩ := ht
  exact Or.inl ⟨item, item.cleanOptions, rfl⟩

theorem cleanWorkers_workers (items : List common.CleaningItem) :
    ∀ t ∈ spec.cleanWorkers items, (∃ item todo, t = Task.analysisOptions item todo)
      ∨ (∃ item todo, t = Task.cleanOptions item todo) := by
  intro t ht
  simp only [spec.cleanWorkers, List.mem_map] at ht
  obtain ⟨item, _, rfl⟩ := ht
  exact Or.inr ⟨item, item.cleanOptions, rfl⟩

theorem analysis_tasks (m : Machine) (items : List common.CleaningItem) (start : Nat) :
    (analysis m items start).tasks
      = m.tasks ++ spec.analysisWorkers items ++ [Task.analysisCoordinator start] := by
  obtain ⟨count, h⟩ := analysisTargets_eq m items
  simp [analysis, h]

theorem clear_tasks (m : Machine) (items : List common.CleaningItem) (start : Nat) :
    (clear m items start).tasks
      = m.tasks ++ spec.analysisWorkers items ++ [Task.clearCoordinator start items none] := by
  obtain ⟨count, h⟩ := analysisTargets_eq m items
  simp [clear, h]

/-- An analysis run of an idle engine has a schedule that completes it. -/
theorem analysis_completes (m : Machine) (items : List common.CleaningItem) (start now : Nat)
    (hidle : m.tasks = []) :
    ∃ schedule, (run (analysis m items start) schedule).tasks = [] := by
  obtain ⟨n, hn⟩ := workers_return now (spec.analysisWorkers items) (analysisWorkers_workers items)
    (analysis m items start) [] [Task.analysisCoordinator start]
    (by rw [analysis_tasks, hidle]; simp)
  refine ⟨List.replicate n (0, now) ++ [(0, now)], ?_⟩
  rw [run_append, run_cons]
  simp only [List.length_nil, List.nil_append] at hn
  generalize run (analysis m items start) (List.replicate n (0, now)) = m1 at hn
  have hs := step_at m1 [] [] (Task.analysisCoordinator start) now (by simpa using hn)
  simp only [List.length_nil] at hs
  rw [hs]
  simp [run, Task.turn, countActiveTasks, hn]

end core

namespace core

theorem analysisResults_congr (a b : SystemCleaner) (world : World) (item : common.CleaningItem)
    (options : List common.CleanOption) (h : spec.SameCaches a b) :
    spec.analysisResults a world item options = spec.analysisResults b world item options := by
  simp only [spec.analysisResults]
  exact List.map_congr_left (fun o _ => analysisResult_congr a b world item o h)

theorem analysisOptions_fold (item : common.CleaningItem) :
    ∀ (options : List common.CleanOption) (self : SystemCleaner) (world : World),
      (options.foldl (analysisOption item) (self, world)).1.m_summary.results
        = self.m_summary.results ++ spec.analysisResults self world item options := by
  intro options
  induction options with
  | nil => intro self world; simp [spec.analysisResults]
  | cons o rest ih =>
    intro self world
    have hframe := analysisOption_frame item (self, world) o
    have hmem := analysisOption_members item self world o
    have hpair : analysisOption item (self, world) o
        = ((analysisOption item (self, world) o).1, world) := Prod.ext rfl hframe
    rw [List.foldl_cons, hpair, ih,
      analysisResults_congr _ self world item rest hmem.2.2.2]
    cases ho : o.enabled with
    | false =>
      rw [analysisOption_disabled item _ o ho]
      simp [spec.analysisResults, ho]
    | true =>
      rw [analysisOption_summary item self world o ho]
      simp [spec.analysisResults, spec.appended, ho]

/-- What an analysis run does, in terms of the results that the code appends. An
analysis run of an idle engine submits one worker per category that
has at least one enabled option and none for the others, and then its
coordinator. Within a category, `analysisOptions` appends exactly one result per
enabled option, in option order, and nothing for a disabled option; the result
carries the display name of the option, the file count and the byte count
measured for it, and the name of the owning category (for an option displayed as
the recycle bin, the name `SYSTEM`, which is the name of the category that the
engine gives the recycle bin). Every schedule that completes the run leaves the
summary with kind `ANALYSIS`, the state `ANALYSIS_DONE`, totals that are the sums
over the appended results, and as results those of the categories, each category
in option order; the world is as it was. A schedule that completes the run
exists. -/
theorem analysis_run_results (m : Machine) (items : List common.CleaningItem) (start : Nat)
    (hidle : m.tasks = []) :
    (analysis m items start).tasks
        = (items.filter (fun item => item.isNeedClean)).map
            (fun item => Task.analysisOptions item item.cleanOptions)
          ++ [Task.analysisCoordinator start]
    ∧ (∀ (self : SystemCleaner) (world : World) (item : common.CleaningItem),
        (analysisOptions self world item).1.m_summary.results
          = self.m_summary.results
            ++ (item.cleanOptions.filter (fun o => o.enabled)).map
                (spec.analysisResult self world item))
    ∧ (∀ (self : SystemCleaner) (world : World) (item : common.CleaningItem)
        (option : common.CleanOption),
        (spec.analysisResult self world item option).categoryName = option.displayName
        ∧ (spec.analysisResult self world item option).cleanedFiles
            = (spec.measured self world item option).countFile
        ∧ (spec.analysisResult self world item option).cleanedSize
            = (spec.measured self world item option).dirSize
        ∧ (option.displayName ≠ RECYCLE_BIN ∨ item.name = common.SYSTEM →
            (spec.analysisResult self world item option).propertyName = item.name))
    ∧ (∀ schedule, (run (analysis m items start) schedule).tasks = [] →
        (run (analysis m items start) schedule).self.m_summary.type = common.SummaryType.ANALYSIS
        ∧ (run (analysis m items start) schedule).self.m_currentState
            = common.CleanerState.ANALYSIS_DONE
        ∧ (run (analysis m items start) schedule).self.m_summary.totalFiles
            = spec.sumFiles (run (analysis m items start) schedule).self.m_summary.results
        ∧ (run (analysis m items start) schedule).self.m_summary.totalSize
            = spec.sumSize (run (analysis m items start) schedule).self.m_summary.results
        ∧ (run (analysis m items start) schedule).self.m_summary.results.Perm
            (spec.catalogResults m.self m.world items)
        ∧ (run (analysis m items start) schedule).world = m.world)
    ∧ (∃ schedule, (run (analysis m items start) schedule).tasks = []) := by
  refine ⟨?_, ?_, ?_, ?_, analysis_completes m items start start hidle⟩
  · rw [analysis_tasks, hidle]
    rfl
  · intro self world item
    exact analysisOptions_fold item item.cleanOptions self world
  · intro self world item option
    refine ⟨rfl, rfl, rfl, ?_⟩
    intro h
    rcases h with h | h
    · simp [spec.analysisResult, h]
    · simp only [spec.analysisResult]
      split
      · exact h.symm
      · rfl
  · intro schedule hdone
    rcases analysisRun_run m.self m.world _ start schedule _
      (Or.inl (analysis_phase m items start hidle)) with h | h
    · have hc := h.coord
      rw [hdone] at hc
      cases hc
    · exact ⟨h.kind, h.state, h.totals.1, h.totals.2, h.perm, h.world⟩

/-- The theorem `analysis_run_results` in the end-to-end scenario: category
`TEMP` with `Temp files` (3 files, 300 bytes) and `Logs` (no files). -/
theorem analysis_run_results_witness :
    sample.scenario.tasks = []
    ∧ (run (analysis sample.scenario sample.tempCatalog 0)
          [(0, 0), (0, 0), (0, 0), (0, 5)]).self.m_summary
        = { type := common.SummaryType.ANALYSIS, totalTime := 5, totalFiles := 3, totalSize := 300,
            results := [ { propertyName := "TEMP", categoryName := "Temp files",
                           cleanedFiles := 3, cleanedSize := 300 },
                         { propertyName := "TEMP", categoryName := "Logs",
                           cleanedFiles := 0, cleanedSize := 0 } ] }
    ∧ (run (analysis sample.scenario sample.tempCatalog 0)
          [(0, 0), (0, 0), (0, 0), (0, 5)]).self.m_currentState
        = common.CleanerState.ANALYSIS_DONE :=
  ⟨rfl, by decide,
    ((analysis_run_results sample.scenario sample.tempCatalog 0 rfl).2.2.2.1
      [(0, 0), (0, 0), (0, 0), (0, 5)] (by decide)).2.1⟩

end core

namespace core

theorem without_sum (f : fs.Entry → Nat) (disk gone : List fs.Entry) (hsub : gone.Sublist disk)
    (hnd : (disk.map (fun x => x.loc)).Nodup) :
    ((spec.without disk gone).map f).sum + (gone.map f).sum = (disk.map f).sum := by
  induction hsub with
  | slnil => simp [spec.without]
  | @cons l₁ l₂ a h ih =>
    rw [List.map_cons, List.nodup_cons] at hnd
    have ha : (l₁.map (fun e => e.loc)).contains a.loc = false := by
      rw [List.contains_eq_any_beq, List.any_eq_false]
      intro x hx hc
      apply hnd.1
      rw [List.mem_map] at hx ⊢
      obtain ⟨e, he, rfl⟩ := hx
      exact ⟨e, h.subset he, by simpa using (beq_iff_eq.mp hc).symm⟩
    have ih2 := ih hnd.2
    simp only [spec.without, List.filter_cons, ha, Bool.not_false, if_true, List.map_cons,
      List.sum_cons] at ih2 ⊢
    omega
  | @cons₂ l₁ l₂ a h ih =>
    rw [List.map_cons, List.nodup_cons] at hnd
    have ih2 := ih hnd.2
    have hfilter : l₂.filter
          (fun x => !(x.loc == a.loc || (l₁.map (fun e => e.loc)).contains x.loc))
        = l₂.filter (fun x => !(l₁.map (fun e => e.loc)).contains x.loc) := by
      apply List.filter_congr
      intro x hx
      have hne : x.loc ≠ a.loc := by
        intro heq
        exact hnd.1 (List.mem_map.mpr ⟨x, hx, heq⟩)
      simp [hne]
    simp only [spec.without] at ih2 ⊢
    rw [List.filter_cons]
    simp only [List.map_cons, List.contains_cons, beq_self_eq_true, Bool.true_or, Bool.not_true,
      Bool.false_eq_true, if_false, List.sum_cons]
    rw [hfilter]
    omega

theorem handled_sublist (disk : fs.Disk) (loc : List String) :
    (spec.handled disk loc).Sublist disk := by
  unfold spec.handled
  split
  · exact (List.takeWhile_sublist _).trans
      ((List.filter_sublist _).trans (List.filter_sublist _))
  · split
    · cases hat : fs.entryAt disk loc with
      | none => simp [spec.reached]
      | some x =>
        exact (List.takeWhile_sublist _).trans
          (List.singleton_sublist.mpr (List.mem_of_find?_eq_some hat))
    · exact List.nil_sublist _

end core

namespace core

theorem accumulateResult_summary (self : SystemCleaner) (itemName category : String)
    (dirInfo : DirInfo) :
    (accumulateResult self itemName category dirInfo).m_summary
      = spec.appended self.m_summary
          { propertyName := itemName, categoryName := category,
            cleanedFiles := dirInfo.countFile, cleanedSize := dirInfo.dirSize } := rfl

theorem pathFiles_append (results : List common.CleanResult) (r : common.CleanResult) :
    spec.pathFiles (results ++ [r])
      = spec.pathFiles results + (if r.categoryName = RECYCLE_BIN then 0 else r.cleanedFiles) := by
  by_cases h : r.categoryName = RECYCLE_BIN <;>
    simp [spec.pathFiles, List.filter_append, List.filter_cons, h]

theorem pathSize_append (results : List common.CleanResult) (r : common.CleanResult) :
    spec.pathSize (results ++ [r])
      = spec.pathSize results + (if r.categoryName = RECYCLE_BIN then 0 else r.cleanedSize) := by
  by_cases h : r.categoryName = RECYCLE_BIN <;>
    simp [spec.pathSize, List.filter_append, List.filter_cons, h]

theorem binRows_append (results : List common.CleanResult) (r : common.CleanResult) :
    (spec.binRows (results ++ [r])).length
      = (spec.binRows results).length + (if r.categoryName = RECYCLE_BIN then 1 else 0) := by
  by_cases h : r.categoryName = RECYCLE_BIN <;>
    simp [spec.binRows, List.filter_append, List.filter_cons, h]

theorem mod_account (total gone left before start : Nat) (hsum : left + gone = before)
    (h : (total + before) % UINT64_MOD = start % UINT64_MOD) :
    (total + gone % UINT64_MOD + left) % UINT64_MOD = start % UINT64_MOD := by
  rw [← h, ← hsum]
  have h1 : (gone % UINT64_MOD) ≡ gone [MOD UINT64_MOD] := Nat.mod_modEq gone UINT64_MOD
  have h2 := (h1.add_left total).add_right left
  have h3 : total + gone + left = total + (left + gone) := by omega
  rw [h3] at h2
  exact h2

/-- Cleaning a path keeps the account of what has left the disk. -/
theorem cleaned_path (world0 : World) (self cached : SystemCleaner) (world : World)
    (path : fs.Path) (itemName category : String) (hsum : cached.m_summary = self.m_summary)
    (hcat : category ≠ RECYCLE_BIN) (h : spec.Cleaned world0 self world) :
    spec.Cleaned world0
      (accumulateResult cached itemName category (processPath world.disk path true).1)
      { world with disk := (processPath world.disk path true).2 } := by
  intro hnd0
  obtain ⟨hsub, hfiles, hsize, hcalls⟩ := h hnd0
  have hnd : (world.disk.map (fun x => x.loc)).Nodup := (hsub.map _).nodup hnd0
  have hgone : (spec.counted true (spec.handled world.disk (fs.elements path))).Sublist world.disk :=
    (List.filter_sublist _).trans (handled_sublist _ _)
  have hlen := without_sum (fun _ => 1) world.disk _ hgone hnd
  have hsz := without_sum (fun e => e.size) world.disk _ hgone hnd
  simp only [List.map_const', List.sum_replicate, smul_eq_mul, Nat.mul_one] at hlen
  rw [accumulateResult_summary, hsum, processPath_eq world.disk path true hnd]
  simp only [if_true, spec.appended, pathFiles_append, pathSize_append, binRows_append, hcat,
    if_false, spec.tally, Nat.add_zero]
  refine ⟨(List.filter_sublist _).trans hsub, ?_, ?_, hcalls⟩
  · exact mod_account _ _ _ _ _ hlen hfiles
  · exact mod_account _ _ _ _ _ hsz hsize

/-- Emptying the recycle bin keeps the account of what has left the disk. -/
theorem cleaned_bin (world0 : World) (self : SystemCleaner) (world : World)
    (itemName : String) (dirInfo : DirInfo) (h : spec.Cleaned world0 self world) :
    spec.Cleaned world0 (accumulateResult self itemName RECYCLE_BIN dirInfo)
      (SHEmptyRecycleBinA world) := by
  intro hnd0
  obtain ⟨hsub, hfiles, hsize, hcalls⟩ := h hnd0
  rw [accumulateResult_summary]
  simp only [spec.appended, pathFiles_append, pathSize_append, binRows_append, if_true,
    Nat.add_zero, SHEmptyRecycleBinA]
  exact ⟨hsub, hfiles, hsize, by omega⟩

/-- One turn of the loop of `cleanOptions` keeps the account of what has left the
disk and the agreement of the totals, and leaves the state and the counter
`m_cleanedFiles` alone. -/
theorem cleanOption_keeps (world0 : World) (item : common.CleaningItem) (self : SystemCleaner)
    (world : World) (o : common.CleanOption) (h : spec.Cleaned world0 self world)
    (ht : spec.TotalsAgree self.m_summary) :
    spec.Cleaned world0 (cleanOption item (self, world) o).1 (cleanOption item (self, world) o).2
    ∧ spec.TotalsAgree (cleanOption item (self, world) o).1.m_summary
    ∧ (cleanOption item (self, world) o).1.m_currentState = self.m_currentState
    ∧ (cleanOption item (self, world) o).1.m_cleanedFiles = self.m_cleanedFiles := by
  unfold cleanOption
  simp only []
  split
  · exact ⟨h, ht, rfl, rfl⟩
  · split
    · rename_i hb
      have hname : o.displayName = RECYCLE_BIN := by simpa using hb
      split
      · refine ⟨?_, ?_, rfl, rfl⟩
        · rw [hname]
          exact cleaned_bin world0 self world _ _ h
        · rw [accumulateResult_summary]
          exact totalsAgree_appended _ _ ht
      · exact ⟨h, ht, rfl, rfl⟩
    · rename_i hb
      have hname : o.displayName ≠ RECYCLE_BIN := by simpa using hb
      split
      · refine ⟨cleaned_path world0 self _ world _ _ _ rfl hname h, ?_, rfl, rfl⟩
        rw [accumulateResult_summary]
        exact totalsAgree_appended _ _ ht
      · refine ⟨cleaned_path world0 self _ world _ _ _ rfl hname h, ?_, rfl, rfl⟩
        rw [accumulateResult_summary]
        exact totalsAgree_appended _ _ ht

end core

namespace core

theorem alone (m : Machine) (pre post : List Task) (t : Task) (ht : m.tasks = pre ++ t :: post)
    (hcount : ¬ countActiveTasks m > 1) : pre = [] ∧ post = [] := by
  have hlen : (pre ++ t :: post).length ≤ 1 := by
    rw [← ht]
    simpa [countActiveTasks] using hcount
  cases pre with
  | nil =>
    cases post with
    | nil => exact ⟨rfl, rfl⟩
    | cons a l => simp at hlen
  | cons a l => simp at hlen

theorem clearTargets_eq (m : Machine) (items : List common.CleaningItem) :
    clearTargets m items
      = { m with self := { resetData m.self with m_currentState := common.CleanerState.CLEANING }
                 tasks := m.tasks ++ spec.cleanWorkers items } := by
  rw [clearTargets, submitCleanTasks_eq]

theorem cleaned_reset (self : SystemCleaner) (world : World) (state : common.CleanerState) :
    spec.Cleaned world { resetData self with m_currentState := state } world := by
  intro _
  exact ⟨List.Sublist.refl _, by simp [spec.pathFiles, resetData],
    by simp [spec.pathSize, resetData], by simp [spec.binRows, resetData]⟩

theorem sumFiles_perm (a b : List common.CleanResult) (h : a.Perm b) :
    spec.sumFiles a = spec.sumFiles b := by
  simp only [spec.sumFiles]
  rw [(h.map _).sum_eq]

theorem cleaningPhase_progress (world0 : World) (c : Task) (m : Machine) (progress : Rat)
    (h : spec.CleaningPhase world0 c m) :
    spec.CleaningPhase world0 c { m with progress := progress } :=
  ⟨h.coord, h.workers, h.state, h.counter, h.totals, h.cleaned⟩

theorem cleaningPhase_turn_worker (world0 : World) (c : Task) (m : Machine)
    (pre post : List Task) (item : common.CleaningItem) (todo : List common.CleanOption)
    (now : Nat) (hc : ∀ item todo, c ≠ Task.cleanOptions item todo)
    (h : spec.CleaningPhase world0 c m)
    (ht : m.tasks = pre ++ Task.cleanOptions item todo :: post) :
    spec.CleaningPhase world0 c (Task.turn m pre (Task.cleanOptions item todo) post now) := by
  have hcoord := h.coord
  have hworkers := h.workers
  rw [ht] at hcoord hworkers
  cases todo with
  | nil =>
    simp only [Task.turn]
    refine ⟨?_, ?_, h.state, h.counter, h.totals, h.cleaned⟩
    · simp only [List.mem_append, List.mem_cons] at hcoord ⊢
      rcases hcoord with hp | hp | hp
      · exact Or.inl hp
      · exact absurd hp (hc item [])
      · exact Or.inr hp
    · intro t htm
      apply hworkers t
      simp only [List.mem_append, List.mem_cons] at htm ⊢
      rcases htm with hp | hp
      · exact Or.inl hp
      · exact Or.inr (Or.inr hp)
  | cons o rest =>
    simp only [Task.turn]
    obtain ⟨hcl, htot, hstate, hcounter⟩ :=
      cleanOption_keeps world0 item m.self m.world o h.cleaned h.totals
    refine ⟨?_, ?_, hstate.trans h.state, hcounter.trans h.counter, htot, hcl⟩
    · simp only [List.mem_append, List.mem_cons] at hcoord ⊢
      rcases hcoord with hp | hp | hp
      · exact Or.inl hp
      · exact absurd hp (hc item (o :: rest))
      · exact Or.inr (Or.inr hp)
    · intro t htm
      simp only [List.mem_append, List.mem_cons] at htm
      rcases htm with hp | hp | hp
      · exact hworkers t (by simp [hp])
      · exact Or.inr ⟨item, rest, hp⟩
      · exact hworkers t (by simp [hp])

/-- One turn of the task manager keeps a clear run a clear run, and changes the
state as a clear run may. -/
theorem clearRun_step (self0 : SystemCleaner) (world0 : World)
    (expected : List common.CleanResult) (start : Nat) (items : List common.CleaningItem)
    (m : Machine) (pick now : Nat) (h : spec.ClearRun self0 world0 expected start items m) :
    spec.ClearRun self0 world0 expected start items (step m pick now)
      ∧ spec.clearMove (spec.sumFiles expected) m.self.m_currentState
          (step m pick now).self.m_currentState := by
  rcases h with h | ⟨hnz, totalFiles, h⟩ | h
  · rcases step_cases m pick now with hs | ⟨pre, t, post, ht, hs⟩
    · rw [hs]
      exact ⟨Or.inl h, Or.inl rfl⟩
    · rw [hs]
      rcases h.workers t (by simp [ht]) with hw | ⟨item, todo, hw⟩
      · subst hw
        by_cases hcount : countActiveTasks m > 1
        · simp only [Task.turn, hcount, if_true]
          exact ⟨Or.inl (analysisPhase_progress _ _ _ _ _ _ h), Or.inl rfl⟩
        · obtain ⟨hpre, hpost, hperm⟩ :=
            analysisPhase_alone self0 world0 expected (Task.clearCoordinator start items none)
              m pre post rfl h ht hcount
          subst hpre
          subst hpost
          have hbase : m.self.m_summary.totalFiles = spec.sumFiles expected :=
            h.totals.1.trans (sumFiles_perm _ _ hperm)
          by_cases hz : m.self.m_summary.totalFiles = 0
          · have hz2 : (m.self.m_summary.totalFiles != 0) = false := by simp [hz]
            simp only [Task.turn, hcount, if_false, hz2, Bool.false_eq_true]
            refine ⟨Or.inr (Or.inr ⟨rfl, rfl, rfl, h.totals,
              Or.inr ⟨hbase ▸ hz, h.world, hperm⟩⟩), ?_⟩
            exact Or.inr (Or.inr (Or.inr ⟨hbase ▸ hz, h.state, rfl⟩))
          · have hz2 : (m.self.m_summary.totalFiles != 0) = true := by simp [hz]
            have hnz : spec.sumFiles expected ≠ 0 := hbase ▸ hz
            simp only [Task.turn, hcount, if_false, hz2, if_true]
            rw [clearTargets_eq]
            refine ⟨Or.inr (Or.inl ⟨hnz, m.self.m_summary.totalFiles,
              ⟨by simp, ?_, rfl, rfl, totalsAgree_reset _, ?_⟩⟩), ?_⟩
            · intro t ht2
              simp only [List.nil_append, List.cons_append, List.mem_cons] at ht2
              rcases ht2 with ht2 | ht2
              · exact Or.inl ht2
              · simp only [spec.cleanWorkers, List.mem_map] at ht2
                obtain ⟨item, _, rfl⟩ := ht2
                exact Or.inr ⟨item, item.cleanOptions, rfl⟩
            · have hcl := cleaned_reset m.self m.world common.CleanerState.CLEANING
              rw [h.world] at hcl
              exact h.world ▸ hcl
            · exact Or.inr (Or.inl ⟨hnz, h.state, rfl⟩)
      · subst hw
        have h2 := analysisPhase_turn_worker self0 world0 expected _ m pre post item todo now
          (fun _ _ hne => Task.noConfusion hne) h ht
        exact ⟨Or.inl h2, Or.inl (h.state.trans h2.state.symm)⟩
  · rcases step_cases m pick now with hs | ⟨pre, t, post, ht, hs⟩
    · rw [hs]
      exact ⟨Or.inr (Or.inl ⟨hnz, totalFiles, h⟩), Or.inl rfl⟩
    · rw [hs]
      rcases h.workers t (by simp [ht]) with hw | ⟨item, todo, hw⟩
      · subst hw
        by_cases hcount : countActiveTasks m > 1
        · simp only [Task.turn, hcount, if_true]
          exact ⟨Or.inr (Or.inl ⟨hnz, totalFiles, cleaningPhase_progress _ _ _ _ h⟩), Or.inl rfl⟩
        · obtain ⟨hpre, hpost⟩ := alone m pre post _ ht hcount
          subst hpre
          subst hpost
          simp only [Task.turn, hcount, if_false]
          refine ⟨Or.inr (Or.inr ⟨rfl, rfl, rfl, h.totals, Or.inl ⟨hnz, h.cleaned, rfl⟩⟩), ?_⟩
          exact Or.inr (Or.inr (Or.inl ⟨hnz, h.state, rfl⟩))
      · subst hw
        have h2 := cleaningPhase_turn_worker world0 _ m pre post item todo now
          (fun _ _ hne => Task.noConfusion hne) h ht
        exact ⟨Or.inr (Or.inl ⟨hnz, totalFiles, h2⟩), Or.inl (h.state.trans h2.state.symm)⟩
  · rw [step_idle m pick now h.tasks]
    exact ⟨Or.inr (Or.inr h), Or.inl rfl⟩

theorem clearRun_run (self0 : SystemCleaner) (world0 : World)
    (expected : List common.CleanResult) (start : Nat) (items : List common.CleaningItem)
    (schedule : List (Nat × Nat)) :
    ∀ m, spec.ClearRun self0 world0 expected start items m →
      spec.ClearRun self0 world0 expected start items (run m schedule) := by
  induction schedule with
  | nil => intro m h; exact h
  | cons turn rest ih =>
    intro m h
    exact ih _ (clearRun_step self0 world0 expected start items m turn.1 turn.2 h).1

end core

namespace core

/-- The coordinator of `clear`, alone after the analysis pass, finishes the run
when the baseline is zero and submits the cleaning workers otherwise. -/
theorem clearCoordinator_turn (m : Machine) (start now : Nat) (items : List common.CleaningItem)
    (h : m.tasks = [Task.clearCoordinator start items none]) :
    (step m 0 now).tasks = []
      ∨ ∃ totalFiles, (step m 0 now).tasks
          = [Task.clearCoordinator start items (some totalFiles)] ++ (spec.cleanWorkers items ++ []) := by
  have hs := step_at m [] [] (Task.clearCoordinator start items none) now (by simpa using h)
  simp only [List.length_nil] at hs
  rw [hs]
  by_cases hz : m.self.m_summary.totalFiles = 0
  · exact Or.inl (by simp [Task.turn, countActiveTasks, h, hz])
  · refine Or.inr ⟨m.self.m_summary.totalFiles, ?_⟩
    simp [Task.turn, countActiveTasks, h, hz, clearTargets_eq]

/-- The coordinator of `clear`, alone after the cleaning pass, finishes the
run. -/
theorem clearCoordinator_last (m : Machine) (start now totalFiles : Nat)
    (items : List common.CleaningItem)
    (h : m.tasks = [Task.clearCoordinator start items (some totalFiles)]) :
    (step m 0 now).tasks = [] := by
  have hs := step_at m [] [] (Task.clearCoordinator start items (some totalFiles)) now
    (by simpa using h)
  simp only [List.length_nil] at hs
  rw [hs]
  simp [Task.turn, countActiveTasks, h]

/-- A clear run of an idle engine has a schedule that completes it. -/
theorem clear_completes (m : Machine) (items : List common.CleaningItem) (start now : Nat)
    (hidle : m.tasks = []) :
    ∃ schedule, (run (clear m items start) schedule).tasks = [] := by
  obtain ⟨n, hn⟩ := workers_return now (spec.analysisWorkers items) (analysisWorkers_workers items)
    (clear m items start) [] [Task.clearCoordinator start items none]
    (by rw [clear_tasks, hidle]; simp)
  simp only [List.length_nil, List.nil_append] at hn
  rcases clearCoordinator_turn _ start now items hn with hdone | ⟨totalFiles, hgo⟩
  · exact ⟨List.replicate n (0, now) ++ [(0, now)], by rw [run_append, run_cons]; exact hdone⟩
  · obtain ⟨k, hk⟩ := workers_return now (spec.cleanWorkers items) (cleanWorkers_workers items)
      _ [Task.clearCoordinator start items (some totalFiles)] [] hgo
    refine ⟨List.replicate n (0, now) ++ ((0, now) :: (List.replicate k (1, now) ++ [(0, now)])),
      ?_⟩
    rw [run_append, run_cons, run_append, run_cons]
    exact clearCoordinator_last _ start now totalFiles items hk

end core

namespace core

theorem sublist_sum_le (f : fs.Entry → Nat) (a b : List fs.Entry) (h : a.Sublist b) :
    (a.map f).sum ≤ (b.map f).sum := by
  induction h with
  | slnil => simp
  | cons x _ ih => simp only [List.map_cons, List.sum_cons]; omega
  | cons₂ x _ ih => simp only [List.map_cons, List.sum_cons]; omega

theorem mod_gone (total left start : Nat) (hle : left ≤ start)
    (h : (total + left) % UINT64_MOD = start % UINT64_MOD) :
    total % UINT64_MOD = (start - left) % UINT64_MOD := by
  have h1 : total + left ≡ (start - left) + left [MOD UINT64_MOD] := by
    rw [Nat.sub_add_cancel hle]
    exact h
  exact Nat.ModEq.add_right_cancel' left h1

/-- C13, at an input on which it fails. On a disk where the directories of the
two options hold no files the baseline is zero: the clear run ends without a
cleaning pass, and its summary, of kind `CLEANING`, holds the two results that
the baseline analysis appended. -/
theorem clear_keeps_baseline_results :
    (run (clear sample.emptyScenario sample.tempCatalog 0)
        [(0, 0), (0, 0), (0, 0), (0, 5)]).tasks = []
    ∧ (run (clear sample.emptyScenario sample.tempCatalog 0)
        [(0, 0), (0, 0), (0, 0)]).self.m_summary.results
        = [ { propertyName := "TEMP", categoryName := "Temp files",
              cleanedFiles := 0, cleanedSize := 0 },
            { propertyName := "TEMP", categoryName := "Logs",
              cleanedFiles := 0, cleanedSize := 0 } ]
    ∧ (run (clear sample.emptyScenario sample.tempCatalog 0)
        [(0, 0), (0, 0), (0, 0), (0, 5)]).self.m_summary
        = { type := common.SummaryType.CLEANING, totalTime := 5, totalFiles := 0, totalSize := 0,
            results := [ { propertyName := "TEMP", categoryName := "Temp files",
                           cleanedFiles := 0, cleanedSize := 0 },
                         { propertyName := "TEMP", categoryName := "Logs",
                           cleanedFiles := 0, cleanedSize := 0 } ] } := by
  decide

/-- C13, amended. Every clear run of an idle engine, on a disk without two
entries at one location, has a schedule that completes it, and every schedule
that completes it leaves the summary with kind `CLEANING`, the state
`CLEANING_DONE` and totals that are the sums over the results. When the baseline
total file count is not zero, the results are those of the cleaning pass alone:
nothing is new on the disk, the results of the options that are paths count
exactly the files that have left the disk and their sizes, as `uint64_t`, and
there is one result of the recycle bin for each call of the empty operation.
When the baseline total file count is zero, no cleaning pass runs: the world is
as it was, the summary keeps the results of the baseline analysis, and its total
file count is zero. -/
theorem clear_run_totals (m : Machine) (items : List common.CleaningItem) (start : Nat)
    (hidle : m.tasks = []) (hnd : (m.world.disk.map (fun e => e.loc)).Nodup) :
    (∀ schedule, (run (clear m items start) schedule).tasks = [] →
        (run (clear m items start) schedule).self.m_summary.type = common.SummaryType.CLEANING
        ∧ (run (clear m items start) schedule).self.m_currentState
            = common.CleanerState.CLEANING_DONE
        ∧ (run (clear m items start) schedule).self.m_summary.totalFiles
            = spec.sumFiles (run (clear m items start) schedule).self.m_summary.results
        ∧ (run (clear m items start) schedule).self.m_summary.totalSize
            = spec.sumSize (run (clear m items start) schedule).self.m_summary.results
        ∧ (spec.sumFiles (spec.catalogResults m.self m.world items) ≠ 0 →
            (run (clear m items start) schedule).world.disk.Sublist m.world.disk
            ∧ spec.pathFiles (run (clear m items start) schedule).self.m_summary.results
                  % UINT64_MOD
                = (m.world.disk.length
                    - (run (clear m items start) schedule).world.disk.length) % UINT64_MOD
            ∧ spec.pathSize (run (clear m items start) schedule).self.m_summary.results
                  % UINT64_MOD
                = (spec.diskSize m.world.disk
                    - spec.diskSize (run (clear m items start) schedule).world.disk)
                  % UINT64_MOD
            ∧ (spec.binRows (run (clear m items start) schedule).self.m_summary.results).length
                  + m.world.emptyCalls
                = (run (clear m items start) schedule).world.emptyCalls)
        ∧ (spec.sumFiles (spec.catalogResults m.self m.world items) = 0 →
            (run (clear m items start) schedule).world = m.world
            ∧ (run (clear m items start) schedule).self.m_summary.results.Perm
                (spec.catalogResults m.self m.world items)
            ∧ (run (clear m items start) schedule).self.m_summary.totalFiles = 0))
    ∧ (∃ schedule, (run (clear m items start) schedule).tasks = []) := by
  refine ⟨?_, clear_completes m items start start hidle⟩
  intro schedule hdone
  rcases clearRun_run m.self m.world _ start items schedule _
    (Or.inl (clear_phase m items start hidle)) with h | ⟨_, _, h⟩ | h
  · have hc := h.coord
    rw [hdone] at hc
    cases hc
  · have hc := h.coord
    rw [hdone] at hc
    cases hc
  · refine ⟨h.kind, h.state, h.totals.1, h.totals.2, ?_, ?_⟩
    · intro hnz
      rcases h.outcome with ⟨_, hcl, _⟩ | ⟨hz, _, _⟩
      · obtain ⟨hsub, hfiles, hsize, hcalls⟩ := hcl hnd
        exact ⟨hsub, mod_gone _ _ _ hsub.length_le hfiles,
          mod_gone _ _ _ (sublist_sum_le _ _ _ hsub) hsize, hcalls⟩
      · exact absurd hz hnz
    · intro hz
      rcases h.outcome with ⟨hnz, _, _⟩ | ⟨_, hw, hperm⟩
      · exact absurd hz hnz
      · exact ⟨hw, hperm, h.totals.1.trans ((sumFiles_perm _ _ hperm).trans hz)⟩

/-- The theorem `clear_run_totals` in the end-to-end scenario: the clear run
deletes the 3 files of `C:\A` and reports 3 files and 300 bytes. -/
theorem clear_run_totals_witness :
    sample.scenario.tasks = []
    ∧ (sample.scenario.world.disk.map (fun e => e.loc)).Nodup
    ∧ (run (clear sample.scenario sample.tempCatalog 0)
          [(0, 0), (0, 0), (0, 0), (0, 5), (1, 0), (1, 0), (1, 0), (0, 9)]).self.m_summary
        = { type := common.SummaryType.CLEANING, totalTime := 9, totalFiles := 3, totalSize := 300,
            results := [ { propertyName := "TEMP", categoryName := "Temp files",
                           cleanedFiles := 3, cleanedSize := 300 },
                         { propertyName := "TEMP", categoryName := "Logs",
                           cleanedFiles := 0, cleanedSize := 0 } ] }
    ∧ (run (clear sample.scenario sample.tempCatalog 0)
          [(0, 0), (0, 0), (0, 0), (0, 5), (1, 0), (1, 0), (1, 0), (0, 9)]).world.disk
        = [ { loc := ["C:", "A"], type := fs.FileType.directory },
            { loc := ["C:", "B"], type := fs.FileType.directory } ]
    ∧ (run (clear sample.scenario sample.tempCatalog 0)
          [(0, 0), (0, 0), (0, 0), (0, 5), (1, 0), (1, 0), (1, 0), (0, 9)]).self.m_currentState
        = common.CleanerState.CLEANING_DONE :=
  ⟨rfl, by decide, by decide, by decide,
    ((clear_run_totals sample.scenario sample.tempCatalog 0 rfl (by decide)).1
      [(0, 0), (0, 0), (0, 0), (0, 5), (1, 0), (1, 0), (1, 0), (0, 9)] (by decide)).2.1⟩

end core

/-! ## The lifecycle state -/

namespace core

/-- C14, at an input on which it fails. In the clear run of the end-to-end
scenario the engine, idle before, is `ANALYZING` once `clear` has returned and
as long as the baseline analysis works; the next value written to the state, by
the coordinator in `clearTargets`, is `CLEANING`. -/
theorem clear_moves_from_analyzing_to_cleaning :
    sample.scenario.self.m_currentState = common.CleanerState.IDLE
    ∧ (clear sample.scenario sample.tempCatalog 0).self.m_currentState
        = common.CleanerState.ANALYZING
    ∧ (run (clear sample.scenario sample.tempCatalog 0)
        [(0, 0), (0, 0), (0, 0)]).self.m_currentState = common.CleanerState.ANALYZING
    ∧ (step (run (clear sample.scenario sample.tempCatalog 0) [(0, 0), (0, 0), (0, 0)])
        0 5).self.m_currentState = common.CleanerState.CLEANING := by
  decide

/-- C14, amended. In every run of an idle engine the values written to the state
follow only `ANALYZING`, `ANALYSIS_DONE` for `analysis`, and for `clear` only
`ANALYZING`, `CLEANING`, `CLEANING_DONE` when the baseline is not zero and
`ANALYZING`, `CLEANING_DONE` when it is zero: the call sets `ANALYZING`, every
turn of a task leaves the state alone or makes the next of these changes, and a
run that is complete is in the last of these states. `getSummary` sets `IDLE`. -/
theorem state_sequences (m : Machine) (items : List common.CleaningItem) (start : Nat)
    (hidle : m.tasks = []) :
    (analysis m items start).self.m_currentState = common.CleanerState.ANALYZING
    ∧ (∀ schedule pick now,
        spec.analysisMove (run (analysis m items start) schedule).self.m_currentState
          (step (run (analysis m items start) schedule) pick now).self.m_currentState)
    ∧ (∀ schedule, (run (analysis m items start) schedule).tasks = [] →
        (run (analysis m items start) schedule).self.m_currentState
          = common.CleanerState.ANALYSIS_DONE)
    ∧ (clear m items start).self.m_currentState = common.CleanerState.ANALYZING
    ∧ (∀ schedule pick now,
        spec.clearMove (spec.sumFiles (spec.catalogResults m.self m.world items))
          (run (clear m items start) schedule).self.m_currentState
          (step (run (clear m items start) schedule) pick now).self.m_currentState)
    ∧ (∀ schedule, (run (clear m items start) schedule).tasks = [] →
        (run (clear m items start) schedule).self.m_currentState
          = common.CleanerState.CLEANING_DONE)
    ∧ (∀ self : SystemCleaner, (getSummary self).2.m_currentState = common.CleanerState.IDLE) := by
  have ha := analysis_phase m items start hidle
  have hc := clear_phase m items start hidle
  refine ⟨ha.state, ?_, ?_, hc.state, ?_, ?_, fun _ => rfl⟩
  · intro schedule pick now
    exact (analysisRun_step m.self m.world _ start _ pick now
      (analysisRun_run m.self m.world _ start schedule _ (Or.inl ha))).2
  · intro schedule hdone
    rcases analysisRun_run m.self m.world _ start schedule _ (Or.inl ha) with h | h
    · have hmem := h.coord
      rw [hdone] at hmem
      cases hmem
    · exact h.state
  · intro schedule pick now
    exact (clearRun_step m.self m.world _ start items _ pick now
      (clearRun_run m.self m.world _ start items schedule _ (Or.inl hc))).2
  · intro schedule hdone
    rcases clearRun_run m.self m.world _ start items schedule _ (Or.inl hc)
      with h | ⟨_, _, h⟩ | h
    · have hmem := h.coord
      rw [hdone] at hmem
      cases hmem
    · have hmem := h.coord
      rw [hdone] at hmem
      cases hmem
    · exact h.state

/-- The theorem `state_sequences` in the end-to-end scenario, at the turn in
which the coordinator of `clear` leaves the baseline analysis. -/
theorem state_sequences_witness :
    sample.scenario.tasks = []
    ∧ spec.clearMove
        (spec.sumFiles
          (spec.catalogResults sample.scenario.self sample.scenario.world sample.tempCatalog))
        (run (clear sample.scenario sample.tempCatalog 0)
          [(0, 0), (0, 0), (0, 0)]).self.m_currentState
        (step (run (clear sample.scenario sample.tempCatalog 0) [(0, 0), (0, 0), (0, 0)])
          0 5).self.m_currentState :=
  ⟨rfl, (state_sequences sample.scenario sample.tempCatalog 0 rfl).2.2.2.2.1
    [(0, 0), (0, 0), (0, 0)] 0 5⟩

end core

/-! ## The progress and the summary mutex -/

namespace core

/-- C17, at an input on which it fails. In the end-to-end scenario one worker is
submitted, so `m_countAnalysTasks` is 1 and, with the coordinator, two tasks are
outstanding; a coordinator that gets its turn before the worker has returned
stores the progress 2 / 1, in an analysis run and in a clear run alike. -/
theorem progress_exceeds_one :
    countActiveTasks (analysis sample.scenario sample.tempCatalog 0) = 2
    ∧ (analysis sample.scenario sample.tempCatalog 0).self.m_countAnalysTasks = 1
    ∧ getCurrentProgress (run (analysis sample.scenario sample.tempCatalog 0) [(1, 0)]) = 2
    ∧ getCurrentProgress (run (clear sample.scenario sample.tempCatalog 0) [(1, 0)]) = 2 := by
  decide!

/-- C20, at an input on which it fails. With one file in each of the two
folders the baseline is 2. In the cleaning pass, after the worker has deleted
the file of the first folder and while it is still outstanding, the coordinator
gets its turn: it stores the progress 0, not 1 / 2; the counter
`m_cleanedFiles`, which nothing increments, is 0. -/
theorem cleaning_progress_stays_zero :
    (run (clear sample.twoFolders sample.tempCatalog 0)
        [(1, 0), (0, 0), (0, 0), (0, 0)]).self.m_summary.totalFiles = 2
    ∧ (run (clear sample.twoFolders sample.tempCatalog 0)
        [(1, 0), (0, 0), (0, 0), (0, 0), (0, 5), (1, 5)]).self.m_currentState
        = common.CleanerState.CLEANING
    ∧ (run (clear sample.twoFolders sample.tempCatalog 0)
        [(1, 0), (0, 0), (0, 0), (0, 0), (0, 5), (1, 5)]).world.disk.map (fun e => e.loc)
        = [["C:", "A"], ["C:", "B"], ["C:", "B", "b.tmp"]]
    ∧ (run (clear sample.twoFolders sample.tempCatalog 0)
        [(1, 0), (0, 0), (0, 0), (0, 0), (0, 5), (1, 5)]).self.m_summary.totalFiles = 1
    ∧ countActiveTasks (run (clear sample.twoFolders sample.tempCatalog 0)
        [(1, 0), (0, 0), (0, 0), (0, 0), (0, 5), (1, 5)]) = 2
    ∧ getCurrentProgress (run (clear sample.twoFolders sample.tempCatalog 0)
        [(1, 0), (0, 0), (0, 0), (0, 0), (0, 5), (1, 5)]) = 2
    ∧ getCurrentProgress (run (clear sample.twoFolders sample.tempCatalog 0)
        [(1, 0), (0, 0), (0, 0), (0, 0), (0, 5), (1, 5), (0, 6)]) = 0
    ∧ (run (clear sample.twoFolders sample.tempCatalog 0)
        [(1, 0), (0, 0), (0, 0), (0, 0), (0, 5), (1, 5), (0, 6)]).self.m_cleanedFiles = 0 := by
  decide!

/-- C19, at an input on which it fails. `accumulateResult`, `resetData` and
`getSummary` touch the summary only while they hold the summary mutex. In the
runs of the end-to-end scenario the coordinator of `analysis` writes the kind
and the elapsed time of the summary without holding it, and the coordinator of
`clear` reads the total file count and writes the kind and the elapsed time
without holding it. -/
theorem coordinators_bypass_summary_mutex :
    spec.unguarded accumulateResult.accesses = []
    ∧ spec.unguarded resetData.accesses = []
    ∧ spec.unguarded getSummary.accesses = []
    ∧ spec.unguarded (run.accesses (analysis sample.scenario sample.tempCatalog 0)
        [(0, 0), (0, 0), (0, 0), (0, 5)])
        = [Access.write SummaryField.type, Access.write SummaryField.totalTime]
    ∧ spec.unguarded (run.accesses (clear sample.scenario sample.tempCatalog 0)
        [(0, 0), (0, 0), (0, 0), (0, 5), (1, 0), (1, 0), (1, 0), (0, 9)])
        = [ Access.read SummaryField.totalFiles,
            Access.write SummaryField.type, Access.write SummaryField.totalTime ] := by
  decide

end core

/-! ## The totals and the results -/

namespace core

theorem analysisOption_totals (item : common.CleaningItem) (self : SystemCleaner) (world : World)
    (o : common.CleanOption) (h : spec.TotalsAgree self.m_summary) :
    spec.TotalsAgree (analysisOption item (self, world) o).1.m_summary := by
  cases ho : o.enabled with
  | false =>
    rw [analysisOption_disabled item _ o ho]
    exact h
  | true =>
    rw [analysisOption_summary item self world o ho]
    exact totalsAgree_appended _ _ h

theorem cleanOption_totals (item : common.CleaningItem) (self : SystemCleaner) (world : World)
    (o : common.CleanOption) (h : spec.TotalsAgree self.m_summary) :
    spec.TotalsAgree (cleanOption item (self, world) o).1.m_summary := by
  unfold cleanOption
  simp only []
  split
  · exact h
  · split
    · split
      · rw [accumulateResult_summary]
        exact totalsAgree_appended _ _ h
      · exact h
    · split
      · rw [accumulateResult_summary]
        exact totalsAgree_appended _ _ h
      · rw [accumulateResult_summary]
        exact totalsAgree_appended _ _ h

theorem turn_totals (m : Machine) (pre post : List Task) (task : Task) (now : Nat)
    (h : spec.TotalsAgree m.self.m_summary) :
    spec.TotalsAgree (Task.turn m pre task post now).self.m_summary := by
  cases task with
  | analysisOptions item todo =>
    cases todo with
    | nil => exact h
    | cons o rest => exact analysisOption_totals item m.self m.world o h
  | cleanOptions item todo =>
    cases todo with
    | nil => exact h
    | cons o rest => exact cleanOption_totals item m.self m.world o h
  | analysisCoordinator start =>
    simp only [Task.turn]
    split
    · exact h
    · exact h
  | clearCoordinator start items baseline =>
    cases baseline with
    | none =>
      simp only [Task.turn]
      split
      · exact h
      · split
        · rw [clearTargets_eq]
          exact totalsAgree_reset _
        · exact h
    | some totalFiles =>
      simp only [Task.turn]
      split
      · exact h
      · exact h

theorem accumulated_append (self : SystemCleaner) (calls : List (String × String × DirInfo))
    (call : String × String × DirInfo) :
    spec.accumulated self (calls ++ [call])
      = accumulateResult (spec.accumulated self calls) call.1 call.2.1 call.2.2 := by
  simp [spec.accumulated, List.foldl_append]

theorem accumulated_summary (self : SystemCleaner) (calls : List (String × String × DirInfo)) :
    spec.TotalsAgree (spec.accumulated self calls).m_summary
    ∧ (spec.accumulated self calls).m_summary.results = calls.map spec.resultOf := by
  induction calls using List.reverseRecOn with
  | nil => exact ⟨totalsAgree_reset self, rfl⟩
  | append_singleton calls call ih =>
    rw [accumulated_append, accumulateResult_summary]
    refine ⟨totalsAgree_appended _ _ ih.1, ?_⟩
    simp [spec.appended, ih.2, spec.resultOf]

/-- C21. The totals and the results of the summary always agree. `resetData`
leaves no result and totals of zero; after any sequence of calls of
`accumulateResult` that follows, `totalFiles` is the sum of `cleanedFiles` over
the results and `totalSize` the sum of `cleanedSize` over the results, modulo
2^64, and the results are those of the calls, in their order. A call of
`accumulateResult` appends exactly one result and leaves the earlier results as
they are. The agreement is kept by every turn of every task of a run, so it
holds however the turns of the workers and the coordinator interleave. -/
theorem totals_agree_with_results (self : SystemCleaner) :
    (resetData self).m_summary.results = []
    ∧ (resetData self).m_summary.totalFiles = 0
    ∧ (resetData self).m_summary.totalSize = 0
    ∧ (∀ calls : List (String × String × DirInfo),
        (spec.accumulated self calls).m_summary.totalFiles
            = ((spec.accumulated self calls).m_summary.results.map
                (fun r => r.cleanedFiles)).sum % 2 ^ 64
        ∧ (spec.accumulated self calls).m_summary.totalSize
            = ((spec.accumulated self calls).m_summary.results.map
                (fun r => r.cleanedSize)).sum % 2 ^ 64
        ∧ (spec.accumulated self calls).m_summary.results = calls.map spec.resultOf)
    ∧ (∀ (itemName category : String) (dirInfo : DirInfo),
        (accumulateResult self itemName category dirInfo).m_summary.results
          = self.m_summary.results
            ++ [{ propertyName := itemName, categoryName := category,
                  cleanedFiles := dirInfo.countFile, cleanedSize := dirInfo.dirSize }])
    ∧ (∀ (m : Machine) (pre post : List Task) (task : Task) (now : Nat),
        spec.TotalsAgree m.self.m_summary →
        spec.TotalsAgree (Task.turn m pre task post now).self.m_summary) := by
  refine ⟨rfl, rfl, rfl, ?_, fun _ _ _ => rfl, turn_totals⟩
  intro calls
  obtain ⟨h, hr⟩ := accumulated_summary self calls
  exact ⟨h.1, h.2, hr⟩

/-- The theorem `totals_agree_with_results` at the first turn of the worker in
the analysis run of the end-to-end scenario. -/
theorem totals_agree_with_results_witness :
    spec.TotalsAgree (analysis sample.scenario sample.tempCatalog 0).self.m_summary
    ∧ spec.TotalsAgree
        (Task.turn (analysis sample.scenario sample.tempCatalog 0) []
          (Task.analysisOptions { name := "TEMP", itemType := common.ItemType.TEMP }
            [{ displayName := "Temp files", id := 1 }])
          [Task.analysisCoordinator 0] 0).self.m_summary :=
  ⟨⟨by decide, by decide⟩,
    (totals_agree_with_results {}).2.2.2.2.2 (analysis sample.scenario sample.tempCatalog 0) []
      [Task.analysisCoordinator 0]
      (Task.analysisOptions { name := "TEMP", itemType := common.ItemType.TEMP }
        [{ displayName := "Temp files", id := 1 }])
      0 ⟨by decide, by decide⟩⟩

end core

/-! ## The custom category -/

namespace core

/-- C22, at an input on which it fails. The user adds the folder
`D:\Recycle bin`, which holds one file of 10 bytes: `addCustomPath` succeeds and
the option it returns has the display name `Recycle bin`, the file name of the
path, and the id 0, under which the path is registered. For this enabled option
of the custom category `analysisOptions` queries the recycle bin (2 items, 100
bytes) and appends its counts under the owner `SYSTEM`, not the tally of the
folder; `cleanOptions` empties the recycle bin and leaves the folder as it
is. -/
theorem custom_folder_named_recycle_bin :
    sample.binNamedAdded.1
        = { errorMessage := "",
            option := { enabled := true, displayName := "Recycle bin", id := 0 } }
    ∧ sample.binNamedAdded.2.1.m_customPathCache = [(0, "D:\\Recycle bin")]
    ∧ sample.binNamedItem.itemType = common.ItemType.CUSTOM_PATH
    ∧ (processPath sample.binNamedWorld.disk "D:\\Recycle bin" false).1
        = { countFile := 1, dirSize := 10 }
    ∧ (analysisOptions sample.binNamedAdded.2.1 sample.binNamedAdded.2.2
          sample.binNamedItem).1.m_summary.results
        = [{ propertyName := "SYSTEM", categoryName := "Recycle bin",
             cleanedFiles := 2, cleanedSize := 100 }]
    ∧ (cleanOptions sample.binNamedAdded.2.1 sample.binNamedAdded.2.2
          sample.binNamedItem).1.m_summary.results
        = [{ propertyName := "SYSTEM", categoryName := "Recycle bin",
             cleanedFiles := 2, cleanedSize := 100 }]
    ∧ (cleanOptions sample.binNamedAdded.2.1 sample.binNamedAdded.2.2
          sample.binNamedItem).2.emptyCalls = 1
    ∧ (cleanOptions sample.binNamedAdded.2.1 sample.binNamedAdded.2.2
          sample.binNamedItem).2.recycleBin.numItems = 0
    ∧ (cleanOptions sample.binNamedAdded.2.1 sample.binNamedAdded.2.2
          sample.binNamedItem).2.disk = sample.binNamedWorld.disk := by
  decide

end core

namespace gui

/-- C23, at an input on which it fails. The user adds the folder
`C:\Users\me\Downloads`, whose option gets the id 0 and is enabled, and presses
the Delete key: the option leaves the custom category, but the path stays in the
custom path index of the engine, `getFullPath` still resolves the id 0, and
`fini` writes the path to the store. Had the user pressed the Remove button
instead, the path would have left the index, `getFullPath` would resolve nothing
and `fini` would write no store. -/
theorem delete_key_leaves_path_registered :
    spec.customIds sample.panelWithDownloads.1 = [0]
    ∧ spec.indexIds sample.panelWithDownloads.1.m_systemCleaner = [0]
    ∧ sample.panelWithDownloads.1.customOptions
        = [{ enabled := true, displayName := "Downloads", id := 0 }]
    ∧ spec.customIds (deleteKey sample.panelWithDownloads.1) = []
    ∧ spec.indexIds (deleteKey sample.panelWithDownloads.1).m_systemCleaner = [0]
    ∧ core.getFullPath (deleteKey sample.panelWithDownloads.1).m_systemCleaner 0
        = some "C:\\Users\\me\\Downloads"
    ∧ (core.fini (deleteKey sample.panelWithDownloads.1).m_systemCleaner
          sample.panelWithDownloads.2).store
        = some (core.writeRecord "C:\\Users\\me\\Downloads")
    ∧ spec.customIds (removeButton sample.panelWithDownloads.1 true) = []
    ∧ spec.indexIds (removeButton sample.panelWithDownloads.1 true).m_systemCleaner = []
    ∧ core.getFullPath (removeButton sample.panelWithDownloads.1 true).m_systemCleaner 0 = none
    ∧ (core.fini (removeButton sample.panelWithDownloads.1 true).m_systemCleaner
          sample.panelWithDownloads.2).store = none := by
  decide

end gui

/-! ## Claims that fail with the walk and with the recycle bin -/

namespace core

/-- C1, at an input on which it fails. `C:\Temp` holds `K = 3` regular files, none
of which fails to delete (`M = 0`); the size of `a.tmp`, the first file the walk
meets, cannot be queried. The reference fold over all regular files beneath the
directory counts 3 files and 157 bytes, and over the two files whose size can be
queried 2 files and 57 bytes. `processPath` with deletion reports no file and no
byte, and has deleted nothing: the three files are still on the disk. -/
theorem processPath_reports_nothing_after_size_error :
    (spec.allFiles sample.unreadableDisk (fs.elements "C:\\Temp")).map (fun e => e.loc)
        = [["C:", "Temp", "a.tmp"], ["C:", "Temp", "b.tmp"], ["C:", "Temp", "sub", "c.tmp"]]
    ∧ (spec.allFiles sample.unreadableDisk (fs.elements "C:\\Temp")).filter (fun e => e.locked)
        = []
    ∧ spec.reference sample.unreadableDisk "C:\\Temp" true = { countFile := 3, dirSize := 157 }
    ∧ spec.tally (spec.counted true
          ((spec.allFiles sample.unreadableDisk (fs.elements "C:\\Temp")).filter
            (fun e => !e.sizeRaises)))
        = { countFile := 2, dirSize := 57 }
    ∧ (processPath sample.unreadableDisk "C:\\Temp" true).1 = { countFile := 0, dirSize := 0 }
    ∧ (processPath sample.unreadableDisk "C:\\Temp" true).2 = sample.unreadableDisk := by
  decide

/-- C12, at an input on which it fails. The custom category holds one enabled
option, for the folder `D:\Recycle bin` with one file of 10 bytes; the option is
displayed as `Recycle bin`. The analysis run submits one worker for the category
and its coordinator. The specification has the run append the result
`(Custom paths, Recycle bin, 1, 10)`: the owning category and the tally of the
folder. The run appends `(SYSTEM, Recycle bin, 2, 100)`, the counts of the recycle
bin under the owner `SYSTEM`, and ends with the totals 2 and 100. -/
theorem analysis_reports_recycle_bin_for_custom_folder :
    sample.binNamedMachine.tasks = []
    ∧ (analysis sample.binNamedMachine [sample.binNamedItem] 0).tasks
        = [ Task.analysisOptions sample.binNamedItem sample.binNamedItem.cleanOptions,
            Task.analysisCoordinator 0 ]
    ∧ sample.binNamedItem.cleanOptions
        = [{ enabled := true, displayName := "Recycle bin", id := 0 }]
    ∧ spec.claimedResult sample.binNamedMachine.self sample.binNamedMachine.world
          sample.binNamedItem { enabled := true, displayName := "Recycle bin", id := 0 }
        = { propertyName := "Custom paths", categoryName := "Recycle bin",
            cleanedFiles := 1, cleanedSize := 10 }
    ∧ (run (analysis sample.binNamedMachine [sample.binNamedItem] 0)
          [(0, 0), (0, 0), (0, 3)]).tasks = []
    ∧ (run (analysis sample.binNamedMachine [sample.binNamedItem] 0)
          [(0, 0), (0, 0), (0, 3)]).self.m_summary
        = { type := common.SummaryType.ANALYSIS, totalTime := 3, totalFiles := 2, totalSize := 100,
            results := [{ propertyName := "SYSTEM", categoryName := "Recycle bin",
                          cleanedFiles := 2, cleanedSize := 100 }] }
    ∧ (run (analysis sample.binNamedMachine [sample.binNamedItem] 0)
          [(0, 0), (0, 0), (0, 3)]).self.m_currentState = common.CleanerState.ANALYSIS_DONE := by
  decide

end core

/-! ## Who touches the summary, and when -/

namespace core

theorem unguarded_accumulateResult : spec.unguarded accumulateResult.accesses = [] := by decide

theorem unguarded_nil : spec.unguarded [] = [] := rfl

theorem unguardedFrom_increments (member : AtomicMember) :
    ∀ (n : Nat) (held : Bool) (rest : List Access),
      spec.unguardedFrom held
          ((List.replicate n [Access.load member, Access.store member]).flatten ++ rest)
        = spec.unguardedFrom held rest := by
  intro n
  induction n with
  | zero => intro held rest; rfl
  | succ n ih =>
    intro held rest
    simp only [List.replicate_succ, List.flatten_cons, List.cons_append, List.nil_append,
      List.append_assoc, spec.unguardedFrom]
    exact ih held rest

theorem unguarded_analysisTargets (needed : Nat) (rest : List Access) :
    spec.unguarded (analysisTargets.accesses needed ++ rest) = spec.unguarded rest := by
  simp only [analysisTargets.accesses, resetData.accesses, spec.unguarded, List.cons_append,
    List.nil_append, List.append_assoc, spec.unguardedFrom, Bool.true_eq_false, if_true]
  exact unguardedFrom_increments _ needed false rest

theorem unguarded_worker_turn (m : Machine) (item : common.CleaningItem)
    (todo : List common.CleanOption) :
    spec.unguarded (Task.accesses m (Task.analysisOptions item todo)) = []
    ∧ spec.unguarded (Task.accesses m (Task.cleanOptions item todo)) = [] := by
  cases todo with
  | nil => exact ⟨rfl, rfl⟩
  | cons o rest =>
    constructor
    · simp only [Task.accesses]
      split
      · exact unguarded_accumulateResult
      · rfl
    · simp only [Task.accesses]
      split
      · rfl
      · split
        · split
          · exact unguarded_accumulateResult
          · rfl
        · exact unguarded_accumulateResult

/-- A turn in which the summary is touched without the mutex is a turn of a
coordinator that finds no other task outstanding. -/
theorem unguarded_turn (m : Machine) (task : Task)
    (h : spec.unguarded (Task.accesses m task) ≠ []) :
    countActiveTasks m ≤ 1
    ∧ (∀ a ∈ spec.unguarded (Task.accesses m task),
        a = Access.read SummaryField.totalFiles ∨ a = Access.write SummaryField.type
          ∨ a = Access.write SummaryField.totalTime)
    ∧ (∃ before, Task.accesses m task = before ++ [Access.store AtomicMember.m_currentState])
    ∧ ((∃ start, task = Task.analysisCoordinator start)
        ∨ ∃ start items baseline, task = Task.clearCoordinator start items baseline) := by
  cases task with
  | analysisOptions item todo => exact absurd (unguarded_worker_turn m item todo).1 h
  | cleanOptions item todo => exact absurd (unguarded_worker_turn m item todo).2 h
  | analysisCoordinator start =>
    by_cases hcount : countActiveTasks m > 1
    · simp [Task.accesses, hcount, spec.unguarded, spec.unguardedFrom] at h
    · refine ⟨by omega, ?_, ?_, Or.inl ⟨start, rfl⟩⟩
      · intro a ha
        simp [Task.accesses, hcount, spec.unguarded, spec.unguardedFrom] at ha
        rcases ha with ha | ha
        · exact Or.inr (Or.inl ha)
        · exact Or.inr (Or.inr ha)
      · exact ⟨[Access.store AtomicMember.m_progress, Access.write SummaryField.type,
          Access.write SummaryField.totalTime], by simp [Task.accesses, hcount]⟩
  | clearCoordinator start items baseline =>
    by_cases hcount : countActiveTasks m > 1
    · cases baseline <;> simp [Task.accesses, hcount, spec.unguarded, spec.unguardedFrom] at h
    · refine ⟨by omega, ?_, ?_, Or.inr ⟨start, items, baseline, rfl⟩⟩
      · intro a ha
        cases baseline with
        | none =>
          by_cases hz : m.self.m_summary.totalFiles = 0
          · simp [Task.accesses, hcount, hz, spec.unguarded, spec.unguardedFrom] at ha
            rcases ha with ha | ha | ha
            · exact Or.inl ha
            · exact Or.inr (Or.inl ha)
            · exact Or.inr (Or.inr ha)
          · simp [Task.accesses, hcount, hz, spec.unguarded, spec.unguardedFrom,
              resetData.accesses] at ha
            exact Or.inl ha
        | some totalFiles =>
          simp [Task.accesses, hcount, spec.unguarded, spec.unguardedFrom] at ha
          rcases ha with ha | ha
          · exact Or.inr (Or.inl ha)
          · exact Or.inr (Or.inr ha)
      · cases baseline with
        | none =>
          by_cases hz : m.self.m_summary.totalFiles = 0
          · exact ⟨[Access.read SummaryField.totalFiles, Access.write SummaryField.type,
              Access.write SummaryField.totalTime], by simp [Task.accesses, hcount, hz]⟩
          · exact ⟨Access.read SummaryField.totalFiles :: resetData.accesses,
              by simp [Task.accesses, hcount, hz]⟩
        | some totalFiles =>
          exact ⟨[Access.store AtomicMember.m_progress, Access.write SummaryField.type,
            Access.write SummaryField.totalTime], by simp [Task.accesses, hcount]⟩

/-- A step in which the summary is touched without the mutex gives the turn to
the only outstanding task. -/
theorem unguarded_step (m : Machine) (pick : Nat)
    (h : spec.unguarded (step.accesses m pick) ≠ []) :
    ∃ task, m.tasks = [task] ∧ spec.unguarded (Task.accesses m task) ≠ [] := by
  unfold step.accesses at h
  cases hd : m.tasks.drop pick with
  | nil => simp [hd, spec.unguarded, spec.unguardedFrom] at h
  | cons task post =>
    simp only [hd] at h
    have hcount := (unguarded_turn m task h).1
    have hlen : m.tasks.length ≤ 1 := hcount
    have hsplit : m.tasks = m.tasks.take pick ++ task :: post := by
      rw [← hd, List.take_append_drop]
    have hl : (m.tasks.take pick ++ task :: post).length ≤ 1 := by rw [← hsplit]; exact hlen
    have hpre : m.tasks.take pick = [] := by
      cases hp : m.tasks.take pick with
      | nil => rfl
      | cons a l => rw [hp] at hl; simp at hl
    have hpost : post = [] := by
      cases post with
      | nil => rfl
      | cons a l => rw [hpre] at hl; simp at hl
    rw [hpre, hpost] at hsplit
    exact ⟨task, by simpa using hsplit, h⟩

end core

namespace core

theorem increments_touch_nothing (member : AtomicMember) (n : Nat) :
    (List.replicate n [Access.load member, Access.store member]).flatten.filter
      spec.touchesSummary = [] := by
  induction n with
  | zero => rfl
  | succ n ih =>
    simp only [List.replicate_succ, List.flatten_cons, List.filter_append, ih, List.append_nil]
    rfl

theorem analysisTargets_touches (needed : Nat) :
    (analysisTargets.accesses needed).filter spec.touchesSummary
      = [ Access.write SummaryField.results, Access.write SummaryField.totalFiles,
          Access.write SummaryField.totalSize ] := by
  simp only [analysisTargets.accesses, List.filter_append, increments_touch_nothing,
    List.append_nil]
  rfl

/-- What the UI thread does to the summary when it starts a run: the writes of
`resetData`. -/
theorem drawMain_starts_run (shown : Bool) (needed : Nat) :
    (gui.drawMain.accesses common.CleanerState.IDLE shown gui.Click.analysis needed).filter
        spec.touchesSummary
      = [ Access.write SummaryField.results, Access.write SummaryField.totalFiles,
          Access.write SummaryField.totalSize ]
    ∧ (gui.drawMain.accesses common.CleanerState.IDLE shown gui.Click.clear needed).filter
        spec.touchesSummary
      = [ Access.write SummaryField.results, Access.write SummaryField.totalFiles,
          Access.write SummaryField.totalSize ] := by
  have h := analysisTargets_touches needed
  constructor <;> cases shown <;>
    simp [gui.drawMain.accesses, List.filter_append, h, spec.touchesSummary, List.filter_cons]

/-- The UI thread touches the summary only while it holds the summary mutex. -/
theorem unguarded_drawMain (state : common.CleanerState) (shown : Bool) (click : gui.Click)
    (needed : Nat) : spec.unguarded (gui.drawMain.accesses state shown click needed) = [] := by
  have h0 : spec.unguarded (analysisTargets.accesses needed) = [] := by
    have h := unguarded_analysisTargets needed []
    rwa [List.append_nil] at h
  have h1 : spec.unguarded
      (analysisTargets.accesses needed ++ [Access.store AtomicMember.m_cleanedFiles]) = [] :=
    unguarded_analysisTargets needed _
  cases state <;> cases shown <;> cases click <;> first | rfl | exact h0 | exact h1

/-- C19, amended. In every interleaving of the turns of the worker tasks and the
coordinator with the calls of the UI thread:

* a worker task touches the summary only while it holds the summary mutex (it
  does so for every enabled option it analyses, in `accumulateResult`), and so
  does the UI thread, in whatever state it finds the engine;
* the UI thread reads the summary when it finds one of the two `DONE` states and
  resets it when it starts a run, which it does in the state `IDLE` only; it does
  not touch the summary at all when it finds the state `ANALYZING` or
  `CLEANING`;
* a task touches the summary without the mutex only in a turn of a coordinator
  that finds no other task outstanding; what it then does without the mutex is
  to read the total file count and to write the kind and the elapsed time, and
  the store of the state is the last access of that turn;
* in an analysis run of an idle engine such a turn is taken while the coordinator
  is the only outstanding task and the state is `ANALYZING`, in a clear run while
  the coordinator is the only outstanding task and the state is `ANALYZING` or
  `CLEANING`.

The progress, the state and the two counters are accessed as atomic members
only. -/
theorem summary_access_discipline (m : Machine) (items : List common.CleaningItem) (start : Nat)
    (hidle : m.tasks = []) :
    (∀ (m : Machine) (item : common.CleaningItem) (todo : List common.CleanOption),
        spec.unguarded (Task.accesses m (Task.analysisOptions item todo)) = []
        ∧ spec.unguarded (Task.accesses m (Task.cleanOptions item todo)) = [])
    ∧ (∀ (m : Machine) (item : common.CleaningItem) (option : common.CleanOption)
        (rest : List common.CleanOption), option.enabled = true →
        (Task.accesses m (Task.analysisOptions item (option :: rest))).filter spec.touchesSummary
          = [ Access.read SummaryField.totalFiles, Access.write SummaryField.totalFiles,
              Access.read SummaryField.totalSize, Access.write SummaryField.totalSize,
              Access.read SummaryField.results, Access.write SummaryField.results ])
    ∧ (∀ (state : common.CleanerState) (shown : Bool) (click : gui.Click) (needed : Nat),
        spec.unguarded (gui.drawMain.accesses state shown click needed) = [])
    ∧ (∀ (shown : Bool) (click : gui.Click) (needed : Nat),
        (gui.drawMain.accesses common.CleanerState.ANALYSIS_DONE shown click needed).filter
            spec.touchesSummary
          = [ Access.read SummaryField.type, Access.read SummaryField.totalTime,
              Access.read SummaryField.totalFiles, Access.read SummaryField.totalSize,
              Access.read SummaryField.results ]
        ∧ (gui.drawMain.accesses common.CleanerState.CLEANING_DONE shown click needed).filter
            spec.touchesSummary
          = [ Access.read SummaryField.type, Access.read SummaryField.totalTime,
              Access.read SummaryField.totalFiles, Access.read SummaryField.totalSize,
              Access.read SummaryField.results ])
    ∧ (∀ (shown : Bool) (needed : Nat),
        (gui.drawMain.accesses common.CleanerState.IDLE shown gui.Click.analysis needed).filter
            spec.touchesSummary
          = [ Access.write SummaryField.results, Access.write SummaryField.totalFiles,
              Access.write SummaryField.totalSize ]
        ∧ (gui.drawMain.accesses common.CleanerState.IDLE shown gui.Click.clear needed).filter
            spec.touchesSummary
          = [ Access.write SummaryField.results, Access.write SummaryField.totalFiles,
              Access.write SummaryField.totalSize ])
    ∧ (∀ (shown : Bool) (click : gui.Click) (needed : Nat),
        (gui.drawMain.accesses common.CleanerState.ANALYZING shown click needed).filter
            spec.touchesSummary = []
        ∧ (gui.drawMain.accesses common.CleanerState.CLEANING shown click needed).filter
            spec.touchesSummary = [])
    ∧ (∀ (m : Machine) (task : Task), spec.unguarded (Task.accesses m task) ≠ [] →
        countActiveTasks m ≤ 1
        ∧ (∀ a ∈ spec.unguarded (Task.accesses m task),
            a = Access.read SummaryField.totalFiles ∨ a = Access.write SummaryField.type
              ∨ a = Access.write SummaryField.totalTime)
        ∧ (∃ before,
            Task.accesses m task = before ++ [Access.store AtomicMember.m_currentState])
        ∧ ((∃ start, task = Task.analysisCoordinator start)
            ∨ ∃ start items baseline, task = Task.clearCoordinator start items baseline))
    ∧ (∀ schedule pick,
        spec.unguarded (step.accesses (run (analysis m items start) schedule) pick) ≠ [] →
        (run (analysis m items start) schedule).tasks = [Task.analysisCoordinator start]
        ∧ (run (analysis m items start) schedule).self.m_currentState
            = common.CleanerState.ANALYZING)
    ∧ (∀ schedule pick,
        spec.unguarded (step.accesses (run (clear m items start) schedule) pick) ≠ [] →
        (∃ baseline, (run (clear m items start) schedule).tasks
            = [Task.clearCoordinator start items baseline])
        ∧ ((run (clear m items start) schedule).self.m_currentState
              = common.CleanerState.ANALYZING
            ∨ (run (clear m items start) schedule).self.m_currentState
              = common.CleanerState.CLEANING)) := by
  refine ⟨unguarded_worker_turn, ?_, unguarded_drawMain, ?_, drawMain_starts_run, ?_,
    unguarded_turn, ?_, ?_⟩
  · intro m item option rest henabled
    simp only [Task.accesses, henabled, if_true]
    rfl
  · intro shown click needed
    constructor <;> cases shown <;> cases click <;> rfl
  · intro shown click needed
    constructor <;> cases shown <;> cases click <;> rfl
  · intro schedule pick h
    obtain ⟨task, htasks, _⟩ := unguarded_step _ pick h
    rcases analysisRun_run m.self m.world _ start schedule _
      (Or.inl (analysis_phase m items start hidle)) with hp | hd
    · have hc := hp.coord
      rw [htasks, List.mem_singleton] at hc
      exact ⟨by rw [htasks, hc], hp.state⟩
    · rw [hd.tasks] at htasks
      cases htasks
  · intro schedule pick h
    obtain ⟨task, htasks, _⟩ := unguarded_step _ pick h
    rcases clearRun_run m.self m.world _ start items schedule _
      (Or.inl (clear_phase m items start hidle)) with hp | ⟨_, totalFiles, hp⟩ | hd
    · have hc := hp.coord
      rw [htasks, List.mem_singleton] at hc
      exact ⟨⟨none, by rw [htasks, hc]⟩, Or.inl hp.state⟩
    · have hc := hp.coord
      rw [htasks, List.mem_singleton] at hc
      exact ⟨⟨some totalFiles, by rw [htasks, hc]⟩, Or.inr hp.state⟩
    · rw [hd.tasks] at htasks
      cases htasks

end core

namespace core

/-- The theorem `summary_access_discipline` in the analysis run of the end-to-end
scenario, at the last turn of the coordinator. -/
theorem summary_access_discipline_witness :
    sample.scenario.tasks = []
    ∧ spec.unguarded (step.accesses
        (run (analysis sample.scenario sample.tempCatalog 0) [(0, 0), (0, 0), (0, 0)]) 0) ≠ []
    ∧ (run (analysis sample.scenario sample.tempCatalog 0) [(0, 0), (0, 0), (0, 0)]).tasks
        = [Task.analysisCoordinator 0]
    ∧ (run (analysis sample.scenario sample.tempCatalog 0)
        [(0, 0), (0, 0), (0, 0)]).self.m_currentState = common.CleanerState.ANALYZING :=
  ⟨rfl, by decide,
    (summary_access_discipline sample.scenario sample.tempCatalog 0 rfl).2.2.2.2.2.2.2.1
      [(0, 0), (0, 0), (0, 0)] 0 (by decide)⟩

end core
